import Mathlib

/-!
# moon-papers: decoding, subject resolution, filtering and grouping

A shallow embedding of `src/src/App.jsx` (`decodeData`, the cache updaters,
`filteredData`, `groupedData`) and `src/src/subjectMapping.js`
(`getIALSubjectName`), with the properties of the specification proved or refuted
over it.

Modelling conventions.

* JavaScript values that can sit in a record field are the primitives
  `undefined`, `null`, booleans, numbers and strings (`JSVal`).  Numbers are the
  doubles with an integer value, of magnitude below 2^1024: a sum is the exact
  sum rounded to the nearest double (`numAdd`), `String(n)` prints the shortest
  digits that denote the double, with an exponent from 1e21 on
  (`numberToString`), and `parseInt` rounds what it reads to a double.  `NaN` is
  the `none` of an `Option Int`.  Of a difference computed by a comparator only
  the sign is used, which rounding keeps, so `numSub` is the exact difference.
  Strings are sequences of characters.
* A thrown `TypeError` is `Except.error .typeError`.
* `String.prototype.toLowerCase` is a host built-in (Unicode case mapping); the
  filter takes it as the parameter `toLowerCase`, so every theorem about the
  filter holds for the real mapping.  `asciiLower` is the instance used when a
  definition is evaluated on a concrete input.
* `localeCompare` and the conversion of a string to a number are host built-ins
  too; `groupedData` takes them as the parameter `Host`, and `plainHost` is the
  instance used for evaluation (`numericHost` where the option `numeric` of the
  collation matters).
* An object used as a table or as a dictionary is the list of its own
  properties in creation order; `Object.values` and `Object.entries` list
  array-index keys first.  A read `m[k]` also finds the members that `m`
  inherits from `Object.prototype` (`objectPrototypeKeys`): the reads
  `MONTHS[session]`, `units[unitCode]` and `components[comp]` are embedded with
  them (`monthValue`, `ialInsert`, `cieInsert`).  The keys of the by-paper
  tables and of the by-session table `groups` contain the character '|', the
  keys read from the subject mapping have at most three characters and the
  keys read from a legacy object are fixed field names, so none of these reads
  finds an inherited member.  A run that assigns a property of
  `Object.prototype` itself ends here with `prototypeWrite`.
* `Array.prototype.sort` is a stable insertion sort in which a comparator
  result `NaN` counts as 0.  ECMAScript fixes the result of `sort` for a
  consistent comparator; where a comparator is not consistent the result
  depends on the pairs the engine compares, and the inputs evaluated in this
  file with such a comparator are arrays that are left as they are when every
  element is compared with its predecessor only.
-/

namespace MoonPapers

/-! ## JavaScript values -/

/-- Primitive JavaScript values. -/
inductive JSVal where
  | undefined
  | null
  | bool (b : Bool)
  | num (n : Int)
  | str (s : String)
  deriving DecidableEq, Repr

/-- Why a run of the embedded code has no result here: a thrown `TypeError`, or
(`prototypeWrite`) an assignment to a property of the object `Object.prototype` itself,
which every object inherits from; the code goes on after such an assignment, in a state
that this development does not follow. -/
inductive JSError where
  | typeError
  | prototypeWrite
  deriving DecidableEq, Repr

deriving instance DecidableEq for Except

/-- JavaScript `ToBoolean`: `undefined`, `null`, `false`, `0` and `""` are falsy. -/
def truthy : JSVal → Bool
  | .undefined => false
  | .null => false
  | .bool b => b
  | .num n => n != 0
  | .str s => s != ""

/-- The spacing of the doubles around `n`: the least power of two `q`, reached from `q` by
doubling, for which `n / q` is below 2^53. -/
def doubleUlp : Nat → Nat → Nat → Nat
  | 0, _, q => q
  | fuel + 1, n, q => if n / q < 2 ^ 53 then q else doubleUlp fuel n (2 * q)

/-- The double nearest to the natural number `n`, ties going to the even significand
(numbers below 2^53 are doubles; overflow to `Infinity` is not reached below 2^1024). -/
def roundNat (n : Nat) : Nat :=
  if n < 2 ^ 53 then n
  else
    let q := doubleUlp n n 1
    let m := n / q
    let r := n % q
    if q < 2 * r ∨ (2 * r = q ∧ m % 2 = 1) then (m + 1) * q else m * q

/-- The double nearest to the integer `n`. -/
def roundDouble (n : Int) : Int :=
  if n < 0 then -(roundNat n.natAbs : Int) else (roundNat n.natAbs : Int)

/-- JavaScript `x + y` on two numbers that are integers: the exact sum, rounded to the
nearest double. -/
def numAdd (x y : Int) : Int :=
  roundDouble (x + y)

/-- The number of decimal digits of `n`. -/
def decimalLength (n : Nat) : Nat :=
  (Nat.toDigits 10 n).length

/-- The pair `(s, n)` of `Number::toString` for the double `v` of `nd` digits: `s` is the
shortest decimal significand for which `s * 10^(n - k)`, `k` the number of digits of `s`,
rounds to `v` (the nearest to `v` when two qualify, the even one on a tie); the search
goes from `k` digits upward. -/
def shortestDecimal (v nd : Nat) : Nat → Nat → Nat × Nat
  | 0, _ => (v, nd)
  | fuel + 1, k =>
    if nd ≤ k then (v, nd)
    else
      let p := 10 ^ (nd - k)
      let lo := v / p
      let okLo : Bool := roundNat (lo * p) = v
      let okHi : Bool := roundNat ((lo + 1) * p) = v
      let nearerHi : Bool :=
        (lo + 1) * p - v < v - lo * p ∨ ((lo + 1) * p - v = v - lo * p ∧ lo % 2 = 1)
      if okHi && (!okLo || nearerHi) then
        (if lo + 1 = 10 ^ k then (1, nd + 1) else (lo + 1, nd))
      else if okLo then (lo, nd)
      else shortestDecimal v nd fuel (k + 1)

/-- JavaScript `String(x)` for a number that is an integer: the decimal digits below 2^53;
from there on the shortest significand that denotes the double, followed by zeros below
1e21 and by an exponent from 1e21 on. -/
def numberToString (x : Int) : String :=
  if x.natAbs < 2 ^ 53 then toString x
  else
    let sn := shortestDecimal x.natAbs (decimalLength x.natAbs) 17 1
    let ds := Nat.toDigits 10 sn.1
    let body : List Char :=
      if sn.2 ≤ 21 then ds ++ List.replicate (sn.2 - ds.length) '0'
      else
        match ds with
        | [] => []
        | [d] => d :: 'e' :: '+' :: Nat.toDigits 10 (sn.2 - 1)
        | d :: rest => d :: '.' :: (rest ++ 'e' :: '+' :: Nat.toDigits 10 (sn.2 - 1))
    String.mk ((if x < 0 then ['-'] else []) ++ body)

/-- JavaScript `String(v)` (also the conversion done by a template literal). -/
def toStr : JSVal → String
  | .undefined => "undefined"
  | .null => "null"
  | .bool true => "true"
  | .bool false => "false"
  | .num n => numberToString n
  | .str s => s

/-- JavaScript `a || b`. -/
def jsOr (a b : JSVal) : JSVal :=
  if truthy a then a else b

/-- A plain JavaScript object: its own properties, in order, with distinct keys. -/
abbrev JSObj := List (String × JSVal)

/-- Property read `o.k` / `o[k]`: the value of own property `k`, `undefined` when absent. -/
def JSObj.get (o : JSObj) (k : String) : JSVal :=
  match o.lookup k with
  | some v => v
  | none => .undefined

/-! ## Data model -/

/-- The canonical record object built by `decodeData`. `Type_` is the field `Type`. -/
structure Record where
  Year : JSVal
  Session : JSVal
  Type_ : JSVal
  Component : JSVal
  URL : JSVal
  Subject : JSVal
  Unit : JSVal
  Category : JSVal
  Unit_Code : JSVal := .undefined
  Title : JSVal := .undefined
  deriving DecidableEq, Repr

/-- An encoded tuple `[y, s, t, c, u]`: `y` the integer year offset, `s` the integer
session code (`none` when the tuple carries no code: `undefined` or `null`), and
`t`, `c`, `u` arbitrary primitive values. -/
structure Encoded where
  y : Int
  s : Option Int
  t : JSVal
  c : JSVal
  u : JSVal
  deriving DecidableEq, Repr

/-- The argument `data` of `decodeData`: either an object mapping subject keys to
tuple lists (given as its entries in `Object.entries` order), or an array of
pre-expanded objects. -/
inductive RawData where
  | grouped (entries : List (String × List Encoded))
  | legacy (items : List JSObj)

/-! ## `App.jsx`: constants and `decodeData` -/

/-- The object literal `SESSION_REV_MAP` (App.jsx line 7). -/
def SESSION_REV_MAP : List (Int × String) :=
  [(1, "January"), (2, "February"), (3, "Feb/March"), (4, "April"), (5, "May"),
   (6, "May/June"), (7, "July"), (8, "August"), (9, "September"), (10, "October"),
   (11, "Oct/Nov"), (12, "December")]

/-- The read `SESSION_REV_MAP[s]`: `undefined` when `s` is no key of the object. -/
def sessionLookup (s : Option Int) : JSVal :=
  match s with
  | some k =>
    match SESSION_REV_MAP.lookup k with
    | some v => .str v
    | none => .undefined
  | none => .undefined

/-- The body of the inner loop of `decodeData` (App.jsx lines 19-75): the record
built from one tuple of the entry with key `subject`. -/
def decodeTuple (level subject : String) (record : Encoded) : Record :=
  let year : Int := if record.y < 50 then numAdd 2000 record.y else numAdd 1900 record.y
  let session := jsOr (sessionLookup record.s) (.str "Unknown")
  let baseUrl := "https://papers.xtremepape.rs/CAIE/"
  let baseUrl :=
    if level = "IGCSE" then baseUrl ++ "IGCSE/"
    else if level = "O Level" then baseUrl ++ "O Level/"
    else if level = "AS and A Level" then baseUrl ++ "AS and A Level/"
    else if level = "IAL" then
      "https://qualifications.pearson.com/content/dam/pdf/International Advanced Level/"
    else baseUrl
  let fullUrl : JSVal :=
    if level = "IAL" then record.u
    else .str (baseUrl ++ subject ++ "/" ++ toStr record.u)
  let item : Record :=
    { Year := .num year
      Session := session
      Type_ := record.t
      Component := record.c
      URL := fullUrl
      Subject := .str subject
      Unit := record.c
      Category := .str level }
  if level = "IAL" then
    { item with Unit_Code := .str subject, Title := record.c, Component := .null }
  else item

/-- The arrow function of the legacy branch of `decodeData` (App.jsx lines 82-93). -/
def decodeLegacyItem (item : JSObj) : Record :=
  { Year := jsOr (item.get "y") (item.get "Year")
    Session := jsOr (item.get "s") (item.get "Session")
    Type_ := jsOr (item.get "t") (item.get "Type")
    URL := jsOr (item.get "u") (item.get "URL")
    Category := jsOr (item.get "c") (item.get "Category")
    Subject := jsOr (item.get "S") (item.get "Subject")
    Component := jsOr (item.get "C") (item.get "Component")
    Unit := jsOr (item.get "U") (item.get "Unit")
    Unit_Code := jsOr (item.get "uc") (item.get "Unit_Code")
    Title := jsOr (item.get "T") (item.get "Title") }

/-- The function `decodeData` (App.jsx lines 12-94).  The grouped branch runs the two
nested loops, pushing each decoded item onto `flattened`. -/
def decodeData (data : RawData) (level : String) : List Record :=
  match data with
  | .grouped entries =>
    entries.foldl
      (fun flattened entry =>
        entry.2.foldl (fun flattened record => flattened ++ [decodeTuple level entry.1 record])
          flattened)
      []
  | .legacy items => items.map decodeLegacyItem

/-! ## `subjectMapping.js` -/

/-- The object literal `ialSubjectMapping` (the key `WGK` is written twice in the source). -/
def ialSubjectMapping : List (String × String) :=
  [("WAA", "Arabic"), ("WBI", "Biology"), ("WCH", "Chemistry"), ("WPH", "Physics"),
   ("WMA", "Mathematics"), ("WAC", "Accounting"), ("WBS", "Business Studies"),
   ("WEC", "Economics"), ("WGE", "Geography"), ("WHI", "History"),
   ("WIT", "Information Technology"), ("WLA", "Law"), ("WPS", "Psychology"),
   ("WEN", "English Language"), ("WET", "English Literature"), ("WFR", "French"),
   ("WGN", "German"), ("WSP", "Spanish"), ("WGK", "Greek"), ("WGK", "Greek"),
   ("WST", "Statistics"), ("WDM", "Decision Mathematics"), ("WFM", "Further Mathematics"),
   ("WPM", "Pure Mathematics"), ("WME", "Mechanics")]

/-- The call `s.substring(0, 3)`: the first three characters of `s`. -/
def substring03 (s : String) : String :=
  String.mk (s.data.take 3)

/-- The read `ialSubjectMapping[k]`: `undefined` when `k` is no key of the object. -/
def mappingLookup (k : String) : JSVal :=
  match ialSubjectMapping.lookup k with
  | some name => .str name
  | none => .undefined

/-- The function `getIALSubjectName` (subjectMapping.js lines 29-36).  A truthy value
that is not a string has no `substring` method, so the call throws a `TypeError`. -/
def getIALSubjectName (unitCode : JSVal) : Except JSError JSVal :=
  if !truthy unitCode then .ok (.str "Unknown Subject")
  else
    match unitCode with
    | .str s => .ok (jsOr (mappingLookup (substring03 s)) unitCode)
    | _ => .error .typeError

/-! ## `App.jsx`: `filteredData` -/

/-- The characters matched by the regular-expression class `\s`: JavaScript white
space and line terminators. -/
def isWhite (c : Char) : Bool :=
  let n := c.toNat
  n == 9 || n == 10 || n == 11 || n == 12 || n == 13 || n == 32 || n == 160 ||
  n == 0x1680 || (0x2000 ≤ n && n ≤ 0x200A) || n == 0x2028 || n == 0x2029 ||
  n == 0x202F || n == 0x205F || n == 0x3000 || n == 0xFEFF

/-- Scanner behind `splitWs`: `cur` is the current piece (reversed) and `inSep`
tells that the previous character belonged to a separator. -/
def splitWsAux : List Char → List Char → Bool → List (List Char)
  | [], cur, _ => [cur.reverse]
  | c :: cs, cur, inSep =>
    if isWhite c then
      if inSep then splitWsAux cs cur true
      else cur.reverse :: splitWsAux cs [] true
    else splitWsAux cs (c :: cur) false

/-- The call `s.split(/\s+/)`: the pieces of `s` between maximal runs of white space
(an empty piece where `s` starts or ends with white space, and `[""]` for `""`). -/
def splitWs (s : String) : List String :=
  (splitWsAux s.data [] false).map String.mk

/-- Substring test on character lists. -/
def includesChars : List Char → List Char → Bool
  | [], t => t.isEmpty
  | c :: cs, t => t.isPrefixOf (c :: cs) || includesChars cs t

/-- The call `s.includes(t)`. -/
def includes (s t : String) : Bool :=
  includesChars s.data t.data

/-- The array `parts` built in the filter callback (App.jsx lines 324-336). -/
def searchParts (activeTab : String) (item : Record) : Except JSError (List JSVal) :=
  let parts := [item.Subject, item.Year, item.Unit, item.Unit_Code, item.Session,
    item.Title, item.Component]
  if activeTab = "ial" then
    match getIALSubjectName item.Unit_Code with
    | .ok name => .ok (parts ++ [name])
    | .error e => .error e
  else .ok parts

/-- The test `part && String(part).toLowerCase().includes(term)` of line 340, as a
boolean. -/
def partMatches (toLowerCase : String → String) (term : String) (part : JSVal) : Bool :=
  truthy part && includes (toLowerCase (toStr part)) term

/-- The callback passed to `currentData.filter` (App.jsx lines 323-342). -/
def filterCallback (toLowerCase : String → String) (lowerTerms : List String)
    (activeTab : String) (item : Record) : Except JSError Bool :=
  match searchParts activeTab item with
  | .ok parts =>
    .ok (lowerTerms.all fun term => parts.any fun part => partMatches toLowerCase term part)
  | .error e => .error e

/-- The call `xs.filter(p)` for a callback that may throw: elements are visited in
order and the first exception aborts the call. -/
def arrayFilter {α : Type} (p : α → Except JSError Bool) : List α → Except JSError (List α)
  | [] => .ok []
  | a :: as =>
    match p a with
    | .error e => .error e
    | .ok keep =>
      match arrayFilter p as with
      | .error e => .error e
      | .ok rest => .ok (if keep then a :: rest else rest)

/-- The memo `filteredData` (App.jsx lines 318-343) as a function of the search term,
the current records and the active tab. -/
def filteredData (toLowerCase : String → String) (deferredSearchTerm : String)
    (currentData : List Record) (activeTab : String) : Except JSError (List Record) :=
  if deferredSearchTerm = "" then .ok currentData
  else
    let lowerTerms :=
      (splitWs (toLowerCase deferredSearchTerm)).filter (fun t => t.length > 0)
    arrayFilter (filterCallback toLowerCase lowerTerms activeTab) currentData

/-- ASCII instance of `toLowerCase`, used to evaluate the filter on concrete inputs. -/
def asciiLower (s : String) : String :=
  String.mk (s.data.map Char.toLower)

/-! ## Specification-side notions -/

/-- The tuples of a grouped payload in iteration order: entries in order, the tuples
of an entry in order, each paired with the key of its entry. -/
def payloadTuples : List (String × List Encoded) → List (String × Encoded)
  | [] => []
  | entry :: rest => entry.2.map (fun record => (entry.1, record)) ++ payloadTuples rest

/-- The fixed table of session names, in code order 1..12. -/
def sessionNames : List String :=
  ["January", "February", "Feb/March", "April", "May", "May/June", "July", "August",
   "September", "October", "Oct/Nov", "December"]

/-- Specification side: `tok` is a whitespace-separated non-empty token of `s`, that is
a non-empty run of non-white characters of `s` bounded on each side by a white
character or by an end of `s`. -/
def IsToken (tok s : String) : Prop :=
  tok.data ≠ [] ∧ (∀ c ∈ tok.data, isWhite c = false) ∧
  ∃ pre post : List Char, s.data = pre ++ tok.data ++ post ∧
    (∀ c, pre.getLast? = some c → isWhite c = true) ∧
    (∀ c, post.head? = some c → isWhite c = true)

/-- Specification side: `v` is one of the values of record `r` that a token may match:
Subject, Year, Unit, Unit_Code, Session, Title, Component and, for the IAL tab only, the
resolved subject name of Unit_Code. -/
def SearchField (activeTab : String) (r : Record) (v : JSVal) : Prop :=
  v = r.Subject ∨ v = r.Year ∨ v = r.Unit ∨ v = r.Unit_Code ∨ v = r.Session ∨
  v = r.Title ∨ v = r.Component ∨
  (activeTab = "ial" ∧ getIALSubjectName r.Unit_Code = .ok v)

/-- Specification side, as the match law is worded: every token of the lower-cased query
is a substring of the lower-cased string form of some search field of `r`. -/
def MatchesAnyField (toLowerCase : String → String) (query activeTab : String)
    (r : Record) : Prop :=
  ∀ tok : String, IsToken tok (toLowerCase query) →
    ∃ v, SearchField activeTab r v ∧ tok.data <:+: (toLowerCase (toStr v)).data

/-- Specification side, the match law restricted to truthy fields: every token of the
lower-cased query is a substring of the lower-cased string form of some search field of
`r` that is truthy (not `undefined`, `null`, `false`, `0` or `""`). -/
def MatchesTruthyField (toLowerCase : String → String) (query activeTab : String)
    (r : Record) : Prop :=
  ∀ tok : String, IsToken tok (toLowerCase query) →
    ∃ v, SearchField activeTab r v ∧ truthy v = true ∧
      tok.data <:+: (toLowerCase (toStr v)).data

/-- Scanner invariant: `tok` is the piece under construction `cur` extended by the
non-white run at the start of `s`. -/
def RunFrom (s cur tok : List Char) : Prop :=
  ∃ run post : List Char, s = run ++ post ∧ (∀ c ∈ run, isWhite c = false) ∧
    (∀ c, post.head? = some c → isWhite c = true) ∧ tok = cur.reverse ++ run

/-- Scanner invariant: `tok` is a run of non-white characters of `s` that starts right
after a white character of `s`. -/
def LaterToken (s tok : List Char) : Prop :=
  ∃ pre post : List Char, s = pre ++ tok ++ post ∧ pre ≠ [] ∧
    (∀ c, pre.getLast? = some c → isWhite c = true) ∧
    (∀ c ∈ tok, isWhite c = false) ∧
    (∀ c, post.head? = some c → isWhite c = true)

/-- A legacy object whose long-form year is the number 0. -/
def yearZeroObject : JSObj :=
  [("Subject", .str "Biology"), ("Year", .num 0), ("Session", .str "May/June"),
   ("Type", .str "qp"), ("URL", .str "paper.pdf"), ("Category", .str "IGCSE")]

/-- The record that `decodeData` builds from `yearZeroObject`. -/
def yearZeroRecord : Record :=
  { Year := .num 0, Session := .str "May/June", Type_ := .str "qp",
    Component := .undefined, URL := .str "paper.pdf", Subject := .str "Biology",
    Unit := .undefined, Category := .str "IGCSE" }

/-- A record of the Biology subject for the year 2020. -/
def biology2020 : Record :=
  { Year := .num 2020, Session := .str "May/June", Type_ := .str "qp",
    Component := .str "22", URL := .str "paper.pdf", Subject := .str "Biology (0610)",
    Unit := .str "22", Category := .str "IGCSE" }

/-- A one-entry payload used to instantiate the decoding theorems. -/
def biologyPayload : List (String × List Encoded) :=
  [("Biology (0610)",
    [⟨24, some 6, .str "qp", .str "22", .str "0610_s24_qp_22.pdf"⟩,
     ⟨24, some 6, .str "ms", .str "22", .str "0610_s24_ms_22.pdf"⟩])]

/-- A legacy object carrying both the abbreviated and the long-form year key. -/
def bothYearKeys : JSObj :=
  [("y", .num 2019), ("Year", .num 2020)]

/-! ## `App.jsx`: the catalogue cache updaters -/

/-- The state `cieCache`: an object from level keys to record arrays. -/
abbrev Cache := List (String × List Record)

/-- The object literal `{ ...prev, [k]: v }`: `prev` with property `k` set to `v`. -/
def spreadSet {β : Type} (prev : List (String × β)) (k : String) (v : β) :
    List (String × β) :=
  match prev.lookup k with
  | some _ => prev.map (fun kv => if kv.1 = k then (kv.1, v) else kv)
  | none => prev ++ [(k, v)]

/-- The updater passed to `setCieCache` by `preloadData` (App.jsx lines 223-226). -/
def preloadUpdater (levelKey : String) (combinedData : List Record) (prev : Cache) : Cache :=
  match prev.lookup levelKey with
  | some _ => prev
  | none => spreadSet prev levelKey combinedData

/-- The updater passed to `setCieCache` by `loadData` (App.jsx line 290). -/
def loadUpdater (cieLevel : String) (combinedData : List Record) (prev : Cache) : Cache :=
  spreadSet prev cieLevel combinedData

/-- A cache in which the level IGCSE is already populated. -/
def populatedCache : Cache :=
  [("IGCSE", [biology2020])]

/-- A payload whose tuple carries the document kind "in" (an insert). -/
def insertPayload : List (String × List Encoded) :=
  [("Biology (0610)", [⟨24, some 6, .str "in", .str "22", .str "0610_s24_in_22.pdf"⟩])]

/-! ## Host built-ins and JavaScript operators used by `groupedData` -/

/-- Host built-ins that `groupedData` calls and that are no code of the repository:
`String.prototype.localeCompare` without options and with the option `numeric: true`
(both return an integer, negative, zero or positive), and the conversion of a string to
a number (`none` is `NaN`).  `groupedData` takes them as a parameter, so its theorems hold
for every collation. -/
structure Host where
  localeCompare : String → String → Int
  localeCompareNumeric : String → String → Int
  stringToNumber : String → Option Int

/-- JavaScript `ToNumber`; `none` is `NaN`. -/
def toNumber (h : Host) : JSVal → Option Int
  | .undefined => none
  | .null => some 0
  | .bool b => some (if b then 1 else 0)
  | .num n => some n
  | .str s => h.stringToNumber s

/-- JavaScript `x - y` on numbers, as the exact difference (a comparator uses its sign
only, which rounding to a double keeps); `none` is `NaN`. -/
def numSub : Option Int → Option Int → Option Int
  | some x, some y => some (x - y)
  | _, _ => none

/-- JavaScript `x !== y` on numbers: `NaN` differs from every number, itself included. -/
def numNe : Option Int → Option Int → Bool
  | some x, some y => x != y
  | _, _ => true

/-- JavaScript `v == n` for a number literal `n`. -/
def looseEqNum (h : Host) (v : JSVal) (n : Int) : Bool :=
  match v with
  | .undefined => false
  | .null => false
  | _ => toNumber h v == some n

/-- The call `a.localeCompare(b)`: a `TypeError` unless `a` is a string; the argument
is converted to a string. -/
def localeCompareCall (h : Host) (a b : JSVal) : Except JSError (Option Int) :=
  match a with
  | .str s => .ok (some (h.localeCompare s (toStr b)))
  | _ => .error .typeError

/-- The names of the members of `Object.prototype`, which every plain object inherits: a
read `m[k]` of an object literal `m` with such a name `k` that is no own key yields the
inherited member, a function or (for `__proto__`) an object. -/
def objectPrototypeKeys : List String :=
  ["constructor", "__defineGetter__", "__defineSetter__", "hasOwnProperty",
   "__lookupGetter__", "__lookupSetter__", "isPrototypeOf", "propertyIsEnumerable",
   "toString", "valueOf", "__proto__", "toLocaleString"]

/-- The object literal `MONTHS` (App.jsx line 6). -/
def MONTHS : List (String × Int) :=
  [("January", 1), ("February", 2), ("March", 3), ("May", 5), ("June", 6),
   ("October", 10), ("November", 11)]

/-- The rank of a session name: its entry in `MONTHS`, and 0 when it has none. -/
def monthRank (session : JSVal) : Int :=
  match MONTHS.lookup (toStr session) with
  | some n => n
  | none => 0

/-- The expression `MONTHS[session] || 0` as an operand of the subtractions of lines 391,
466 and 528: the entry of an own key, `NaN` (`none`) for the inherited member that a name
of `Object.prototype` yields, and 0 otherwise. -/
def monthValue (session : JSVal) : Option Int :=
  match MONTHS.lookup (toStr session) with
  | some n => some n
  | none => if toStr session ∈ objectPrototypeKeys then none else some 0

/-- The value a comparator result has for `sort`: `NaN` counts as `+0`. -/
def nanToZero : Option Int → Int
  | some c => c
  | none => 0

/-- Insertion of `a` in front of the first element `b` of a sorted array for which
`cmp(a, b) <= 0`. -/
def orderedInsertM {α : Type} (cmp : α → α → Except JSError (Option Int)) (a : α) :
    List α → Except JSError (List α)
  | [] => .ok [a]
  | b :: l =>
    match cmp a b with
    | .error e => .error e
    | .ok c =>
      if nanToZero c ≤ 0 then .ok (a :: b :: l)
      else
        match orderedInsertM cmp a l with
        | .error e => .error e
        | .ok r => .ok (b :: r)

/-- The call `xs.sort(cmp)`, as a stable insertion sort: each element is compared with
elements that follow it in `xs`, and an exception of the comparator aborts the call.
ECMAScript fixes the result of `sort` for a consistent comparator (the stable sorted
arrangement, which this is); which pairs an engine compares is not fixed. -/
def arraySort {α : Type} (cmp : α → α → Except JSError (Option Int)) :
    List α → Except JSError (List α)
  | [] => .ok []
  | a :: l =>
    match arraySort cmp l with
    | .error e => .error e
    | .ok sorted => orderedInsertM cmp a sorted

/-- A loop `xs.forEach(f)` that builds one result per element and may throw. -/
def traverse {α β : Type} (f : α → Except JSError β) : List α → Except JSError (List β)
  | [] => .ok []
  | a :: l =>
    match f a with
    | .error e => .error e
    | .ok b =>
      match traverse f l with
      | .error e => .error e
      | .ok bs => .ok (b :: bs)

/-- The statement `if (!m[k]) m[k] = init` on an object `m` whose values are objects. -/
def objEnsure {β : Type} (m : List (String × β)) (k : String) (init : β) :
    List (String × β) :=
  match m.lookup k with
  | some _ => m
  | none => m ++ [(k, init)]

/-- An in-place update `f` of the object stored at `m[k]`. -/
def objModify {β : Type} (m : List (String × β)) (k : String) (f : β → β) :
    List (String × β) :=
  m.map (fun kv => if kv.1 = k then (kv.1, f kv.2) else kv)

/-- The number `n` when the property key `k` is an array index (the canonical decimal
form of an integer below 2^32 - 1). -/
def arrayIndex? (k : String) : Option Nat :=
  match k.data with
  | [] => none
  | [c] => if c.isDigit then some (c.toNat - 48) else none
  | c :: cs =>
    if c = '0' then none
    else if (c :: cs).all Char.isDigit then
      let n := (c :: cs).foldl (fun acc d => 10 * acc + (d.toNat - 48)) 0
      if n < 4294967295 then some n else none
    else none

/-- The call `Object.values(m)`: the values under array-index keys in ascending index
order, then the other values in insertion order. -/
def objectValues {β : Type} (m : List (String × β)) : List β :=
  let indexed := m.filterMap (fun kv => (arrayIndex? kv.1).map (fun n => (n, kv.2)))
  let named := m.filter (fun kv => (arrayIndex? kv.1).isNone)
  (indexed.insertionSort (fun a b => a.1 ≤ b.1)).map Prod.snd ++ named.map Prod.snd

/-- The value of a decimal or hexadecimal digit, when `c` is one in the given radix. -/
def digitValue (radix : Nat) (c : Char) : Option Nat :=
  let v :=
    if c.isDigit then some (c.toNat - 48)
    else if 'a'.toNat ≤ c.toNat ∧ c.toNat ≤ 'f'.toNat then some (c.toNat - 'a'.toNat + 10)
    else if 'A'.toNat ≤ c.toNat ∧ c.toNat ≤ 'F'.toNat then some (c.toNat - 'A'.toNat + 10)
    else none
  match v with
  | some d => if d < radix then some d else none
  | none => none

/-- The number written by the longest run of digits at the start of a string; `acc` is
the value read so far (`none` before the first digit). -/
def parseDigits (radix : Nat) : List Char → Option Nat → Option Nat
  | [], acc => acc
  | c :: cs, acc =>
    match digitValue radix c with
    | some d => parseDigits radix cs (some (radix * acc.getD 0 + d))
    | none => acc

/-- The call `parseInt(v)` with no radix: leading white space, an optional sign, an
optional `0x`, then the longest run of digits, the number read being rounded to the
nearest double; `none` is `NaN`. -/
def parseInt (v : JSVal) : Option Int :=
  let cs := (toStr v).data.dropWhile isWhite
  let signed : Bool × List Char :=
    match cs with
    | '-' :: r => (true, r)
    | '+' :: r => (false, r)
    | _ => (false, cs)
  let based : Nat × List Char :=
    match signed.2 with
    | '0' :: 'x' :: r => (16, r)
    | '0' :: 'X' :: r => (16, r)
    | _ => (10, signed.2)
  match parseDigits based.1 based.2 none with
  | some n => some (roundDouble (if signed.1 then -(n : Int) else (n : Int)))
  | none => none

/-! ## `App.jsx`: `groupedData`, by-paper mode -/

/-- The session object `{ year, session, qp, ms, er, gt, others }` (lines 372-376);
`none` in a slot is `null`. -/
structure SessionSlot where
  year : JSVal
  session : JSVal
  qp : Option Record := none
  ms : Option Record := none
  er : Option Record := none
  gt : Option Record := none
  others : List Record := []
  deriving DecidableEq, Repr

/-- The group object `{ id, subject, unit, sessions }` as built by the first loop of
the by-paper branch (lines 362-367); `sessions` is an object keyed by `Year|Session`. -/
structure PaperAcc where
  id : String
  subject : JSVal
  unit : JSVal
  sessions : List (String × SessionSlot)
  deriving DecidableEq, Repr

/-- The group object after the second loop (lines 388-395), with `sortedSessions` and
`isOldSyllabus` set. -/
structure PaperGroup where
  id : String
  subject : JSVal
  unit : JSVal
  sessions : List (String × SessionSlot)
  sortedSessions : List SessionSlot
  isOldSyllabus : Bool
  deriving DecidableEq, Repr

/-- The variables `subject` and `unit` of the by-paper loop (lines 351-357). -/
def paperSubjectUnit (activeTab : String) (item : Record) : Except JSError (JSVal × JSVal) :=
  let subject := item.Subject
  let unit := jsOr (jsOr (jsOr item.Unit item.Component) item.Unit_Code) (.str "General")
  if activeTab = "ial" then
    match getIALSubjectName item.Unit_Code with
    | .ok name => .ok (jsOr name (.str "Unknown"), item.Unit_Code)
    | .error e => .error e
  else .ok (subject, unit)

/-- The template literal of line 359. -/
def paperKey (su : JSVal × JSVal) : String :=
  toStr su.1 ++ "|" ++ toStr su.2

/-- The template literal of line 370. -/
def sessionKey (item : Record) : String :=
  toStr item.Year ++ "|" ++ toStr item.Session

/-- The slot assignment of lines 380-384. -/
def assignSlot (item : Record) (s : SessionSlot) : SessionSlot :=
  if item.Type_ = .str "qp" then { s with qp := some item }
  else if item.Type_ = .str "ms" then { s with ms := some item }
  else if item.Type_ = .str "er" then { s with er := some item }
  else if item.Type_ = .str "gt" then { s with gt := some item }
  else { s with others := s.others ++ [item] }

/-- Lines 359-384 of the by-paper loop: the effect of one item on `groups`. -/
def paperInsert (su : JSVal × JSVal) (groups : List (String × PaperAcc)) (item : Record) :
    List (String × PaperAcc) :=
  let key := paperKey su
  let groups := objEnsure groups key { id := key, subject := su.1, unit := su.2, sessions := [] }
  objModify groups key (fun g =>
    { g with
      sessions :=
        objModify
          (objEnsure g.sessions (sessionKey item)
            { year := item.Year, session := item.Session })
          (sessionKey item) (assignSlot item) })

/-- The loop `filteredData.forEach` of the by-paper branch (lines 350-385), started
with the object `groups`. -/
def paperCollect (activeTab : String) :
    List Record → List (String × PaperAcc) → Except JSError (List (String × PaperAcc))
  | [], groups => .ok groups
  | item :: rest, groups =>
    match paperSubjectUnit activeTab item with
    | .error e => .error e
    | .ok su => paperCollect activeTab rest (paperInsert su groups item)

/-- The comparator of the session sort (lines 389-392). -/
def sessionCompare (h : Host) (a b : SessionSlot) : Option Int :=
  if a.year ≠ b.year then numSub (toNumber h b.year) (toNumber h a.year)
  else numSub (monthValue b.session) (monthValue a.session)

/-- The test `s.year == 2023 || s.year == 2024 || s.year == 2025` of line 394. -/
def isRecentYear (h : Host) (s : SessionSlot) : Bool :=
  looseEqNum h s.year 2023 || looseEqNum h s.year 2024 || looseEqNum h s.year 2025

/-- The body of the second loop (lines 388-395) for one group. -/
def finishPaperGroup (h : Host) (g : PaperAcc) : Except JSError PaperGroup :=
  match arraySort (fun a b => .ok (sessionCompare h a b)) (objectValues g.sessions) with
  | .error e => .error e
  | .ok sorted =>
    .ok { id := g.id, subject := g.subject, unit := g.unit, sessions := g.sessions,
          sortedSessions := sorted,
          isOldSyllabus := !(sorted.any (isRecentYear h)) }

/-- The comparator of the group sort of the by-paper branch (lines 398-408). -/
def paperGroupCompare (h : Host) (sortOrder : String) (a b : PaperGroup) :
    Except JSError (Option Int) :=
  if a.isOldSyllabus ≠ b.isOldSyllabus then .ok (some (if a.isOldSyllabus then 1 else -1))
  else if sortOrder = "az" then localeCompareCall h a.subject b.subject
  else if sortOrder = "za" then localeCompareCall h b.subject a.subject
  else if a.subject ≠ b.subject then localeCompareCall h a.subject b.subject
  else .ok (some (h.localeCompareNumeric (toStr a.unit) (toStr b.unit)))

/-- The by-paper branch of `groupedData` (lines 346-411). -/
def groupedPaper (h : Host) (filteredData : List Record) (activeTab sortOrder : String) :
    Except JSError (List PaperGroup) :=
  match paperCollect activeTab filteredData [] with
  | .error e => .error e
  | .ok groups =>
    match traverse (finishPaperGroup h) (objectValues groups) with
    | .error e => .error e
    | .ok finished => arraySort (paperGroupCompare h sortOrder) finished

/-! ## `App.jsx`: `groupedData`, by-session mode -/

/-- The property `year` of a by-session group: the string 'Resources' or a number
(`none` is `NaN`). -/
inductive SessionYear where
  | resources
  | number (n : Option Int)
  deriving DecidableEq, Repr

/-- The unit object `{ id, qp, ms, er, others }` of the IAL branch (line 434). -/
structure UnitSlot where
  id : JSVal
  qp : Option Record := none
  ms : Option Record := none
  er : Option Record := none
  others : List Record := []
  deriving DecidableEq, Repr

/-- The group object of the IAL by-session branch (lines 422-429), with `sortedUnits`
as set by line 444 (empty until then). -/
structure IALGroup where
  id : String
  subject : JSVal
  session : JSVal
  year : SessionYear
  month : JSVal
  units : List (String × UnitSlot)
  sortedUnits : List UnitSlot := []
  deriving DecidableEq, Repr

/-- The slot assignment of lines 437-440. -/
def assignUnit (item : Record) (u : UnitSlot) : UnitSlot :=
  if item.Type_ = .str "qp" then { u with qp := some item }
  else if item.Type_ = .str "ms" then { u with ms := some item }
  else if item.Type_ = .str "er" then { u with er := some item }
  else { u with others := u.others ++ [item] }

/-- Lines 418-440: the effect of one item on `groups` in the IAL by-session loop. When
the unit code names a member of `Object.prototype`, the read `units[unitCode]` yields that
member, so no unit object is created: a Type qp, ms or er sets a property of the inherited
member, which is no part of `groups` (for the name `__proto__` the member is
`Object.prototype` itself), and any other Type calls `push` on its undefined property
`others`, a TypeError. -/
def ialInsert (groups : List (String × IALGroup)) (item : Record) :
    Except JSError (List (String × IALGroup)) :=
  match getIALSubjectName item.Unit_Code with
  | .error e => .error e
  | .ok subjectName =>
    let key := toStr subjectName ++ "|" ++ toStr item.Session ++ "|" ++ toStr item.Year
    let groups := objEnsure groups key
      { id := key, subject := subjectName,
        session := jsOr item.Session (.str "Resources"),
        year := if truthy item.Year then .number (parseInt item.Year) else .resources,
        month := item.Session, units := [] }
    let unitCode := item.Unit_Code
    if toStr unitCode ∈ objectPrototypeKeys then
      if item.Type_ = .str "qp" ∨ item.Type_ = .str "ms" ∨ item.Type_ = .str "er" then
        if toStr unitCode = "__proto__" then .error .prototypeWrite else .ok groups
      else .error .typeError
    else
      .ok (objModify groups key (fun g =>
        { g with
          units :=
            objModify (objEnsure g.units (toStr unitCode) { id := unitCode })
              (toStr unitCode) (assignUnit item) }))

/-- The loop `filteredData.forEach` of the IAL by-session branch (lines 417-441). -/
def ialCollect :
    List Record → List (String × IALGroup) → Except JSError (List (String × IALGroup))
  | [], groups => .ok groups
  | item :: rest, groups =>
    match ialInsert groups item with
    | .error e => .error e
    | .ok groups1 => ialCollect rest groups1

/-- The body of the loop of lines 443-445 for one group. -/
def finishIALGroup (h : Host) (g : IALGroup) : Except JSError IALGroup :=
  match arraySort (fun a b => localeCompareCall h a.id b.id) (objectValues g.units) with
  | .error e => .error e
  | .ok sorted => .ok { g with sortedUnits := sorted }

/-- The expression `isNaN(year) ? dflt : year` of lines 451-452 and 460-461. -/
def ialYear (dflt : Int) : SessionYear → Int
  | .number (some n) => n
  | _ => dflt

/-- The comparator of the group sort of the IAL by-session branch (lines 447-467). -/
def ialGroupCompare (h : Host) (sortOrder : String) (a b : IALGroup) :
    Except JSError (Option Int) :=
  if sortOrder = "az" then localeCompareCall h a.subject b.subject
  else if sortOrder = "za" then localeCompareCall h b.subject a.subject
  else if sortOrder = "oldest" ∧ ialYear (-1) a.year ≠ ialYear (-1) b.year then
    .ok (some (ialYear (-1) a.year - ialYear (-1) b.year))
  else if a.subject ≠ b.subject then localeCompareCall h a.subject b.subject
  else if ialYear 9999 a.year ≠ ialYear 9999 b.year then
    .ok (some (ialYear 9999 b.year - ialYear 9999 a.year))
  else .ok (numSub (monthValue b.month) (monthValue a.month))

/-- The IAL by-session branch of `groupedData` (lines 413-467). -/
def groupedSessionIAL (h : Host) (filteredData : List Record) (sortOrder : String) :
    Except JSError (List IALGroup) :=
  match ialCollect filteredData [] with
  | .error e => .error e
  | .ok groups =>
    match traverse (finishIALGroup h) (objectValues groups) with
    | .error e => .error e
    | .ok finished => arraySort (ialGroupCompare h sortOrder) finished

/-- The component object `{ id, qp, ms, others }` of the CIE branch (line 491). -/
structure ComponentSlot where
  id : JSVal
  qp : Option Record := none
  ms : Option Record := none
  others : List Record := []
  deriving DecidableEq, Repr

/-- The object `general` of a CIE by-session group (line 481). -/
structure GeneralSlot where
  er : Option Record := none
  gt : Option Record := none
  others : List Record := []
  deriving DecidableEq, Repr

/-- The group object of the CIE by-session branch (lines 476-483), with
`sortedComponents` as set by line 505 (empty until then). -/
structure CIEGroup where
  id : String
  subject : JSVal
  year : SessionYear
  session : JSVal
  general : GeneralSlot
  components : List (String × ComponentSlot)
  sortedComponents : List ComponentSlot := []
  deriving DecidableEq, Repr

/-- The slot assignment of lines 494-496. -/
def assignComponent (item : Record) (c : ComponentSlot) : ComponentSlot :=
  if item.Type_ = .str "qp" then { c with qp := some item }
  else if item.Type_ = .str "ms" then { c with ms := some item }
  else { c with others := c.others ++ [item] }

/-- The slot assignment of lines 498-500. -/
def assignGeneral (item : Record) (g : GeneralSlot) : GeneralSlot :=
  if item.Type_ = .str "er" then { g with er := some item }
  else if item.Type_ = .str "gt" then { g with gt := some item }
  else { g with others := g.others ++ [item] }

/-- Lines 473-501: the effect of one item on `groups` in the CIE by-session loop. When a
truthy Component names a member of `Object.prototype`, the read `components[comp]` yields
that member, so no component object is created: a Type qp or ms sets a property of the
inherited member, which is no part of `groups` (for the name `__proto__` the member is
`Object.prototype` itself), and any other Type calls `push` on its undefined property
`others`, a TypeError. -/
def cieInsert (groups : List (String × CIEGroup)) (item : Record) :
    Except JSError (List (String × CIEGroup)) :=
  let key := toStr item.Subject ++ "|" ++ toStr item.Year ++ "|" ++ toStr item.Session
  let groups := objEnsure groups key
    { id := key, subject := item.Subject,
      year := if item.Year = .str "Unknown" then .resources else .number (parseInt item.Year),
      session := item.Session, general := {}, components := [] }
  let comp := item.Component
  if truthy comp then
    if toStr comp ∈ objectPrototypeKeys then
      if item.Type_ = .str "qp" ∨ item.Type_ = .str "ms" then
        if toStr comp = "__proto__" then .error .prototypeWrite else .ok groups
      else .error .typeError
    else
      .ok (objModify groups key (fun g =>
        { g with
          components :=
            objModify (objEnsure g.components (toStr comp) { id := comp })
              (toStr comp) (assignComponent item) }))
  else .ok (objModify groups key (fun g => { g with general := assignGeneral item g.general }))

/-- The loop `filteredData.forEach` of the CIE by-session branch (lines 472-502). -/
def cieCollect :
    List Record → List (String × CIEGroup) → Except JSError (List (String × CIEGroup))
  | [], groups => .ok groups
  | item :: rest, groups =>
    match cieInsert groups item with
    | .error e => .error e
    | .ok groups1 => cieCollect rest groups1

/-- The body of the loop of lines 504-508 for one group. -/
def finishCIEGroup (h : Host) (g : CIEGroup) : Except JSError CIEGroup :=
  match arraySort
      (fun a b => .ok (some (h.localeCompareNumeric (toStr a.id) (toStr b.id))))
      (objectValues g.components) with
  | .error e => .error e
  | .ok sorted => .ok { g with sortedComponents := sorted }

/-- The expression `typeof year === 'number' ? year : dflt` of lines 514-515 and
522-523; `none` is `NaN`. -/
def cieYear (dflt : Int) : SessionYear → Option Int
  | .number n => n
  | .resources => some dflt

/-- The comparator of the group sort of the CIE by-session branch (lines 510-529). -/
def cieGroupCompare (h : Host) (sortOrder : String) (a b : CIEGroup) :
    Except JSError (Option Int) :=
  if sortOrder = "az" then localeCompareCall h a.subject b.subject
  else if sortOrder = "za" then localeCompareCall h b.subject a.subject
  else if sortOrder = "oldest" ∧ numNe (cieYear (-1) a.year) (cieYear (-1) b.year) = true then
    .ok (numSub (cieYear (-1) a.year) (cieYear (-1) b.year))
  else if a.subject ≠ b.subject then localeCompareCall h a.subject b.subject
  else if numNe (cieYear 9999 a.year) (cieYear 9999 b.year) = true then
    .ok (numSub (cieYear 9999 b.year) (cieYear 9999 a.year))
  else .ok (numSub (monthValue b.session) (monthValue a.session))

/-- The CIE by-session branch of `groupedData` (lines 468-530). -/
def groupedSessionCIE (h : Host) (filteredData : List Record) (sortOrder : String) :
    Except JSError (List CIEGroup) :=
  match cieCollect filteredData [] with
  | .error e => .error e
  | .ok groups =>
    match traverse (finishCIEGroup h) (objectValues groups) with
    | .error e => .error e
    | .ok finished => arraySort (cieGroupCompare h sortOrder) finished

/-- The value of the memo `groupedData`: the groups of one of the three branches, or
`undefined` when no branch applies. -/
inductive Grouped where
  | paper (groups : List PaperGroup)
  | ial (groups : List IALGroup)
  | cie (groups : List CIEGroup)
  | undefined
  deriving DecidableEq, Repr

/-- The memo `groupedData` (App.jsx lines 345-531) as a function of the filtered records,
the active tab, the view mode and the sort order. -/
def groupedData (h : Host) (filteredData : List Record)
    (activeTab viewMode sortOrder : String) : Except JSError Grouped :=
  if viewMode = "paper" then
    match groupedPaper h filteredData activeTab sortOrder with
    | .ok groups => .ok (.paper groups)
    | .error e => .error e
  else if activeTab = "ial" then
    match groupedSessionIAL h filteredData sortOrder with
    | .ok groups => .ok (.ial groups)
    | .error e => .error e
  else if activeTab = "cie" then
    match groupedSessionCIE h filteredData sortOrder with
    | .ok groups => .ok (.cie groups)
    | .error e => .error e
  else .ok .undefined

/-- Code-point comparison of two strings: -1, 0 or 1. -/
def compareChars : List Char → List Char → Int
  | [], [] => 0
  | [], _ :: _ => -1
  | _ :: _, [] => 1
  | a :: as, b :: bs =>
    if a.toNat < b.toNat then -1
    else if b.toNat < a.toNat then 1
    else compareChars as bs

/-- The digits of a string as a number, when the string is a non-empty run of decimal
digits. -/
def decimalValue (s : String) : Option Int :=
  if s.data ≠ [] ∧ s.data.all Char.isDigit = true then
    some (s.data.foldl (fun acc d => 10 * acc + (d.toNat - 48)) 0 : Nat)
  else none

/-- An instance of the host built-ins, used to evaluate `groupedData` on concrete inputs:
code-point order for both comparisons and plain decimal digit strings for the conversion
to a number. -/
def plainHost : Host :=
  { localeCompare := fun a b => compareChars a.data b.data
    localeCompareNumeric := fun a b => compareChars a.data b.data
    stringToNumber := decimalValue }

/-- A question paper of Biology, component 11, of the 2019 session. -/
def biology2019 : Record :=
  { Year := .num 2019, Session := .str "May", Type_ := .str "qp", Component := .str "11",
    URL := .str "bio19.pdf", Subject := .str "Biology", Unit := .str "11",
    Category := .str "IGCSE" }

/-- A question paper of Chemistry, component 11, of the 2024 session. -/
def chemistry2024 : Record :=
  { Year := .num 2024, Session := .str "May", Type_ := .str "qp", Component := .str "11",
    URL := .str "chem24.pdf", Subject := .str "Chemistry", Unit := .str "11",
    Category := .str "IGCSE" }

/-- The by-paper group of `biology2019` alone: its only session is of 2019. -/
def biology2019Group : PaperGroup :=
  { id := "Biology|11", subject := .str "Biology", unit := .str "11",
    sessions := [("2019|May", { year := .num 2019, session := .str "May",
                                 qp := some biology2019 })],
    sortedSessions := [{ year := .num 2019, session := .str "May", qp := some biology2019 }],
    isOldSyllabus := true }

/-- The by-paper group of `chemistry2024` alone: it has a session of 2024. -/
def chemistry2024Group : PaperGroup :=
  { id := "Chemistry|11", subject := .str "Chemistry", unit := .str "11",
    sessions := [("2024|May", { year := .num 2024, session := .str "May",
                                 qp := some chemistry2024 })],
    sortedSessions := [{ year := .num 2024, session := .str "May", qp := some chemistry2024 }],
    isOldSyllabus := false }

/-- The question paper of the Biology payload, as decoded at level IGCSE. -/
def biologyQP : Record :=
  { Year := .num 2024, Session := .str "May/June", Type_ := .str "qp",
    Component := .str "22",
    URL := .str "https://papers.xtremepape.rs/CAIE/IGCSE/Biology (0610)/0610_s24_qp_22.pdf",
    Subject := .str "Biology (0610)", Unit := .str "22", Category := .str "IGCSE" }

/-- The mark scheme of the Biology payload, as decoded at level IGCSE. -/
def biologyMS : Record :=
  { Year := .num 2024, Session := .str "May/June", Type_ := .str "ms",
    Component := .str "22",
    URL := .str "https://papers.xtremepape.rs/CAIE/IGCSE/Biology (0610)/0610_s24_ms_22.pdf",
    Subject := .str "Biology (0610)", Unit := .str "22", Category := .str "IGCSE" }

/-- The session of the Biology payload: 2024, May/June, with both papers. -/
def biologySession : SessionSlot :=
  { year := .num 2024, session := .str "May/June", qp := some biologyQP,
    ms := some biologyMS }

/-- The by-paper group of the Biology payload. -/
def biologyGroup : PaperGroup :=
  { id := "Biology (0610)|22", subject := .str "Biology (0610)", unit := .str "22",
    sessions := [("2024|May/June", biologySession)],
    sortedSessions := [biologySession],
    isOldSyllabus := false }

/-- A legacy object without a subject, for unit 11. -/
def subjectlessA : JSObj :=
  [("Year", .num 2024), ("Session", .str "May"), ("Type", .str "qp"), ("Unit", .str "11")]

/-- A legacy object without a subject, for unit 12. -/
def subjectlessB : JSObj :=
  [("Year", .num 2024), ("Session", .str "May"), ("Type", .str "qp"), ("Unit", .str "12")]

/-- Specification side: the collation `localeCompare` is a consistent comparator, that is
its sign is antisymmetric and "not after" is transitive. -/
def Host.Consistent (h : Host) : Prop :=
  (∀ a b, h.localeCompare a b < 0 ↔ 0 < h.localeCompare b a) ∧
  (∀ a b c, h.localeCompare a b ≤ 0 → h.localeCompare b c ≤ 0 → h.localeCompare a c ≤ 0)

/-- Specification side: the group sequence in reverse order. -/
def Grouped.reverse : Grouped → Grouped
  | .paper gs => .paper gs.reverse
  | .ial gs => .ial gs.reverse
  | .cie gs => .cie gs.reverse
  | .undefined => .undefined

/-- Specification side: the subjects of the groups, in output order. -/
def Grouped.subjects : Grouped → List JSVal
  | .paper gs => gs.map (fun g => g.subject)
  | .ial gs => gs.map (fun g => g.subject)
  | .cie gs => gs.map (fun g => g.subject)
  | .undefined => []

/-- Specification side: the legacy flags of the groups (by-paper mode only). -/
def Grouped.flags : Grouped → List Bool
  | .paper gs => gs.map (fun g => g.isOldSyllabus)
  | _ => []

/-- Specification side: the ids of the groups, in output order. -/
def Grouped.ids : Grouped → List String
  | .paper gs => gs.map (fun g => g.id)
  | .ial gs => gs.map (fun g => g.id)
  | .cie gs => gs.map (fun g => g.id)
  | .undefined => []

/-- A question paper of Biology, component 12, of the 2024 session. -/
def biology2024c12 : Record :=
  { Year := .num 2024, Session := .str "May", Type_ := .str "qp", Component := .str "12",
    URL := .str "bio24_12.pdf", Subject := .str "Biology", Unit := .str "12",
    Category := .str "IGCSE" }

/-- A question paper of Biology, component 11, of the 2024 session. -/
def biology2024c11 : Record :=
  { Year := .num 2024, Session := .str "May", Type_ := .str "qp", Component := .str "11",
    URL := .str "bio24_11.pdf", Subject := .str "Biology", Unit := .str "11",
    Category := .str "IGCSE" }

/-- The by-paper group of `biology2024c11` alone. -/
def biology2024Group : PaperGroup :=
  { id := "Biology|11", subject := .str "Biology", unit := .str "11",
    sessions := [("2024|May", { year := .num 2024, session := .str "May",
                                 qp := some biology2024c11 })],
    sortedSessions := [{ year := .num 2024, session := .str "May",
                         qp := some biology2024c11 }],
    isOldSyllabus := false }

/-- Specification side: the by-paper group key of a record (`none` when resolving its
subject throws). -/
def recordGroupKey (activeTab : String) (item : Record) : Option String :=
  match paperSubjectUnit activeTab item with
  | .ok su => some (paperKey su)
  | .error _ => none

/-- Specification side: the records of `data` with group key `gk` and session key `sk`,
in input order. -/
def sessionRecords (activeTab : String) (data : List Record) (gk sk : String) :
    List Record :=
  data.filter (fun r => decide (recordGroupKey activeTab r = some gk ∧ sessionKey r = sk))

/-- The session object stored under `groups[gk].sessions[sk]`, if any. -/
def slotAt (groups : List (String × PaperAcc)) (gk sk : String) : Option SessionSlot :=
  match groups.lookup gk with
  | some g => g.sessions.lookup sk
  | none => none

/-- The session object after the records `recs` of one session have been assigned in
order, starting from `init` (`none`: no object yet). -/
def slotFold (recs : List Record) (init : Option SessionSlot) : Option SessionSlot :=
  recs.foldl
    (fun acc item =>
      some (assignSlot item (acc.getD { year := item.Year, session := item.Session })))
    init

/-- Specification side: the year of a session object as an integer (0 when the year is
no number). -/
def slotYear (s : SessionSlot) : Int :=
  match s.year with
  | .num y => y
  | _ => 0

/-- A second question paper with the group, year, session and Type of `biologyQP`. -/
def biologyQPbis : Record :=
  { Year := .num 2024, Session := .str "May/June", Type_ := .str "qp",
    Component := .str "22", URL := .str "second.pdf",
    Subject := .str "Biology (0610)", Unit := .str "22", Category := .str "IGCSE" }

/-- The by-paper group of `biologyQP` followed by `biologyQPbis`: one session, whose qp
slot holds the later record. -/
def duplicateGroup : PaperGroup :=
  { id := "Biology (0610)|22", subject := .str "Biology (0610)", unit := .str "22",
    sessions := [("2024|May/June", { year := .num 2024, session := .str "May/June",
                                      qp := some biologyQPbis })],
    sortedSessions := [{ year := .num 2024, session := .str "May/June",
                         qp := some biologyQPbis }],
    isOldSyllabus := false }

/-- A question paper of Biology, component 11, of January 2024. -/
def biologyJan2024 : Record :=
  { Year := .num 2024, Session := .str "January", Type_ := .str "qp",
    Component := .str "11", URL := .str "jan24.pdf", Subject := .str "Biology",
    Unit := .str "11", Category := .str "IGCSE" }

/-- A question paper of Biology, component 11, of October 2024. -/
def biologyOct2024 : Record :=
  { Year := .num 2024, Session := .str "October", Type_ := .str "qp",
    Component := .str "11", URL := .str "oct24.pdf", Subject := .str "Biology",
    Unit := .str "11", Category := .str "IGCSE" }

/-- The by-paper group of the 2019, January 2024 and October 2024 Biology papers, given in
that order: the sessions come out as October 2024, January 2024, May 2019. -/
def threeSessionGroup : PaperGroup :=
  { id := "Biology|11", subject := .str "Biology", unit := .str "11",
    sessions :=
      [("2019|May", { year := .num 2019, session := .str "May", qp := some biology2019 }),
       ("2024|January", { year := .num 2024, session := .str "January",
                          qp := some biologyJan2024 }),
       ("2024|October", { year := .num 2024, session := .str "October",
                          qp := some biologyOct2024 })],
    sortedSessions :=
      [{ year := .num 2024, session := .str "October", qp := some biologyOct2024 },
       { year := .num 2024, session := .str "January", qp := some biologyJan2024 },
       { year := .num 2019, session := .str "May", qp := some biology2019 }],
    isOldSyllabus := false }


/-- The chunk loop of lines 208-220 and 274-287 over the chunks that were fetched:
`combinedData = combinedData.concat(decodeData(chunkRaw, level))`, started with `[]`. -/
def loadChunks (chunks : List RawData) (level : String) : List Record :=
  chunks.foldl (fun combinedData chunkRaw => combinedData ++ decodeData chunkRaw level) []


/-- Specification side: the first record of `data` whose by-paper group key is `gk`. -/
def firstOfGroup (activeTab : String) (data : List Record) (gk : String) : Option Record :=
  data.find? (fun r => decide (recordGroupKey activeTab r = some gk))

/-- The properties `subject` and `unit` of the group stored under `groups[gk]`, if any. -/
def fieldsAt (groups : List (String × PaperAcc)) (gk : String) : Option (JSVal × JSVal) :=
  (groups.lookup gk).map (fun g => (g.subject, g.unit))

/-- A paper whose subject contains the separator of the group key. -/
def barSubject : Record :=
  { Year := .num 2024, Session := .str "May", Type_ := .str "qp", Component := .null,
    URL := .str "a.pdf", Subject := .str "Maths|Pure", Unit := .str "1",
    Category := .str "IGCSE" }

/-- A paper of another subject and another unit with the group key of `barSubject`. -/
def barUnit : Record :=
  { Year := .num 2024, Session := .str "May", Type_ := .str "ms", Component := .null,
    URL := .str "b.pdf", Subject := .str "Maths", Unit := .str "Pure|1",
    Category := .str "IGCSE" }

/-- The by-paper group of `barSubject` followed by `barUnit`. -/
def barGroup : PaperGroup :=
  { id := "Maths|Pure|1", subject := .str "Maths|Pure", unit := .str "1",
    sessions := [("2024|May", { year := .num 2024, session := .str "May",
                                 qp := some barSubject, ms := some barUnit })],
    sortedSessions := [{ year := .num 2024, session := .str "May",
                         qp := some barSubject, ms := some barUnit }],
    isOldSyllabus := false }


/-- Specification side: the records held by a session object: the four slots that are
filled, then the list `others`. -/
def slotRecords (s : SessionSlot) : List Record :=
  s.qp.toList ++ s.ms.toList ++ s.er.toList ++ s.gt.toList ++ s.others

/-- Specification side: the records held by the by-paper output, group by group and
session by session. -/
def outputRecords (gs : List PaperGroup) : List Record :=
  gs.flatMap (fun g => g.sortedSessions.flatMap slotRecords)

/-- A question paper whose year contains the separator of the session key. -/
def barYear : Record :=
  { Year := .str "2024|May", Session := .str "June", Type_ := .str "qp",
    Component := .str "11", URL := .str "c.pdf", Subject := .str "Biology",
    Unit := .str "11", Category := .str "IGCSE" }

/-- A question paper of the same group, of another year and another session, with the
session key of `barYear`. -/
def barSession : Record :=
  { Year := .str "2024", Session := .str "May|June", Type_ := .str "qp",
    Component := .str "11", URL := .str "d.pdf", Subject := .str "Biology",
    Unit := .str "11", Category := .str "IGCSE" }

/-- The by-paper group of `barYear` followed by `barSession`. -/
def barSessionGroup : PaperGroup :=
  { id := "Biology|11", subject := .str "Biology", unit := .str "11",
    sessions := [("2024|May|June", { year := .str "2024|May", session := .str "June",
                                      qp := some barSession })],
    sortedSessions := [{ year := .str "2024|May", session := .str "June",
                         qp := some barSession }],
    isOldSyllabus := true }


/-- Specification side: two records compete for one slot: they have the same group key,
the same session key and the same Type, which is one of the four slot types. -/
def SameSlot (activeTab : String) (r1 r2 : Record) : Prop :=
  recordGroupKey activeTab r1 = recordGroupKey activeTab r2 ∧ sessionKey r1 = sessionKey r2
    ∧ r1.Type_ = r2.Type_
    ∧ (r1.Type_ = .str "qp" ∨ r1.Type_ = .str "ms" ∨ r1.Type_ = .str "er"
        ∨ r1.Type_ = .str "gt")

instance (activeTab : String) (r1 r2 : Record) : Decidable (SameSlot activeTab r1 r2) := by
  unfold SameSlot
  infer_instance


/-- Specification side: the distinct keys of `ks` in order of first appearance, after the
keys `seen`. -/
def firstAppearance (seen : List String) (ks : List String) : List String :=
  ks.foldl (fun seen k => if k ∈ seen then seen else seen ++ [k]) seen


/-- The session keys of the group stored under `groups[gk]`, in insertion order. -/
def sessionKeysAt (groups : List (String × PaperAcc)) (gk : String) : List String :=
  match groups.lookup gk with
  | some g => g.sessions.map Prod.fst
  | none => []


/-- A question paper of the group of `biologyQP`, of the Oct/Nov session of 2024. -/
def biologyQPOctNov : Record :=
  { Year := .num 2024, Session := .str "Oct/Nov", Type_ := .str "qp",
    Component := .str "22", URL := .str "w24.pdf",
    Subject := .str "Biology (0610)", Unit := .str "22", Category := .str "IGCSE" }

/-- The by-paper group of `biologyQP` followed by `biologyQPOctNov`: the session May/June
comes first. -/
def mayJuneFirstGroup : PaperGroup :=
  { id := "Biology (0610)|22", subject := .str "Biology (0610)", unit := .str "22",
    sessions :=
      [("2024|May/June", { year := .num 2024, session := .str "May/June",
                           qp := some biologyQP }),
       ("2024|Oct/Nov", { year := .num 2024, session := .str "Oct/Nov",
                          qp := some biologyQPOctNov })],
    sortedSessions :=
      [{ year := .num 2024, session := .str "May/June", qp := some biologyQP },
       { year := .num 2024, session := .str "Oct/Nov", qp := some biologyQPOctNov }],
    isOldSyllabus := false }

/-- The by-paper group of `biologyQPOctNov` followed by `biologyQP`: the session Oct/Nov
comes first. -/
def octNovFirstGroup : PaperGroup :=
  { id := "Biology (0610)|22", subject := .str "Biology (0610)", unit := .str "22",
    sessions :=
      [("2024|Oct/Nov", { year := .num 2024, session := .str "Oct/Nov",
                          qp := some biologyQPOctNov }),
       ("2024|May/June", { year := .num 2024, session := .str "May/June",
                           qp := some biologyQP })],
    sortedSessions :=
      [{ year := .num 2024, session := .str "Oct/Nov", qp := some biologyQPOctNov },
       { year := .num 2024, session := .str "May/June", qp := some biologyQP }],
    isOldSyllabus := false }


/-- Specification side: the collation with the option `numeric` is a consistent
comparator. -/
def Host.NumericConsistent (h : Host) : Prop :=
  (∀ a b, h.localeCompareNumeric a b < 0 ↔ 0 < h.localeCompareNumeric b a) ∧
  (∀ a b c, h.localeCompareNumeric a b ≤ 0 → h.localeCompareNumeric b c ≤ 0 →
    h.localeCompareNumeric a c ≤ 0)

/-- The digits at the start of a string, and the rest of it. -/
def spanDigits : List Char → List Char × List Char
  | [] => ([], [])
  | c :: cs =>
    if c.isDigit then ((c :: (spanDigits cs).1), (spanDigits cs).2) else ([], c :: cs)

/-- The number written by a run of digits. -/
def digitsValue (ds : List Char) : Nat :=
  ds.foldl (fun acc d => 10 * acc + (d.toNat - 48)) 0

/-- Numeric-aware comparison of two strings: runs of digits compare by value, other
characters by code point; -1, 0 or 1. -/
def numericCompare : Nat → List Char → List Char → Int
  | 0, _, _ => 0
  | _ + 1, [], [] => 0
  | _ + 1, [], _ :: _ => -1
  | _ + 1, _ :: _, [] => 1
  | fuel + 1, a :: as, b :: bs =>
    if a.isDigit ∧ b.isDigit then
      if digitsValue (spanDigits (a :: as)).1 < digitsValue (spanDigits (b :: bs)).1 then -1
      else if digitsValue (spanDigits (b :: bs)).1 < digitsValue (spanDigits (a :: as)).1 then 1
      else numericCompare fuel (spanDigits (a :: as)).2 (spanDigits (b :: bs)).2
    else if a.toNat < b.toNat then -1
    else if b.toNat < a.toNat then 1
    else numericCompare fuel as bs

/-- A host whose collation with the option `numeric` compares runs of digits by value. -/
def numericHost : Host :=
  { localeCompare := fun a b => compareChars a.data b.data
    localeCompareNumeric := fun a b => numericCompare (a.length + b.length) a.data b.data
    stringToNumber := decimalValue }

/-- A question paper of Biology, component 2, of the 2024 session. -/
def biology2024c2 : Record :=
  { Year := .num 2024, Session := .str "May", Type_ := .str "qp", Component := .str "2",
    URL := .str "bio24_2.pdf", Subject := .str "Biology", Unit := .str "2",
    Category := .str "IGCSE" }

/-- The by-paper group of `biology2024c2` alone. -/
def biology2024c2Group : PaperGroup :=
  { id := "Biology|2", subject := .str "Biology", unit := .str "2",
    sessions := [("2024|May", { year := .num 2024, session := .str "May",
                                 qp := some biology2024c2 })],
    sortedSessions := [{ year := .num 2024, session := .str "May",
                         qp := some biology2024c2 }],
    isOldSyllabus := false }


/-- The template literal of line 475: the group key of a record in the CIE by-session
loop. -/
def cieKey (item : Record) : String :=
  toStr item.Subject ++ "|" ++ toStr item.Year ++ "|" ++ toStr item.Session

/-- Specification side: the records of `data` with group key `gk` and a truthy Component
whose string form is `ck`, in input order. -/
def componentRecords (data : List Record) (gk ck : String) : List Record :=
  data.filter (fun r =>
    decide (cieKey r = gk ∧ truthy r.Component = true ∧ toStr r.Component = ck))

/-- Specification side: the records of `data` with group key `gk` and a falsy Component
(null, absent or empty), in input order. -/
def generalRecords (data : List Record) (gk : String) : List Record :=
  data.filter (fun r => decide (cieKey r = gk ∧ truthy r.Component = false))

/-- The component object stored under `groups[gk].components[ck]`, if any. -/
def componentAt (groups : List (String × CIEGroup)) (gk ck : String) : Option ComponentSlot :=
  match groups.lookup gk with
  | some g => g.components.lookup ck
  | none => none

/-- The object `groups[gk].general`; the empty object while the group does not exist. -/
def generalAt (groups : List (String × CIEGroup)) (gk : String) : GeneralSlot :=
  match groups.lookup gk with
  | some g => g.general
  | none => {}

/-- The component object after the records `recs` of one component have been assigned in
order, starting from `init` (`none`: no object yet). -/
def componentFold (recs : List Record) (init : Option ComponentSlot) : Option ComponentSlot :=
  recs.foldl
    (fun acc item => some (assignComponent item (acc.getD { id := item.Component })))
    init

/-- The object `general` after the records `recs` have been assigned in order. -/
def generalFold (recs : List Record) (init : GeneralSlot) : GeneralSlot :=
  recs.foldl (fun g item => assignGeneral item g) init


/-- An examiner report of the session of `biologyQP`, with no component. -/
def biologyER : Record :=
  { Year := .num 2024, Session := .str "May/June", Type_ := .str "er",
    Component := .null, URL := .str "0610_s24_er.pdf",
    Subject := .str "Biology (0610)", Unit := .null, Category := .str "IGCSE" }

/-- The by-session group of `biologyQP` followed by `biologyER` in the CIE tab. -/
def biologySessionCIE : CIEGroup :=
  { id := "Biology (0610)|2024|May/June", subject := .str "Biology (0610)",
    year := .number (some 2024), session := .str "May/June",
    general := { er := some biologyER },
    components := [("22", { id := .str "22", qp := some biologyQP })],
    sortedComponents := [{ id := .str "22", qp := some biologyQP }] }


/-- A question paper of Biology, component 11, with the given Year. -/
def biologyOfYear (year : JSVal) : Record :=
  { Year := year, Session := .str "May", Type_ := .str "qp", Component := .str "11",
    URL := .str "bio_11.pdf", Subject := .str "Biology", Unit := .str "11",
    Category := .str "IGCSE" }


/-- The CIE by-session group of `biologyOfYear y` alone, with `year` as its year. -/
def biologyGroupOfYear (y : JSVal) (year : SessionYear) : CIEGroup :=
  { id := cieKey (biologyOfYear y), subject := .str "Biology", year := year,
    session := .str "May", general := {},
    components := [("11", { id := .str "11", qp := some (biologyOfYear y) })],
    sortedComponents := [{ id := .str "11", qp := some (biologyOfYear y) }] }


/-- An encoded tuple whose year offset is the largest safe integer, 2^53 - 1. -/
def largeOffsetTuple : Encoded :=
  ⟨9007199254740991, some 6, .str "qp", .str "22", .str "x.pdf"⟩


/-- An examiner report of the CIE tab whose Component is the string "constructor". -/
def constructorER : Record :=
  { Year := .num 2024, Session := .str "May", Type_ := .str "er",
    Component := .str "constructor", URL := .str "er.pdf", Subject := .str "Biology",
    Unit := .str "constructor", Category := .str "IGCSE" }


/-- A question paper of Biology, component 11, of 2024, whose Session is the string
"constructor". -/
def biologyConstructor2024 : Record :=
  { Year := .num 2024, Session := .str "constructor", Type_ := .str "qp",
    Component := .str "11", URL := .str "ctor24.pdf", Subject := .str "Biology",
    Unit := .str "11", Category := .str "IGCSE" }


/-- The session names of the `sortedSessions` of each group of a by-paper output. -/
def sortedSessionNames : Grouped → List (List JSVal)
  | .paper gs => gs.map (fun g => g.sortedSessions.map (fun s => s.session))
  | _ => []


/-- The object `groups` after `cieInsert`, when it returns: the group of the record is
created if need be, and the record is assigned to a component object or to `general`
unless its Component names a member of `Object.prototype`. -/
def cieInsertOk (groups : List (String × CIEGroup)) (item : Record) :
    List (String × CIEGroup) :=
  objModify
    (objEnsure groups (cieKey item)
      { id := cieKey item, subject := item.Subject,
        year := if item.Year = .str "Unknown" then .resources
                else .number (parseInt item.Year),
        session := item.Session, general := {}, components := [] })
    (cieKey item)
    (fun g =>
      if truthy item.Component then
        if toStr item.Component ∈ objectPrototypeKeys then g
        else
          { g with
            components :=
              objModify (objEnsure g.components (toStr item.Component)
                  { id := item.Component })
                (toStr item.Component) (assignComponent item) }
      else { g with general := assignGeneral item g.general })

/-- A question paper of the CIE tab whose Component is the string "constructor". -/
def constructorQP : Record :=
  { Year := .num 2024, Session := .str "May", Type_ := .str "qp",
    Component := .str "constructor", URL := .str "qp.pdf", Subject := .str "Biology",
    Unit := .str "constructor", Category := .str "IGCSE" }

/-- The by-session group of `constructorQP` alone: it has no component object and its
`general` is empty. -/
def constructorGroup : CIEGroup :=
  { id := "Biology|2024|May", subject := .str "Biology", year := .number (some 2024),
    session := .str "May", general := {}, components := [], sortedComponents := [] }


/-- The assignment `m[k] = v` on an object given by its properties in creation order: an
existing property keeps its place and takes the new value, a new one is added last. -/
def objSet {β : Type} (m : List (String × β)) (k : String) (v : β) : List (String × β) :=
  match m.lookup k with
  | some _ => m.map (fun kv => if kv.1 = k then (kv.1, v) else kv)
  | none => m ++ [(k, v)]

/-- The call `Object.entries(m)` on an object given by its properties in creation order:
the entries under array-index keys in ascending index order, then the other entries in
creation order. -/
def objectEntries {β : Type} (m : List (String × β)) : List (String × β) :=
  let indexed := m.filterMap (fun kv => (arrayIndex? kv.1).map (fun n => (n, kv)))
  let named := m.filter (fun kv => (arrayIndex? kv.1).isNone)
  (indexed.insertionSort (fun a b => a.1 ≤ b.1)).map Prod.snd ++ named

/-- Specification side: the payload formed by a sequence of entries, that is the entries,
in `Object.entries` order, of the object that has them as members in the order written (as
`JSON.parse` builds it from a file): a key written twice is one entry with the later value,
and array-index keys come first. -/
def objectFromEntries {β : Type} (entries : List (String × β)) : List (String × β) :=
  objectEntries (entries.foldl (fun m kv => objSet m kv.1 kv.2) [])

/-- A chunk with the one subject key "Biology". -/
def biologyChunk : List (String × List Encoded) :=
  [("Biology", [⟨24, some 6, .str "qp", .str "22", .str "bio_qp.pdf"⟩])]

/-- A chunk with the one subject key "9700", which is an array index. -/
def codeChunk : List (String × List Encoded) :=
  [("9700", [⟨24, some 6, .str "qp", .str "12", .str "9700_qp.pdf"⟩])]

/-- A second chunk with the subject key "Biology". -/
def biologyChunkBis : List (String × List Encoded) :=
  [("Biology", [⟨24, some 6, .str "ms", .str "22", .str "bio_ms.pdf"⟩])]

/-- A chunk with the one subject key "Chemistry (0620)". -/
def chemistryPayload : List (String × List Encoded) :=
  [("Chemistry (0620)", [⟨24, some 6, .str "qp", .str "11", .str "0620_s24_qp_11.pdf"⟩])]


/-- A second question paper with the group, year, session and Type of `barYear`. -/
def barYearBis : Record :=
  { Year := .str "2024|May", Session := .str "June", Type_ := .str "qp",
    Component := .str "11", URL := .str "c2.pdf", Subject := .str "Biology",
    Unit := .str "11", Category := .str "IGCSE" }

/-- Canonical composition of the one sequence used below: the letter e followed by the
combining acute accent U+0301 becomes the letter U+00E9. -/
def composeAcute : List Char → List Char
  | [] => []
  | [c] => [c]
  | c :: d :: rest =>
    if c = 'e' ∧ d = Char.ofNat 769 then Char.ofNat 233 :: composeAcute rest
    else c :: composeAcute (d :: rest)

/-- A host whose collation, like the ICU collation behind `localeCompare`, compares
canonically equivalent strings as equal: code-point order of the composed strings. -/
def canonicalHost : Host :=
  { localeCompare := fun a b => compareChars (composeAcute a.data) (composeAcute b.data)
    localeCompareNumeric :=
      fun a b => compareChars (composeAcute a.data) (composeAcute b.data)
    stringToNumber := decimalValue }

/-- The subject "Café" written with the composed letter U+00E9. -/
def cafeComposed : String :=
  String.mk ['C', 'a', 'f', Char.ofNat 233]

/-- The subject "Café" written with the letter e and the combining accent U+0301. -/
def cafeDecomposed : String :=
  String.mk ['C', 'a', 'f', 'e', Char.ofNat 769]

/-- A question paper of 2024 with the given subject and unit. -/
def paperOf (subject unit : String) : Record :=
  { Year := .num 2024, Session := .str "May", Type_ := .str "qp", Component := .str unit,
    URL := .str "qp.pdf", Subject := .str subject, Unit := .str unit,
    Category := .str "IGCSE" }

/-- The subject, unit and legacy flag of each group of a by-paper output. -/
def paperSummary : Grouped → List (JSVal × JSVal × Bool)
  | .paper gs => gs.map (fun g => (g.subject, g.unit, g.isOldSyllabus))
  | _ => []

/-- A question paper of the IAL unit WBI11 with the given Year. -/
def ialOfYear (year : JSVal) : Record :=
  { Year := year, Session := .str "May", Type_ := .str "qp", Component := .null,
    URL := .str "wbi11.pdf", Subject := .str "WBI11", Unit := .str "Unit 1",
    Category := .str "IAL", Unit_Code := .str "WBI11", Title := .str "Unit 1" }

/-- The IAL by-session group of `ialOfYear y` alone, with `year` as its year. -/
def ialGroupOfYear (y : JSVal) (year : SessionYear) : IALGroup :=
  { id := "Biology|May|" ++ toStr y, subject := .str "Biology", session := .str "May",
    year := year, month := .str "May",
    units := [("WBI11", { id := .str "WBI11", qp := some (ialOfYear y) })],
    sortedUnits := [{ id := .str "WBI11", qp := some (ialOfYear y) }] }

/-! ## Lemmas on `decodeData` -/

theorem inner_loop_eq (level subject : String) (records : List Encoded) (acc : List Record) :
    records.foldl (fun flattened record => flattened ++ [decodeTuple level subject record]) acc
      = acc ++ records.map (decodeTuple level subject) := by
  induction records generalizing acc with
  | nil => simp
  | cons r rs ih => simp [List.foldl_cons, ih]

theorem outer_loop_eq (level : String) (entries : List (String × List Encoded))
    (acc : List Record) :
    entries.foldl
      (fun flattened entry => flattened ++ entry.2.map (decodeTuple level entry.1)) acc
      = acc ++ (payloadTuples entries).map (fun kt => decodeTuple level kt.1 kt.2) := by
  induction entries generalizing acc with
  | nil => simp [payloadTuples]
  | cons e es ih =>
    simp [List.foldl_cons, ih, payloadTuples, List.map_append, List.map_map,
      List.append_assoc, Function.comp_def]

/-- The grouped branch of `decodeData` decodes the payload tuples one by one, in order. -/
theorem decodeData_grouped (level : String) (entries : List (String × List Encoded)) :
    decodeData (.grouped entries) level
      = (payloadTuples entries).map (fun kt => decodeTuple level kt.1 kt.2) := by
  simp only [decodeData, inner_loop_eq, outer_loop_eq, List.nil_append]

theorem payloadTuples_length (entries : List (String × List Encoded)) :
    (payloadTuples entries).length = (entries.map (fun e => e.2.length)).sum := by
  induction entries with
  | nil => rfl
  | cons e es ih => simp [payloadTuples, ih]

theorem decodeTuple_year (level subject : String) (record : Encoded) :
    (decodeTuple level subject record).Year
      = .num (if record.y < 50 then numAdd 2000 record.y else numAdd 1900 record.y) := by
  by_cases h : level = "IAL" <;> simp [decodeTuple, h]

theorem roundDouble_safe (n : Int) (hn : n.natAbs < 2 ^ 53) : roundDouble n = n := by
  unfold roundDouble roundNat
  simp only [hn, if_true]
  split <;> omega

theorem numAdd_safe (x y : Int) (h : (x + y).natAbs < 2 ^ 53) : numAdd x y = x + y :=
  roundDouble_safe _ h

theorem decodeTuple_session (level subject : String) (record : Encoded) :
    (decodeTuple level subject record).Session
      = jsOr (sessionLookup record.s) (.str "Unknown") := by
  by_cases h : level = "IAL" <;> simp [decodeTuple, h]

theorem decodeTuple_subject (level subject : String) (record : Encoded) :
    (decodeTuple level subject record).Subject = .str subject := by
  by_cases h : level = "IAL" <;> simp [decodeTuple, h]

theorem decodeTuple_category (level subject : String) (record : Encoded) :
    (decodeTuple level subject record).Category = .str level := by
  by_cases h : level = "IAL" <;> simp [decodeTuple, h]

theorem decodeTuple_url_ial (subject : String) (record : Encoded) :
    (decodeTuple "IAL" subject record).URL = record.u := by
  simp [decodeTuple]

theorem decodeTuple_url_cie (level subject : String) (record : Encoded)
    (hL : level = "IGCSE" ∨ level = "O Level" ∨ level = "AS and A Level") :
    (decodeTuple level subject record).URL
      = .str ("https://papers.xtremepape.rs/CAIE/" ++ level ++ "/" ++ subject ++ "/"
          ++ toStr record.u) := by
  have e1 : "IGCSE/" = "IGCSE" ++ "/" := by decide
  have e2 : "O Level/" = "O Level" ++ "/" := by decide
  have e3 : "AS and A Level/" = "AS and A Level" ++ "/" := by decide
  rcases hL with h | h | h <;> subst h
  · simp [decodeTuple, e1, String.append_assoc]
  · simp [decodeTuple, e2, String.append_assoc]
  · simp [decodeTuple, e3, String.append_assoc]

theorem sessionLookup_in_range (n : Int) (h1 : 1 ≤ n) (h2 : n ≤ 12) :
    sessionLookup (some n) = .str (sessionNames.getD (n - 1).toNat "Unknown") := by
  interval_cases n <;> rfl

theorem sessionLookup_out_of_range (n : Int) (h : ¬ (1 ≤ n ∧ n ≤ 12)) :
    sessionLookup (some n) = .undefined := by
  have hnone : SESSION_REV_MAP.lookup n = none := by
    rw [List.lookup_eq_none_iff]
    intro p hp
    simp only [SESSION_REV_MAP, List.mem_cons, List.mem_singleton, List.not_mem_nil,
      or_false] at hp
    rcases hp with e | e | e | e | e | e | e | e | e | e | e | e <;> subst e <;>
      simp only [bne_iff_ne, ne_eq] <;> omega
  simp [sessionLookup, hnone]

theorem decodeTuple_session_eq (level subject : String) (record : Encoded) :
    (decodeTuple level subject record).Session
      = .str (match record.s with
          | some n => if 1 ≤ n ∧ n ≤ 12 then sessionNames.getD (n - 1).toNat "Unknown"
                      else "Unknown"
          | none => "Unknown") := by
  rw [decodeTuple_session]
  cases hs : record.s with
  | none => rfl
  | some n =>
    by_cases h : 1 ≤ n ∧ n ≤ 12
    · rw [sessionLookup_in_range n h.1 h.2]
      simp only [h, and_self, if_true]
      obtain ⟨h1, h2⟩ := h
      interval_cases n <;> rfl
    · rw [sessionLookup_out_of_range n h]
      simp [h, jsOr, truthy]

/-! ## Decoding: the claims -/

/-- C4, counterexample: the offset 2^53 - 1 is an integer, and the code's addition
`1900 + y` is an addition of doubles: the decoded Year is 9007199254742892, not
1900 + y = 9007199254742891. -/
theorem decodeData_year_rounds :
    (decodeData (.grouped [("Biology", [largeOffsetTuple])]) "IGCSE").map (fun r => r.Year)
        = [.num 9007199254742892]
    ∧ largeOffsetTuple.y = 2 ^ 53 - 1
    ∧ (9007199254742892 : Int) ≠ 1900 + largeOffsetTuple.y := by
  decide

/-- C4, amended: Year reconstruction in `decodeData`. For every level and every grouped
payload whose offsets lie strictly between -(2^53 - 2000) and 2^53 - 2000, where the
addition of the code is exact, the Year of each decoded record is `2000 + y` when the
offset `y` of its tuple is below 50 and `1900 + y` otherwise; offsets 15, 99, 49 and 50
give 2015, 1999, 2049 and 1950. -/
theorem decodeData_year (level : String) (entries : List (String × List Encoded))
    (hsafe : ∀ kt ∈ payloadTuples entries,
      -9007199254738992 < kt.2.y ∧ kt.2.y < 9007199254738992) :
    (decodeData (.grouped entries) level).map (fun r => r.Year)
        = (payloadTuples entries).map
            (fun kt => JSVal.num (if kt.2.y < 50 then 2000 + kt.2.y else 1900 + kt.2.y))
    ∧ (∀ (subject : String) (s : Option Int) (t c u : JSVal),
        (decodeData (.grouped [(subject, [⟨15, s, t, c, u⟩])]) level).map (fun r => r.Year)
            = [.num 2015]
        ∧ (decodeData (.grouped [(subject, [⟨99, s, t, c, u⟩])]) level).map (fun r => r.Year)
            = [.num 1999]
        ∧ (decodeData (.grouped [(subject, [⟨49, s, t, c, u⟩])]) level).map (fun r => r.Year)
            = [.num 2049]
        ∧ (decodeData (.grouped [(subject, [⟨50, s, t, c, u⟩])]) level).map (fun r => r.Year)
            = [.num 1950]) := by
  refine ⟨?_, ?_⟩
  · rw [decodeData_grouped, List.map_map]
    refine List.map_congr_left ?_
    intro kt hkt
    obtain ⟨h1, h2⟩ := hsafe kt hkt
    simp only [Function.comp_def, decodeTuple_year]
    rw [numAdd_safe 2000 kt.2.y (by omega), numAdd_safe 1900 kt.2.y (by omega)]
  · intro subject s t c u
    have h15 : numAdd 2000 15 = 2015 := by decide
    have h99 : numAdd 1900 99 = 1999 := by decide
    have h49 : numAdd 2000 49 = 2049 := by decide
    have h50 : numAdd 1900 50 = 1950 := by decide
    simp [decodeData_grouped, payloadTuples, decodeTuple_year, h15, h99, h49, h50]

theorem decodeData_year_witness :
    (∀ kt ∈ payloadTuples biologyPayload,
      -9007199254738992 < kt.2.y ∧ kt.2.y < 9007199254738992)
    ∧ (decodeData (.grouped biologyPayload) "IGCSE").map (fun r => r.Year)
        = (payloadTuples biologyPayload).map
            (fun kt => JSVal.num (if kt.2.y < 50 then 2000 + kt.2.y else 1900 + kt.2.y)) :=
  ⟨by decide, (decodeData_year "IGCSE" biologyPayload (by decide)).1⟩

/-- C5: Session reconstruction in `decodeData`. For every grouped payload and level, the
Session of each decoded record is the entry number `s` of the fixed table of twelve
session names when the code `s` of its tuple lies in 1..12, and "Unknown" when the code
lies outside 1..12 or is missing; code 6 decodes to "May/June" and code 0 to "Unknown". -/
theorem decodeData_session (level : String) (entries : List (String × List Encoded)) :
    (decodeData (.grouped entries) level).map (fun r => r.Session)
        = (payloadTuples entries).map
            (fun kt => JSVal.str
              (match kt.2.s with
               | some n => if 1 ≤ n ∧ n ≤ 12 then sessionNames.getD (n - 1).toNat "Unknown"
                           else "Unknown"
               | none => "Unknown"))
    ∧ sessionNames = ["January", "February", "Feb/March", "April", "May", "May/June", "July",
        "August", "September", "October", "Oct/Nov", "December"]
    ∧ (∀ (subject : String) (y : Int) (t c u : JSVal),
        (decodeData (.grouped [(subject, [⟨y, some 6, t, c, u⟩])]) level).map
            (fun r => r.Session) = [.str "May/June"]
        ∧ (decodeData (.grouped [(subject, [⟨y, some 0, t, c, u⟩])]) level).map
            (fun r => r.Session) = [.str "Unknown"]
        ∧ (decodeData (.grouped [(subject, [⟨y, none, t, c, u⟩])]) level).map
            (fun r => r.Session) = [.str "Unknown"]) := by
  refine ⟨?_, rfl, ?_⟩
  · simp [decodeData_grouped, List.map_map, Function.comp_def, decodeTuple_session_eq]
  · intro subject y t c u
    simp only [decodeData_grouped, payloadTuples, List.map_cons, List.map_nil, List.append_nil,
      decodeTuple_session_eq]
    decide

/-- C6: URL reconstruction for the CIE levels. For level L among "IGCSE", "O Level" and
"AS and A Level", the URL of every record decoded from subject key K and tuple
`[y, s, t, c, u]` is "https://papers.xtremepape.rs/CAIE/" + L + "/" + K + "/" + u, and is
therefore never the empty string. -/
theorem decodeData_url_cie (level : String) (entries : List (String × List Encoded))
    (hL : level = "IGCSE" ∨ level = "O Level" ∨ level = "AS and A Level") :
    (decodeData (.grouped entries) level).map (fun r => r.URL)
        = (payloadTuples entries).map
            (fun kt => JSVal.str
              ("https://papers.xtremepape.rs/CAIE/" ++ level ++ "/" ++ kt.1 ++ "/"
                ++ toStr kt.2.u))
    ∧ ∀ r ∈ decodeData (.grouped entries) level, r.URL ≠ .str "" ∧ truthy r.URL = true := by
  refine ⟨?_, ?_⟩
  · simp [decodeData_grouped, List.map_map, Function.comp_def, decodeTuple_url_cie _ _ _ hL]
  · intro r hr
    rw [decodeData_grouped] at hr
    obtain ⟨kt, -, rfl⟩ := List.mem_map.1 hr
    rw [decodeTuple_url_cie _ _ _ hL]
    have hne : "https://papers.xtremepape.rs/CAIE/" ++ level ++ "/" ++ kt.1 ++ "/"
        ++ toStr kt.2.u ≠ "" := by
      intro h
      have := congrArg String.length h
      simp only [String.length_append] at this
      have h0 : "".length = 0 := rfl
      have h1 : "/".length = 1 := rfl
      omega
    refine ⟨fun h => hne (by injection h), ?_⟩
    simp [truthy, hne]

/-- Witness for C6 at level "IGCSE" on the Biology payload. -/
theorem decodeData_url_cie_witness :
    ("IGCSE" = "IGCSE" ∨ "IGCSE" = "O Level" ∨ "IGCSE" = "AS and A Level")
    ∧ ((decodeData (.grouped biologyPayload) "IGCSE").map (fun r => r.URL)
        = (payloadTuples biologyPayload).map
            (fun kt => JSVal.str
              ("https://papers.xtremepape.rs/CAIE/" ++ "IGCSE" ++ "/" ++ kt.1 ++ "/"
                ++ toStr kt.2.u))
      ∧ ∀ r ∈ decodeData (.grouped biologyPayload) "IGCSE",
          r.URL ≠ .str "" ∧ truthy r.URL = true) :=
  ⟨Or.inl rfl, decodeData_url_cie "IGCSE" biologyPayload (Or.inl rfl)⟩

/-- C7: decoding for the unit-coded family. With level "IAL", every record decoded from
top-level key K and tuple `[y, s, t, c, u]` has Unit_Code = K, Title = c, Component = null
and URL = u, the stored value passed through with no base path prepended. -/
theorem decodeData_ial (entries : List (String × List Encoded)) :
    (decodeData (.grouped entries) "IAL").map
        (fun r => (r.Unit_Code, r.Title, r.Component, r.URL))
      = (payloadTuples entries).map
          (fun kt => (JSVal.str kt.1, kt.2.c, JSVal.null, kt.2.u)) := by
  simp [decodeData_grouped, List.map_map, Function.comp_def, decodeTuple]

/-- C8: `decodeData` neither drops nor reorders records. For every grouped payload and
level, the output has as many records as the payload has tuples in total, and for every
index i the i-th output record is the record decoded from the i-th tuple in payload
iteration order, with the key of that tuple's entry as Subject and the level as
Category. -/
theorem decodeData_order_preserving (level : String)
    (entries : List (String × List Encoded)) :
    (decodeData (.grouped entries) level).length = (entries.map (fun e => e.2.length)).sum
    ∧ (∀ i : Nat, (decodeData (.grouped entries) level)[i]?
        = ((payloadTuples entries)[i]?).map (fun kt => decodeTuple level kt.1 kt.2))
    ∧ (∀ i : Nat, ((decodeData (.grouped entries) level)[i]?).map
          (fun r => (r.Subject, r.Category))
        = ((payloadTuples entries)[i]?).map (fun kt => (JSVal.str kt.1, JSVal.str level))) := by
  refine ⟨?_, ?_, ?_⟩
  · simp [decodeData_grouped, payloadTuples_length]
  · intro i
    simp [decodeData_grouped, List.getElem?_map]
  · intro i
    simp [decodeData_grouped, List.getElem?_map, Option.map_map, Function.comp_def,
      decodeTuple_subject, decodeTuple_category]

/-- C9, as stated, fails: the object carrying y = 2019 and Year = 2020 decodes to
Year = 2019, the value of the abbreviated key, not to 2020. -/
theorem legacy_long_form_not_preferred :
    bothYearKeys.get "y" = .num 2019 ∧ bothYearKeys.get "Year" = .num 2020
    ∧ (decodeData (.legacy [bothYearKeys]) "IGCSE").map (fun r => r.Year) = [.num 2019]
    ∧ (decodeData (.legacy [bothYearKeys]) "IGCSE").map (fun r => r.Year) ≠ [.num 2020] := by
  decide

/-- C9, amended: in the legacy input shape every output record comes from the input
object at the same position, and each canonical field takes the value of the abbreviated
key when that value is truthy and the value of the long-form key otherwise (so the
long-form value is used only when the abbreviated key is absent or falsy). -/
theorem decodeData_legacy_fields (level : String) (items : List JSObj) :
    (decodeData (.legacy items) level).length = items.length
    ∧ (∀ pick : Record → JSVal, ∀ i : Nat,
        ((decodeData (.legacy items) level)[i]?).map pick
          = (items[i]?).map (fun item => pick (decodeLegacyItem item)))
    ∧ ∀ item : JSObj,
        let r := decodeLegacyItem item
        let choose := fun (short long : String) =>
          if truthy (item.get short) = true then item.get short else item.get long
        r.Year = choose "y" "Year" ∧ r.Session = choose "s" "Session"
        ∧ r.Type_ = choose "t" "Type" ∧ r.URL = choose "u" "URL"
        ∧ r.Category = choose "c" "Category" ∧ r.Subject = choose "S" "Subject"
        ∧ r.Component = choose "C" "Component" ∧ r.Unit = choose "U" "Unit"
        ∧ r.Unit_Code = choose "uc" "Unit_Code" ∧ r.Title = choose "T" "Title" := by
  refine ⟨by simp [decodeData], ?_, ?_⟩
  · intro pick i
    simp [decodeData, List.getElem?_map, Option.map_map, Function.comp_def]
  · intro item
    simp [decodeLegacyItem, jsOr]

/-! ## Lemmas on the tokenizer -/

theorem laterToken_white_cons (c : Char) (cs tok : List Char) (hc : isWhite c = true) :
    LaterToken (c :: cs) tok ↔ RunFrom cs [] tok ∨ LaterToken cs tok := by
  constructor
  · rintro ⟨pre, post, hs, hpre, hlast, hnw, hpost⟩
    cases pre with
    | nil => exact absurd rfl hpre
    | cons d pre1 =>
      simp only [List.cons_append, List.cons.injEq] at hs
      obtain ⟨-, hs⟩ := hs
      cases pre1 with
      | nil => exact Or.inl ⟨tok, post, by simpa using hs, hnw, hpost, by simp⟩
      | cons e pre2 =>
        refine Or.inr ⟨e :: pre2, post, hs, by simp, ?_, hnw, hpost⟩
        intro x hx
        exact hlast x (by simpa [List.getLast?_cons_cons] using hx)
  · rintro (⟨run, post, hs, hnw, hpost, ht⟩ | ⟨pre, post, hs, hpre, hlast, hnw, hpost⟩)
    · simp only [List.reverse_nil, List.nil_append] at ht
      subst ht
      refine ⟨[c], post, by simp [hs], by simp, ?_, hnw, hpost⟩
      intro x hx
      simp at hx
      exact hx ▸ hc
    · refine ⟨c :: pre, post, by simp [hs], by simp, ?_, hnw, hpost⟩
      intro x hx
      cases pre with
      | nil => exact absurd rfl hpre
      | cons e pre2 => exact hlast x (by simpa [List.getLast?_cons_cons] using hx)

theorem runFrom_white_cons (c : Char) (cs cur tok : List Char) (hc : isWhite c = true) :
    RunFrom (c :: cs) cur tok ↔ tok = cur.reverse := by
  constructor
  · rintro ⟨run, post, hs, hnw, -, ht⟩
    cases run with
    | nil => simpa using ht
    | cons d run1 =>
      simp only [List.cons_append, List.cons.injEq] at hs
      have := hnw d (by simp)
      rw [← hs.1, hc] at this
      exact absurd this (by decide)
  · intro ht
    refine ⟨[], c :: cs, rfl, by simp, ?_, by simp [ht]⟩
    intro x hx
    simp at hx
    exact hx ▸ hc

theorem runFrom_black_cons (c : Char) (cs cur tok : List Char) (hc : isWhite c = false) :
    RunFrom (c :: cs) cur tok ↔ RunFrom cs (c :: cur) tok := by
  constructor
  · rintro ⟨run, post, hs, hnw, hpost, ht⟩
    cases run with
    | nil =>
      simp only [List.nil_append] at hs
      have := hpost c (by simp [← hs])
      rw [hc] at this
      exact absurd this (by decide)
    | cons d run1 =>
      simp only [List.cons_append, List.cons.injEq] at hs
      obtain ⟨hd, hs⟩ := hs
      subst hd
      exact ⟨run1, post, hs, fun x hx => hnw x (by simp [hx]), hpost, by simp [ht]⟩
  · rintro ⟨run, post, hs, hnw, hpost, ht⟩
    refine ⟨c :: run, post, by simp [hs], ?_, hpost, by simp [ht]⟩
    intro x hx
    rcases List.mem_cons.1 hx with h | h
    · exact h ▸ hc
    · exact hnw x h

theorem laterToken_black_cons (c : Char) (cs tok : List Char) (hc : isWhite c = false) :
    LaterToken (c :: cs) tok ↔ LaterToken cs tok := by
  constructor
  · rintro ⟨pre, post, hs, hpre, hlast, hnw, hpost⟩
    cases pre with
    | nil => exact absurd rfl hpre
    | cons d pre1 =>
      simp only [List.cons_append, List.cons.injEq] at hs
      obtain ⟨hd, hs⟩ := hs
      subst hd
      cases pre1 with
      | nil =>
        have := hlast c (by simp)
        rw [hc] at this
        exact absurd this (by decide)
      | cons e pre2 =>
        refine ⟨e :: pre2, post, hs, by simp, ?_, hnw, hpost⟩
        intro x hx
        exact hlast x (by simpa [List.getLast?_cons_cons] using hx)
  · rintro ⟨pre, post, hs, hpre, hlast, hnw, hpost⟩
    refine ⟨c :: pre, post, by simp [hs], by simp, ?_, hnw, hpost⟩
    intro x hx
    cases pre with
    | nil => exact absurd rfl hpre
    | cons e pre2 => exact hlast x (by simpa [List.getLast?_cons_cons] using hx)

theorem splitWsAux_mem (s : List Char) :
    ∀ (cur : List Char) (inSep : Bool) (tok : List Char),
      tok ≠ [] → (inSep = true → cur = []) →
      (tok ∈ splitWsAux s cur inSep ↔ RunFrom s cur tok ∨ LaterToken s tok) := by
  induction s with
  | nil =>
    intro cur inSep tok _ _
    simp only [splitWsAux, List.mem_singleton]
    constructor
    · intro h
      exact Or.inl ⟨[], [], rfl, by simp, by simp, by simp [h]⟩
    · rintro (⟨run, post, hs, -, -, ht⟩ | ⟨pre, post, hs, hpre, -⟩)
      · have h := List.append_eq_nil.1 hs.symm
        simpa [h.1] using ht
      · have h := List.append_eq_nil.1 hs.symm
        exact absurd (List.append_eq_nil.1 h.1).1 hpre
  | cons c cs ih =>
    intro cur inSep tok htok hsep
    by_cases hc : isWhite c = true
    · rw [laterToken_white_cons c cs tok hc, runFrom_white_cons c cs cur tok hc]
      cases inSep with
      | true =>
        have hcur := hsep rfl
        subst hcur
        simp only [splitWsAux, hc, if_true]
        rw [ih [] true tok htok (fun _ => rfl)]
        constructor
        · exact Or.inr
        · rintro (h | h)
          · exact absurd (by simpa using h) htok
          · exact h
      | false =>
        simp only [splitWsAux, hc, if_true, Bool.false_eq_true, if_false, List.mem_cons]
        rw [ih [] true tok htok (fun _ => rfl)]
    · have hc : isWhite c = false := by simpa using hc
      rw [laterToken_black_cons c cs tok hc, runFrom_black_cons c cs cur tok hc]
      simp only [splitWsAux, hc, Bool.false_eq_true, if_false]
      exact ih (c :: cur) false tok htok (by simp)

/-- The non-empty pieces of `split(/\s+/)` are exactly the tokens. -/
theorem mem_lowerTerms_iff (s tok : String) :
    tok ∈ (splitWs s).filter (fun t => t.length > 0) ↔ IsToken tok s := by
  have hlen : (decide (tok.length > 0) = true) ↔ tok.data ≠ [] := by
    cases tok with
    | mk d => cases d <;> simp [String.length]
  rw [List.mem_filter, hlen]
  constructor
  · rintro ⟨hmem, hne⟩
    obtain ⟨l, hl, rfl⟩ := List.mem_map.1 hmem
    rcases (splitWsAux_mem s.data [] false l hne (by simp)).1 hl with
      ⟨run, post, hs, hnw, hpost, ht⟩ | ⟨pre, post, hs, -, hlast, hnw, hpost⟩
    · simp only [List.reverse_nil, List.nil_append] at ht
      subst ht
      exact ⟨hne, hnw, [], post, by simpa using hs, by simp, hpost⟩
    · exact ⟨hne, hnw, pre, post, hs, hlast, hpost⟩
  · rintro ⟨hne, hnw, pre, post, hs, hlast, hpost⟩
    refine ⟨List.mem_map.2 ⟨tok.data, ?_, rfl⟩, hne⟩
    apply (splitWsAux_mem s.data [] false tok.data hne (by simp)).2
    cases pre with
    | nil => exact Or.inl ⟨tok.data, post, by simpa using hs, hnw, hpost, by simp⟩
    | cons d pre1 => exact Or.inr ⟨d :: pre1, post, hs, by simp, hlast, hnw, hpost⟩

theorem includesChars_iff (s t : List Char) : includesChars s t = true ↔ t <:+: s := by
  induction s with
  | nil => simp [includesChars, List.infix_nil]
  | cons c cs ih =>
    simp only [includesChars, Bool.or_eq_true, ih, List.infix_cons_iff,
      List.isPrefixOf_iff_prefix]

/-! ## Lemmas on `getIALSubjectName` -/

theorem lookup_mem {α β : Type} [BEq α] (l : List (α × β)) (k : α) (v : β)
    (h : l.lookup k = some v) : ∃ k1, (k1, v) ∈ l := by
  induction l with
  | nil => simp at h
  | cons p ps ih =>
    obtain ⟨a, b⟩ := p
    rw [List.lookup_cons] at h
    split at h
    · exact ⟨a, by simp_all⟩
    · obtain ⟨k1, hk1⟩ := ih h
      exact ⟨k1, List.mem_cons_of_mem _ hk1⟩

theorem mappingLookup_cases (k : String) :
    mappingLookup k = .undefined ∨ ∃ name : String, name ≠ "" ∧ mappingLookup k = .str name := by
  unfold mappingLookup
  cases h : ialSubjectMapping.lookup k with
  | none => exact Or.inl rfl
  | some name =>
    refine Or.inr ⟨name, ?_, rfl⟩
    obtain ⟨k1, hk1⟩ := lookup_mem _ _ _ h
    have hall : ∀ p ∈ ialSubjectMapping, p.2 ≠ "" := by decide
    exact hall _ hk1

theorem getIALSubjectName_falsy (v : JSVal) (h : truthy v = false) :
    getIALSubjectName v = .ok (.str "Unknown Subject") := by
  simp [getIALSubjectName, h]

theorem getIALSubjectName_str (s : String) :
    ∃ name : String, name ≠ "" ∧ getIALSubjectName (.str s) = .ok (.str name) := by
  by_cases hs : s = ""
  · exact ⟨"Unknown Subject", by decide, getIALSubjectName_falsy _ (by simp [truthy, hs])⟩
  · have ht : truthy (.str s) = true := by simp [truthy, hs]
    rcases mappingLookup_cases (substring03 s) with h | ⟨name, hne, h⟩
    · exact ⟨s, hs, by simp [getIALSubjectName, h, jsOr, truthy, hs]⟩
    · exact ⟨name, hne, by simp [getIALSubjectName, h, jsOr, truthy, hne, hs]⟩

theorem getIALSubjectName_ok_iff (v : JSVal) :
    (∃ r, getIALSubjectName v = .ok r) ↔ (truthy v = false ∨ ∃ s, v = .str s) := by
  constructor
  · rintro ⟨r, hr⟩
    by_cases ht : truthy v = true
    · cases v with
      | str s => exact Or.inr ⟨s, rfl⟩
      | undefined => simp [truthy] at ht
      | null => simp [truthy] at ht
      | bool b => simp [getIALSubjectName, ht] at hr
      | num n => simp [getIALSubjectName, ht] at hr
    · exact Or.inl (by simpa using ht)
  · rintro (h | ⟨s, rfl⟩)
    · exact ⟨_, getIALSubjectName_falsy v h⟩
    · obtain ⟨name, -, h⟩ := getIALSubjectName_str s
      exact ⟨_, h⟩

theorem getIALSubjectName_ok_truthy (v r : JSVal) (h : getIALSubjectName v = .ok r) :
    ∃ name : String, name ≠ "" ∧ r = .str name := by
  rcases (getIALSubjectName_ok_iff v).1 ⟨r, h⟩ with hf | ⟨s, rfl⟩
  · rw [getIALSubjectName_falsy v hf] at h
    injection h with h
    exact ⟨"Unknown Subject", by decide, h.symm⟩
  · obtain ⟨name, hne, hn⟩ := getIALSubjectName_str s
    rw [hn] at h
    injection h with h
    exact ⟨name, hne, h.symm⟩

/-! ## Lemmas on `filteredData` -/

theorem arrayFilter_ok {α : Type} (p : α → Except JSError Bool) (xs out : List α)
    (h : arrayFilter p xs = .ok out) :
    (∀ a ∈ xs, ∃ b, p a = .ok b) ∧
    out = xs.filter (fun a => match p a with | .ok b => b | .error _ => false) := by
  induction xs generalizing out with
  | nil =>
    simp only [arrayFilter, Except.ok.injEq] at h
    simp [← h]
  | cons a as ih =>
    unfold arrayFilter at h
    cases hp : p a with
    | error e => simp [hp] at h
    | ok keep =>
      cases hr : arrayFilter p as with
      | error e => simp [hp, hr] at h
      | ok rest =>
        simp only [hp, hr, Except.ok.injEq] at h
        obtain ⟨h1, h2⟩ := ih rest hr
        refine ⟨?_, ?_⟩
        · intro x hx
          rcases List.mem_cons.1 hx with e | e
          · exact ⟨keep, e ▸ hp⟩
          · exact h1 x e
        · rw [← h, h2, List.filter_cons]
          simp only [hp]

theorem arrayFilter_total {α : Type} (p : α → Except JSError Bool) (xs : List α)
    (h : ∀ a ∈ xs, ∃ b, p a = .ok b) : ∃ out, arrayFilter p xs = .ok out := by
  induction xs with
  | nil => exact ⟨[], rfl⟩
  | cons a as ih =>
    obtain ⟨b, hb⟩ := h a (by simp)
    obtain ⟨rest, hrest⟩ := ih (fun x hx => h x (List.mem_cons_of_mem _ hx))
    exact ⟨if b then a :: rest else rest, by simp [arrayFilter, hb, hrest]⟩

theorem searchParts_mem (activeTab : String) (r : Record) (parts : List JSVal)
    (h : searchParts activeTab r = .ok parts) (v : JSVal) :
    v ∈ parts ↔ SearchField activeTab r v := by
  unfold searchParts at h
  unfold SearchField
  by_cases ht : activeTab = "ial"
  · subst ht
    cases hn : getIALSubjectName r.Unit_Code with
    | error e => simp [hn] at h
    | ok name =>
      simp only [hn, if_true, Except.ok.injEq] at h
      subst h
      simp only [List.cons_append, List.nil_append, List.mem_cons, List.mem_singleton,
        List.not_mem_nil, or_false, true_and, Except.ok.injEq]
      constructor
      · rintro (h | h | h | h | h | h | h | h) <;> simp [h]
      · rintro (h | h | h | h | h | h | h | h) <;> simp [h]
  · simp only [ht, if_false, Except.ok.injEq] at h
    subst h
    simp only [List.mem_cons, List.mem_singleton, List.not_mem_nil, or_false, false_and, ht]

theorem partMatches_iff (toLowerCase : String → String) (term : String) (part : JSVal) :
    partMatches toLowerCase term part = true ↔
      truthy part = true ∧ term.data <:+: (toLowerCase (toStr part)).data := by
  simp [partMatches, includes, includesChars_iff]

theorem filterCallback_ok_iff (toLowerCase : String → String) (query activeTab : String)
    (r : Record) (b : Bool)
    (h : filterCallback toLowerCase
        ((splitWs (toLowerCase query)).filter (fun t => t.length > 0)) activeTab r = .ok b) :
    b = true ↔ MatchesTruthyField toLowerCase query activeTab r := by
  unfold filterCallback at h
  cases hp : searchParts activeTab r with
  | error e => simp [hp] at h
  | ok parts =>
    simp only [hp, Except.ok.injEq] at h
    rw [← h, List.all_eq_true]
    unfold MatchesTruthyField
    constructor
    · intro hall tok htok
      have := hall tok ((mem_lowerTerms_iff _ _).2 htok)
      obtain ⟨v, hv, hm⟩ := List.any_eq_true.1 this
      exact ⟨v, (searchParts_mem _ _ _ hp v).1 hv, (partMatches_iff _ _ _).1 hm⟩
    · intro hall tok htok
      obtain ⟨v, hv, hm⟩ := hall tok ((mem_lowerTerms_iff _ _).1 htok)
      exact List.any_eq_true.2 ⟨v, (searchParts_mem _ _ _ hp v).2 hv, (partMatches_iff _ _ _).2 hm⟩

theorem filterCallback_total (toLowerCase : String → String) (terms : List String)
    (activeTab : String) (r : Record)
    (h : activeTab = "ial" → truthy r.Unit_Code = true → ∃ s, r.Unit_Code = .str s) :
    ∃ b, filterCallback toLowerCase terms activeTab r = .ok b := by
  unfold filterCallback searchParts
  by_cases ht : activeTab = "ial"
  · have : ∃ name, getIALSubjectName r.Unit_Code = .ok name := by
      rw [getIALSubjectName_ok_iff]
      by_cases hu : truthy r.Unit_Code = true
      · exact Or.inr (h ht hu)
      · exact Or.inl (by simpa using hu)
    obtain ⟨name, hn⟩ := this
    simp [ht, hn]
  · simp [ht]

theorem filteredData_total (toLowerCase : String → String) (query activeTab : String)
    (data : List Record)
    (hU : ∀ r ∈ data, activeTab = "ial" → truthy r.Unit_Code = true →
      ∃ s, r.Unit_Code = .str s) :
    ∃ out, filteredData toLowerCase query data activeTab = .ok out := by
  unfold filteredData
  by_cases hq : query = ""
  · exact ⟨data, by simp [hq]⟩
  · simp only [hq, if_false]
    exact arrayFilter_total _ _ (fun r hr => filterCallback_total _ _ _ _ (hU r hr))

/-! ## Filtering and subject resolution: the claims -/

/-- C1, as stated, fails: the legacy object with Year 0 decodes to a record whose Year is
the number 0; with the query "0" the filter drops that record, although the only token
"0" is a substring of the string form "0" of its Year. -/
theorem filter_skips_zero_year :
    decodeData (.legacy [yearZeroObject]) "IGCSE" = [yearZeroRecord]
    ∧ filteredData asciiLower "0" [yearZeroRecord] "cie" = .ok []
    ∧ MatchesAnyField asciiLower "0" "cie" yearZeroRecord := by
  refine ⟨by decide, by decide, ?_⟩
  intro tok htok
  have hl : asciiLower "0" = "0" := by decide
  have hall : ∀ t ∈ (splitWs "0").filter (fun t => t.length > 0), t = "0" := by decide
  rw [hl] at htok
  have ht : tok = "0" := hall tok ((mem_lowerTerms_iff _ _).2 htok)
  subst ht
  exact ⟨.num 0, Or.inr (Or.inl rfl), by decide⟩

/-- C1, amended: for every record sequence, every non-empty query and either tab, provided
every truthy Unit_Code is a string when the tab is IAL (otherwise the filter throws), the
filter returns the input records for which every whitespace-separated non-empty token of
the lower-cased query is a substring of the lower-cased string form of at least one
truthy value among Subject, Year, Unit, Unit_Code, Session, Title, Component and, for the
IAL tab only, the resolved subject name of Unit_Code. -/
theorem filteredData_match_law (toLowerCase : String → String) (query activeTab : String)
    (data : List Record) (hq : query ≠ "")
    (hU : ∀ r ∈ data, activeTab = "ial" → truthy r.Unit_Code = true →
      ∃ s, r.Unit_Code = .str s) :
    ∃ keep : Record → Bool,
      filteredData toLowerCase query data activeTab = .ok (data.filter keep) ∧
      ∀ r ∈ data, (keep r = true ↔ MatchesTruthyField toLowerCase query activeTab r) := by
  obtain ⟨out, hout⟩ := filteredData_total toLowerCase query activeTab data hU
  have h := hout
  unfold filteredData at h
  simp only [hq, if_false] at h
  obtain ⟨hok, hfilter⟩ := arrayFilter_ok _ _ _ h
  refine ⟨_, by rw [hout, hfilter], ?_⟩
  intro r hr
  obtain ⟨b, hb⟩ := hok r hr
  simp only [hb]
  exact filterCallback_ok_iff toLowerCase query activeTab r b hb

/-- Witness for C1: the query "bio 2020" on one Biology record of 2020 in the CIE tab. -/
theorem filteredData_match_law_witness :
    "bio 2020" ≠ ""
    ∧ (∀ r ∈ [biology2020], "cie" = "ial" → truthy r.Unit_Code = true →
        ∃ s, r.Unit_Code = .str s)
    ∧ ∃ keep : Record → Bool,
        filteredData asciiLower "bio 2020" [biology2020] "cie"
          = .ok ([biology2020].filter keep) ∧
        ∀ r ∈ [biology2020],
          (keep r = true ↔ MatchesTruthyField asciiLower "bio 2020" "cie" r) :=
  ⟨by decide, fun _ _ h => absurd h (by decide),
    filteredData_match_law asciiLower "bio 2020" "cie" [biology2020] (by decide)
      (fun _ _ h => absurd h (by decide))⟩

/-- C2: filtering with an empty query is the identity: for every record sequence and
tab the filter with query "" returns the input sequence itself. -/
theorem filteredData_empty_query (toLowerCase : String → String) (activeTab : String)
    (data : List Record) :
    filteredData toLowerCase "" data activeTab = .ok data := by
  simp [filteredData]

/-- C3: for every record sequence, query and tab, every output of the filter is a
subsequence of its input (only input records, none more often than in the input, in
the input order); and the filter does return an output whenever, for the IAL tab, every
truthy Unit_Code is a string. -/
theorem filteredData_sublist (toLowerCase : String → String) (query activeTab : String)
    (data : List Record) :
    (∀ out, filteredData toLowerCase query data activeTab = .ok out → out.Sublist data)
    ∧ ((∀ r ∈ data, activeTab = "ial" → truthy r.Unit_Code = true →
          ∃ s, r.Unit_Code = .str s) →
        ∃ out, filteredData toLowerCase query data activeTab = .ok out) := by
  refine ⟨?_, filteredData_total toLowerCase query activeTab data⟩
  intro out h
  unfold filteredData at h
  by_cases hq : query = ""
  · simp only [hq, if_true, Except.ok.injEq] at h
    exact h ▸ List.Sublist.refl _
  · simp only [hq, if_false] at h
    rw [(arrayFilter_ok _ _ _ h).2]
    exact List.filter_sublist _

/-- Witness for C3: the query "bio 2021" on one Biology record of 2020 returns the empty
sequence, a subsequence of the input. -/
theorem filteredData_sublist_witness :
    filteredData asciiLower "bio 2021" [biology2020] "cie" = .ok []
    ∧ ([] : List Record).Sublist [biology2020]
    ∧ (∀ r ∈ [biology2020], "cie" = "ial" → truthy r.Unit_Code = true →
        ∃ s, r.Unit_Code = .str s)
    ∧ ∃ out, filteredData asciiLower "bio 2021" [biology2020] "cie" = .ok out :=
  ⟨by decide,
    (filteredData_sublist asciiLower "bio 2021" "cie" [biology2020]).1 [] (by decide),
    fun _ _ h => absurd h (by decide),
    (filteredData_sublist asciiLower "bio 2021" "cie" [biology2020]).2
      (fun _ _ h => absurd h (by decide))⟩

/-- C10: `getIALSubjectName` returns "Unknown Subject" for a null, undefined or empty unit
code, and it is total on unit codes: for every string it returns a non-empty string. (It
returns at all exactly when its argument is falsy or a string; a unit code is a string,
null or absent.) -/
theorem getIALSubjectName_total_on_unit_codes :
    getIALSubjectName .null = .ok (.str "Unknown Subject")
    ∧ getIALSubjectName .undefined = .ok (.str "Unknown Subject")
    ∧ getIALSubjectName (.str "") = .ok (.str "Unknown Subject")
    ∧ (∀ s : String, ∃ name : String, name ≠ "" ∧
        getIALSubjectName (.str s) = .ok (.str name))
    ∧ (∀ v : JSVal, (∃ r, getIALSubjectName v = .ok r) ↔
        (truthy v = false ∨ ∃ s, v = .str s)) :=
  ⟨by decide, by decide, by decide, getIALSubjectName_str, getIALSubjectName_ok_iff⟩

/-! ## Subject resolution, cache and Type: the claims -/

theorem lookup_eq_some_mem {β : Type} (l : List (String × β)) (k : String) (v : β)
    (h : l.lookup k = some v) : (k, v) ∈ l := by
  obtain ⟨l1, l2, rfl, -⟩ := List.lookup_eq_some_iff.1 h
  simp

theorem mappingLookup_of_mem (k name : String) (h : (k, name) ∈ ialSubjectMapping) :
    mappingLookup k = .str name := by
  unfold mappingLookup
  cases hl : ialSubjectMapping.lookup k with
  | none =>
    have := (List.lookup_eq_none_iff.1 hl) (k, name) h
    simp at this
  | some name1 =>
    have h1 := lookup_eq_some_mem _ _ _ hl
    have hfun : ∀ p ∈ ialSubjectMapping, ∀ q ∈ ialSubjectMapping, p.1 = q.1 → p.2 = q.2 := by
      decide
    have := hfun _ h1 _ h rfl
    simp only at this
    rw [this]

theorem mappingLookup_of_not_mem (k : String) (h : ∀ name, (k, name) ∉ ialSubjectMapping) :
    mappingLookup k = .undefined := by
  unfold mappingLookup
  cases hl : ialSubjectMapping.lookup k with
  | none => rfl
  | some name1 => exact absurd (lookup_eq_some_mem _ _ _ hl) (h name1)

/-- C11: for every non-empty unit code, `getIALSubjectName` returns the table entry of the
code's first three characters when those are a key of the table, and the unit code itself
otherwise; "WBI" and "WBI11" give "Biology" and "ZZZ" gives "ZZZ". -/
theorem getIALSubjectName_by_first_three (s : String) (hs : s ≠ "") :
    (∀ name, (substring03 s, name) ∈ ialSubjectMapping →
        getIALSubjectName (.str s) = .ok (.str name))
    ∧ ((∀ name, (substring03 s, name) ∉ ialSubjectMapping) →
        getIALSubjectName (.str s) = .ok (.str s))
    ∧ getIALSubjectName (.str "WBI") = .ok (.str "Biology")
    ∧ getIALSubjectName (.str "WBI11") = .ok (.str "Biology")
    ∧ getIALSubjectName (.str "ZZZ") = .ok (.str "ZZZ") := by
  have hall : ∀ p ∈ ialSubjectMapping, p.2 ≠ "" := by decide
  refine ⟨?_, ?_, by decide, by decide, by decide⟩
  · intro name hmem
    have hne : name ≠ "" := hall _ hmem
    simp [getIALSubjectName, truthy, hs, mappingLookup_of_mem _ _ hmem, jsOr, hne]
  · intro hnot
    simp [getIALSubjectName, truthy, hs, mappingLookup_of_not_mem _ hnot, jsOr]

/-- Witness for C11 at the unit code "WBI11", whose first three characters are the key
"WBI" of the table. -/
theorem getIALSubjectName_by_first_three_witness :
    "WBI11" ≠ "" ∧ (substring03 "WBI11", "Biology") ∈ ialSubjectMapping
    ∧ getIALSubjectName (.str "WBI11") = .ok (.str "Biology") :=
  ⟨by decide, by decide,
    (getIALSubjectName_by_first_three "WBI11" (by decide)).1 "Biology" (by decide)⟩

theorem preloadUpdater_keeps (levelKey : String) (combinedData old : List Record)
    (prev : Cache) (h : prev.lookup levelKey = some old) :
    preloadUpdater levelKey combinedData prev = prev := by
  simp [preloadUpdater, h]

/-- C12 fails on the foreground path: with IGCSE already populated, the preload updater
returns the cache unchanged, but the updater of `loadData` replaces the stored records of
IGCSE by the later ones. -/
theorem loadUpdater_overwrites :
    populatedCache.lookup "IGCSE" = some [biology2020]
    ∧ (preloadUpdater "IGCSE" [yearZeroRecord] populatedCache).lookup "IGCSE"
        = some [biology2020]
    ∧ (loadUpdater "IGCSE" [yearZeroRecord] populatedCache).lookup "IGCSE"
        = some [yearZeroRecord]
    ∧ [yearZeroRecord] ≠ [biology2020] := by
  decide

/-- C20, as stated, fails: the tuple with document kind "in" decodes, at level IGCSE, to a
record whose Type is "in", none of qp, ms, er, gt, other. -/
theorem decodeData_type_not_enumerated :
    (decodeData (.grouped insertPayload) "IGCSE").map (fun r => r.Type_) = [.str "in"]
    ∧ JSVal.str "in" ∉ [JSVal.str "qp", .str "ms", .str "er", .str "gt", .str "other"] := by
  decide

/-- C20, amended: `decodeData` copies the Type: for a grouped payload the Type of each
record is the third field `t` of its tuple, unchanged, and for the legacy shape it is
`item.t || item.Type`; so every decoded record has a Type among qp, ms, er, gt, other
exactly when every tuple of the payload carries one of these. -/
theorem decodeData_type_passthrough (level : String) (entries : List (String × List Encoded))
    (items : List JSObj) :
    (decodeData (.grouped entries) level).map (fun r => r.Type_)
        = (payloadTuples entries).map (fun kt => kt.2.t)
    ∧ (decodeData (.legacy items) level).map (fun r => r.Type_)
        = items.map (fun item => jsOr (item.get "t") (item.get "Type"))
    ∧ ((∀ r ∈ decodeData (.grouped entries) level,
          r.Type_ ∈ [JSVal.str "qp", .str "ms", .str "er", .str "gt", .str "other"])
        ↔ ∀ kt ∈ payloadTuples entries,
          kt.2.t ∈ [JSVal.str "qp", .str "ms", .str "er", .str "gt", .str "other"]) := by
  have htype : ∀ (subject : String) (record : Encoded),
      (decodeTuple level subject record).Type_ = record.t := by
    intro subject record
    by_cases h : level = "IAL" <;> simp [decodeTuple, h]
  refine ⟨?_, ?_, ?_⟩
  · simp [decodeData_grouped, List.map_map, Function.comp_def, htype]
  · simp [decodeData, decodeLegacyItem, List.map_map, Function.comp_def]
  · rw [decodeData_grouped]
    constructor
    · intro h kt hkt
      have := h _ (List.mem_map.2 ⟨kt, hkt, rfl⟩)
      rwa [htype] at this
    · intro h r hr
      obtain ⟨kt, hkt, rfl⟩ := List.mem_map.1 hr
      rw [htype]
      exact h kt hkt

/-! ## Lemmas on `arraySort` -/

theorem orderedInsertM_perm {α : Type} (cmp : α → α → Except JSError (Option Int)) (a : α) :
    ∀ (l r : List α), orderedInsertM cmp a l = .ok r → r.Perm (a :: l) := by
  intro l
  induction l with
  | nil =>
    intro r h
    simp only [orderedInsertM, Except.ok.injEq] at h
    exact h ▸ List.Perm.refl _
  | cons b l ih =>
    intro r h
    unfold orderedInsertM at h
    cases hc : cmp a b with
    | error e => simp [hc] at h
    | ok c =>
      simp only [hc] at h
      by_cases hle : nanToZero c ≤ 0
      · simp only [hle, if_true, Except.ok.injEq] at h
        exact h ▸ List.Perm.refl _
      · simp only [hle, if_false] at h
        cases hr : orderedInsertM cmp a l with
        | error e => simp [hr] at h
        | ok r1 =>
          simp only [hr, Except.ok.injEq] at h
          subst h
          exact ((ih r1 hr).cons b).trans (List.Perm.swap a b l)

theorem arraySort_perm {α : Type} (cmp : α → α → Except JSError (Option Int)) :
    ∀ (l r : List α), arraySort cmp l = .ok r → r.Perm l := by
  intro l
  induction l with
  | nil =>
    intro r h
    simp only [arraySort, Except.ok.injEq] at h
    exact h ▸ List.Perm.refl _
  | cons a l ih =>
    intro r h
    unfold arraySort at h
    cases hs : arraySort cmp l with
    | error e => simp [hs] at h
    | ok sorted =>
      simp only [hs] at h
      exact (orderedInsertM_perm cmp a sorted r h).trans ((ih sorted hs).cons a)

theorem orderedInsertM_total {α : Type} (cmp : α → α → Except JSError (Option Int)) (a : α) :
    ∀ l : List α, (∀ b ∈ l, ∃ c, cmp a b = .ok c) → ∃ r, orderedInsertM cmp a l = .ok r := by
  intro l
  induction l with
  | nil => intro _; exact ⟨[a], rfl⟩
  | cons b l ih =>
    intro h
    obtain ⟨c, hc⟩ := h b (by simp)
    obtain ⟨r1, hr1⟩ := ih (fun x hx => h x (List.mem_cons_of_mem _ hx))
    by_cases hle : nanToZero c ≤ 0
    · exact ⟨a :: b :: l, by simp [orderedInsertM, hc, hle]⟩
    · exact ⟨b :: r1, by simp [orderedInsertM, hc, hle, hr1]⟩

theorem arraySort_total {α : Type} (cmp : α → α → Except JSError (Option Int)) :
    ∀ l : List α, (∀ a ∈ l, ∀ b ∈ l, ∃ c, cmp a b = .ok c) → ∃ r, arraySort cmp l = .ok r := by
  intro l
  induction l with
  | nil => intro _; exact ⟨[], rfl⟩
  | cons a l ih =>
    intro h
    obtain ⟨sorted, hs⟩ := ih (fun x hx y hy =>
      h x (List.mem_cons_of_mem _ hx) y (List.mem_cons_of_mem _ hy))
    have hmem : ∀ b ∈ sorted, ∃ c, cmp a b = .ok c := fun b hb =>
      h a (by simp) b (List.mem_cons_of_mem _ ((arraySort_perm cmp l sorted hs).mem_iff.1 hb))
    obtain ⟨r, hr⟩ := orderedInsertM_total cmp a sorted hmem
    exact ⟨r, by simp [arraySort, hs, hr]⟩

theorem orderedInsertM_pairwise {α : Type} (cmp : α → α → Except JSError (Option Int))
    (R : α → α → Prop) (htrans : ∀ a b c, R a b → R b c → R a c) (a : α) :
    ∀ (l r : List α),
      (∀ b ∈ l, ∀ c, cmp a b = .ok c →
        (nanToZero c ≤ 0 → R a b) ∧ (0 < nanToZero c → R b a)) →
      l.Pairwise R → orderedInsertM cmp a l = .ok r → r.Pairwise R := by
  intro l
  induction l with
  | nil =>
    intro r _ _ h
    simp only [orderedInsertM, Except.ok.injEq] at h
    subst h
    simp
  | cons b l ih =>
    intro r hP hl h
    unfold orderedInsertM at h
    cases hc : cmp a b with
    | error e => simp [hc] at h
    | ok c =>
      simp only [hc] at h
      have hb := hP b (by simp) c hc
      by_cases hle : nanToZero c ≤ 0
      · simp only [hle, if_true, Except.ok.injEq] at h
        subst h
        refine List.Pairwise.cons ?_ hl
        intro x hx
        rcases List.mem_cons.1 hx with e | e
        · exact e ▸ hb.1 hle
        · exact htrans _ _ _ (hb.1 hle) ((List.pairwise_cons.1 hl).1 x e)
      · simp only [hle, if_false] at h
        cases hr : orderedInsertM cmp a l with
        | error e => simp [hr] at h
        | ok r1 =>
          simp only [hr, Except.ok.injEq] at h
          subst h
          have hr1 := ih r1 (fun x hx => hP x (List.mem_cons_of_mem _ hx))
            (List.pairwise_cons.1 hl).2 hr
          refine List.Pairwise.cons ?_ hr1
          intro x hx
          rcases List.mem_cons.1 ((orderedInsertM_perm cmp a l r1 hr).mem_iff.1 hx) with e | e
          · exact e ▸ hb.2 (by omega)
          · exact (List.pairwise_cons.1 hl).1 x e

theorem arraySort_pairwise {α : Type} (cmp : α → α → Except JSError (Option Int))
    (R : α → α → Prop) (htrans : ∀ a b c, R a b → R b c → R a c) :
    ∀ (l r : List α),
      l.Pairwise (fun a b => ∀ c, cmp a b = .ok c →
        (nanToZero c ≤ 0 → R a b) ∧ (0 < nanToZero c → R b a)) →
      arraySort cmp l = .ok r → r.Pairwise R := by
  intro l
  induction l with
  | nil =>
    intro r _ h
    simp only [arraySort, Except.ok.injEq] at h
    subst h
    simp
  | cons a l ih =>
    intro r hP h
    unfold arraySort at h
    cases hs : arraySort cmp l with
    | error e => simp [hs] at h
    | ok sorted =>
      simp only [hs] at h
      obtain ⟨ha, hl⟩ := List.pairwise_cons.1 hP
      exact orderedInsertM_pairwise cmp R htrans a sorted r
        (fun b hb => ha b ((arraySort_perm cmp l sorted hs).mem_iff.1 hb))
        (ih sorted hl hs) h

theorem traverse_ok {α β : Type} (f : α → Except JSError β) :
    ∀ (l : List α) (out : List β), traverse f l = .ok out →
      List.Forall₂ (fun a b => f a = .ok b) l out := by
  intro l
  induction l with
  | nil =>
    intro out h
    simp only [traverse, Except.ok.injEq] at h
    subst h
    exact List.Forall₂.nil
  | cons a l ih =>
    intro out h
    unfold traverse at h
    cases hf : f a with
    | error e => simp [hf] at h
    | ok b =>
      cases ht : traverse f l with
      | error e => simp [hf, ht] at h
      | ok bs =>
        simp only [hf, ht, Except.ok.injEq] at h
        subst h
        exact List.Forall₂.cons hf (ih bs ht)

theorem traverse_total {α β : Type} (f : α → Except JSError β) :
    ∀ l : List α, (∀ a ∈ l, ∃ b, f a = .ok b) → ∃ out, traverse f l = .ok out := by
  intro l
  induction l with
  | nil => intro _; exact ⟨[], rfl⟩
  | cons a l ih =>
    intro h
    obtain ⟨b, hb⟩ := h a (by simp)
    obtain ⟨bs, hbs⟩ := ih (fun x hx => h x (List.mem_cons_of_mem _ hx))
    exact ⟨b :: bs, by simp [traverse, hb, hbs]⟩

/-! ## Lemmas on objects -/

theorem objectValues_perm {β : Type} (m : List (String × β)) :
    (objectValues m).Perm (m.map Prod.snd) := by
  unfold objectValues
  have h1 : (m.filterMap (fun kv => (arrayIndex? kv.1).map (fun n => (n, kv.2)))).map Prod.snd
      = (m.filter (fun kv => (arrayIndex? kv.1).isSome)).map Prod.snd := by
    induction m with
    | nil => rfl
    | cons kv m ih =>
      cases hk : arrayIndex? kv.1 with
      | none => simp [List.filterMap_cons, List.filter_cons, hk, ih]
      | some n => simp [List.filterMap_cons, List.filter_cons, hk, ih]
  have h2 : (fun kv : String × β => (arrayIndex? kv.1).isNone)
      = (fun kv => !(arrayIndex? kv.1).isSome) := by
    funext kv
    cases arrayIndex? kv.1 <;> rfl
  simp only []
  refine (List.Perm.append_right _ ((List.perm_insertionSort _ _).map Prod.snd)).trans ?_
  rw [h1, h2, ← List.map_append]
  exact (List.filter_append_perm _ m).map Prod.snd

theorem mem_objectValues {β : Type} (m : List (String × β)) (v : β) :
    v ∈ objectValues m ↔ ∃ k, (k, v) ∈ m := by
  rw [(objectValues_perm m).mem_iff, List.mem_map]
  constructor
  · rintro ⟨kv, hkv, rfl⟩
    exact ⟨kv.1, hkv⟩
  · rintro ⟨k, hk⟩
    exact ⟨(k, v), hk, rfl⟩

theorem looseEqNum_iff (h : Host) (v : JSVal) (n : Int) (hn : n ≠ 0) :
    looseEqNum h v n = true ↔ toNumber h v = some n := by
  cases v with
  | undefined => simp [looseEqNum, toNumber]
  | null =>
    simp only [looseEqNum, toNumber, Option.some.injEq, Bool.false_eq_true, false_iff]
    exact fun e => hn e.symm
  | bool b => simp [looseEqNum]
  | num m => simp [looseEqNum]
  | str s => simp [looseEqNum]

theorem isRecentYear_iff (h : Host) (s : SessionSlot) :
    isRecentYear h s = true ↔
      (toNumber h s.year = some 2023 ∨ toNumber h s.year = some 2024
        ∨ toNumber h s.year = some 2025) := by
  simp [isRecentYear, looseEqNum_iff, or_assoc]

theorem finishPaperGroup_ok (h : Host) (acc : PaperAcc) (g : PaperGroup)
    (hg : finishPaperGroup h acc = .ok g) :
    g.id = acc.id ∧ g.subject = acc.subject ∧ g.unit = acc.unit ∧ g.sessions = acc.sessions
    ∧ arraySort (fun a b => .ok (sessionCompare h a b)) (objectValues acc.sessions)
        = .ok g.sortedSessions
    ∧ g.isOldSyllabus = !(g.sortedSessions.any (isRecentYear h)) := by
  unfold finishPaperGroup at hg
  cases hs : arraySort (fun a b => .ok (sessionCompare h a b)) (objectValues acc.sessions) with
  | error e => simp [hs] at hg
  | ok sorted =>
    simp only [hs, Except.ok.injEq] at hg
    subst hg
    simp

theorem finishPaperGroup_total (h : Host) (acc : PaperAcc) :
    ∃ g, finishPaperGroup h acc = .ok g := by
  obtain ⟨sorted, hs⟩ := arraySort_total (fun a b => .ok (sessionCompare h a b))
    (objectValues acc.sessions) (fun a _ b _ => ⟨_, rfl⟩)
  simp only [finishPaperGroup, hs]
  exact ⟨_, rfl⟩

/-- What `groupedPaper` returns: the sorted arrangement of the finished groups of the
object built by the first loop. -/
theorem groupedPaper_ok (h : Host) (data : List Record) (activeTab sortOrder : String)
    (gs : List PaperGroup) (hok : groupedPaper h data activeTab sortOrder = .ok gs) :
    ∃ groups finished, paperCollect activeTab data [] = .ok groups
      ∧ traverse (finishPaperGroup h) (objectValues groups) = .ok finished
      ∧ arraySort (paperGroupCompare h sortOrder) finished = .ok gs := by
  unfold groupedPaper at hok
  cases hc : paperCollect activeTab data [] with
  | error e => simp [hc] at hok
  | ok groups =>
    cases ht : traverse (finishPaperGroup h) (objectValues groups) with
    | error e => simp [hc, ht] at hok
    | ok finished =>
      simp only [hc, ht] at hok
      exact ⟨groups, finished, rfl, ht, hok⟩

theorem groupedData_paper (h : Host) (data : List Record) (activeTab sortOrder : String)
    (gs : List PaperGroup) :
    groupedData h data activeTab "paper" sortOrder = .ok (.paper gs)
      ↔ groupedPaper h data activeTab sortOrder = .ok gs := by
  unfold groupedData
  cases groupedPaper h data activeTab sortOrder <;> simp

theorem forall₂_mem_right {α β : Type} {R : α → β → Prop} {l1 : List α} {l2 : List β}
    (hf : List.Forall₂ R l1 l2) (b : β) (hb : b ∈ l2) : ∃ a ∈ l1, R a b := by
  induction hf with
  | nil => simp at hb
  | cons hab _ ih =>
    rcases List.mem_cons.1 hb with e | e
    · exact ⟨_, by simp, e ▸ hab⟩
    · obtain ⟨a, ha, hr⟩ := ih e
      exact ⟨a, List.mem_cons_of_mem _ ha, hr⟩

/-! ## By-paper grouping: the claims on flags and the scenario -/

/-- C13: in by-paper mode, for every record sequence, tab and sort order, no group flagged
legacy (`isOldSyllabus`) stands before a group that is not flagged legacy in the output:
every legacy group comes after every non-legacy group. -/
theorem groupedData_legacy_last (h : Host) (data : List Record)
    (activeTab sortOrder : String) (gs : List PaperGroup)
    (hok : groupedData h data activeTab "paper" sortOrder = .ok (.paper gs)) :
    gs.Pairwise (fun a b => ¬ (a.isOldSyllabus = true ∧ b.isOldSyllabus = false)) := by
  obtain ⟨groups, finished, -, -, hsort⟩ :=
    groupedPaper_ok h data activeTab sortOrder gs ((groupedData_paper _ _ _ _ _).1 hok)
  refine arraySort_pairwise (paperGroupCompare h sortOrder) _ ?_ finished gs ?_ hsort
  · intro a b c hab hbc
    cases ha : a.isOldSyllabus <;> cases hb : b.isOldSyllabus <;>
      cases hc : c.isOldSyllabus <;> simp_all
  · refine List.pairwise_of_forall ?_
    intro a b c hc
    unfold paperGroupCompare at hc
    cases ha : a.isOldSyllabus <;> cases hb : b.isOldSyllabus <;>
      simp [ha, hb] at hc ⊢ <;> subst hc <;> simp [nanToZero]

/-- Witness for C13: a group whose only session is of 2019 and a group with a session of
2024, given in that order, come out with the 2024 group first under each of the four
sort orders. -/
theorem groupedData_legacy_last_witness :
    (∀ so ∈ ["newest", "oldest", "az", "za"],
      groupedData plainHost [biology2019, chemistry2024] "cie" "paper" so
        = .ok (.paper [chemistry2024Group, biology2019Group]))
    ∧ [chemistry2024Group, biology2019Group].Pairwise
        (fun a b => ¬ (a.isOldSyllabus = true ∧ b.isOldSyllabus = false)) :=
  ⟨by decide,
    groupedData_legacy_last plainHost [biology2019, chemistry2024] "cie" "az" _ (by decide)⟩

/-- C14: in by-paper mode a group is flagged `isOldSyllabus` if and only if none of its
sessions has, as a number, the year 2023, 2024 or 2025; the three years are constants of
the code and no date enters the computation. -/
theorem groupedData_isOldSyllabus_iff (h : Host) (data : List Record)
    (activeTab sortOrder : String) (gs : List PaperGroup)
    (hok : groupedData h data activeTab "paper" sortOrder = .ok (.paper gs)) :
    ∀ g ∈ gs, (g.isOldSyllabus = true ↔
      ∀ ks ∈ g.sessions, toNumber h ks.2.year ≠ some 2023
        ∧ toNumber h ks.2.year ≠ some 2024 ∧ toNumber h ks.2.year ≠ some 2025) := by
  obtain ⟨groups, finished, -, hfin, hsort⟩ :=
    groupedPaper_ok h data activeTab sortOrder gs ((groupedData_paper _ _ _ _ _).1 hok)
  intro g hg
  have hg1 : g ∈ finished := (arraySort_perm _ _ _ hsort).mem_iff.1 hg
  obtain ⟨acc, -, hacc⟩ := forall₂_mem_right (traverse_ok _ _ _ hfin) g hg1
  obtain ⟨-, -, -, hsess, hsorted, hflag⟩ := finishPaperGroup_ok h acc g hacc
  have hperm := arraySort_perm _ _ _ hsorted
  rw [hflag, hsess]
  simp only [Bool.not_eq_true', List.any_eq_false, isRecentYear_iff, not_or]
  constructor
  · intro hall ks hks
    exact hall ks.2 (hperm.mem_iff.2 ((mem_objectValues _ _).2 ⟨ks.1, hks⟩))
  · intro hall s hs
    obtain ⟨k, hk⟩ := (mem_objectValues _ _).1 (hperm.mem_iff.1 hs)
    exact hall (k, s) hk

/-- Witness for C14: of the two groups of the 2019 and the 2024 paper, the first is
flagged and the second is not. -/
theorem groupedData_isOldSyllabus_iff_witness :
    groupedData plainHost [biology2019, chemistry2024] "cie" "paper" "newest"
        = .ok (.paper [chemistry2024Group, biology2019Group])
    ∧ ∀ g ∈ [chemistry2024Group, biology2019Group], (g.isOldSyllabus = true ↔
        ∀ ks ∈ g.sessions, toNumber plainHost ks.2.year ≠ some 2023
          ∧ toNumber plainHost ks.2.year ≠ some 2024
          ∧ toNumber plainHost ks.2.year ≠ some 2025) :=
  ⟨by decide,
    groupedData_isOldSyllabus_iff plainHost [biology2019, chemistry2024] "cie" "newest" _
      (by decide)⟩

/-- C18: the end-to-end scenario. The Biology payload decodes at level "IGCSE" to two
records with Subject "Biology (0610)", Year 2024, Session "May/June" and Component "22";
grouping them by paper in the CIE tab gives, under every sort order, exactly one group,
with subject "Biology (0610)" and unit "22", whose single session (2024, "May/June") holds
the two records in its qp and ms slots, and which is not flagged `isOldSyllabus`. -/
theorem end_to_end_scenario (h : Host) (sortOrder : String) :
    decodeData (.grouped biologyPayload) "IGCSE" = [biologyQP, biologyMS]
    ∧ (∀ r ∈ [biologyQP, biologyMS], r.Subject = .str "Biology (0610)" ∧ r.Year = .num 2024
        ∧ r.Session = .str "May/June" ∧ r.Component = .str "22")
    ∧ groupedData h (decodeData (.grouped biologyPayload) "IGCSE") "cie" "paper" sortOrder
        = .ok (.paper [biologyGroup])
    ∧ biologyGroup.subject = .str "Biology (0610)" ∧ biologyGroup.unit = .str "22"
    ∧ biologyGroup.sortedSessions
        = [{ year := .num 2024, session := .str "May/June", qp := some biologyQP,
             ms := some biologyMS, er := none, gt := none, others := [] }]
    ∧ biologyGroup.sessions.map Prod.snd = biologyGroup.sortedSessions
    ∧ biologyGroup.isOldSyllabus = false := by
  have hd : decodeData (.grouped biologyPayload) "IGCSE" = [biologyQP, biologyMS] := by decide
  refine ⟨hd, by decide, ?_, rfl, rfl, rfl, rfl, rfl⟩
  rw [hd]
  rfl

/-! ## Invariants of the grouping loops -/

theorem objEnsure_forall {β : Type} (Q : β → Prop) (m : List (String × β)) (k : String)
    (init : β) (hm : ∀ kv ∈ m, Q kv.2) (hinit : Q init) :
    ∀ kv ∈ objEnsure m k init, Q kv.2 := by
  unfold objEnsure
  cases m.lookup k with
  | some v => exact hm
  | none =>
    intro kv hkv
    rcases List.mem_append.1 hkv with e | e
    · exact hm kv e
    · simp only [List.mem_singleton] at e
      exact e ▸ hinit

theorem objModify_forall {β : Type} (Q : β → Prop) (m : List (String × β)) (k : String)
    (f : β → β) (hm : ∀ kv ∈ m, Q kv.2) (hf : ∀ v, Q v → Q (f v)) :
    ∀ kv ∈ objModify m k f, Q kv.2 := by
  intro kv hkv
  obtain ⟨kv0, h0, rfl⟩ := List.mem_map.1 hkv
  by_cases hk : kv0.1 = k
  · simp only [hk, if_true]
    exact hf _ (hm kv0 h0)
  · simp only [hk, if_false]
    exact hm kv0 h0

theorem paperCollect_forall (Q : PaperAcc → Prop) (activeTab : String)
    (hmod : ∀ g sess, Q g → Q { g with sessions := sess }) :
    ∀ (data : List Record) (groups out : List (String × PaperAcc)),
      (∀ item ∈ data, ∀ su, paperSubjectUnit activeTab item = .ok su →
        Q { id := paperKey su, subject := su.1, unit := su.2, sessions := [] }) →
      (∀ kv ∈ groups, Q kv.2) →
      paperCollect activeTab data groups = .ok out → ∀ kv ∈ out, Q kv.2 := by
  intro data
  induction data with
  | nil =>
    intro groups out _ hg h
    simp only [paperCollect, Except.ok.injEq] at h
    exact h ▸ hg
  | cons item rest ih =>
    intro groups out hnew hg h
    unfold paperCollect at h
    cases hsu : paperSubjectUnit activeTab item with
    | error e => simp [hsu] at h
    | ok su =>
      simp only [hsu] at h
      refine ih _ out (fun x hx => hnew x (List.mem_cons_of_mem _ hx)) ?_ h
      unfold paperInsert
      exact objModify_forall Q _ _ _
        (objEnsure_forall Q _ _ _ hg (hnew item (by simp) su hsu))
        (fun v hv => hmod v _ hv)

theorem paperCollect_total (activeTab : String) :
    ∀ (data : List Record) (groups : List (String × PaperAcc)),
      (∀ item ∈ data, ∃ su, paperSubjectUnit activeTab item = .ok su) →
      ∃ out, paperCollect activeTab data groups = .ok out := by
  intro data
  induction data with
  | nil => intro groups _; exact ⟨groups, rfl⟩
  | cons item rest ih =>
    intro groups h
    obtain ⟨su, hsu⟩ := h item (by simp)
    obtain ⟨out, hout⟩ := ih (paperInsert su groups item)
      (fun x hx => h x (List.mem_cons_of_mem _ hx))
    exact ⟨out, by simp [paperCollect, hsu, hout]⟩

theorem ialInsert_forall (Q : IALGroup → Prop) (item : Record)
    (hmod : ∀ g, Q g → Q { g with
      units := objModify (objEnsure g.units (toStr item.Unit_Code) { id := item.Unit_Code })
        (toStr item.Unit_Code) (assignUnit item) })
    (groups out : List (String × IALGroup))
    (hnew : ∀ name, getIALSubjectName item.Unit_Code = .ok name →
      Q { id := toStr name ++ "|" ++ toStr item.Session ++ "|" ++ toStr item.Year,
          subject := name, session := jsOr item.Session (.str "Resources"),
          year := if truthy item.Year then .number (parseInt item.Year) else .resources,
          month := item.Session, units := [] })
    (hg : ∀ kv ∈ groups, Q kv.2) (h : ialInsert groups item = .ok out) :
    ∀ kv ∈ out, Q kv.2 := by
  unfold ialInsert at h
  cases hn : getIALSubjectName item.Unit_Code with
  | error e => simp [hn] at h
  | ok name =>
    simp only [hn] at h
    by_cases hp : toStr item.Unit_Code ∈ objectPrototypeKeys
    · simp only [hp, if_true] at h
      split at h
      · split at h
        · cases h
        · simp only [Except.ok.injEq] at h
          subst h
          exact objEnsure_forall Q _ _ _ hg (hnew name hn)
      · cases h
    · simp only [hp, if_false, Except.ok.injEq] at h
      subst h
      exact objModify_forall Q _ _ _ (objEnsure_forall Q _ _ _ hg (hnew name hn))
        (fun v hv => hmod v hv)

theorem ialCollect_forall (Q : IALGroup → Prop) :
    ∀ (data : List Record) (groups out : List (String × IALGroup)),
      (∀ item ∈ data, ∀ g, Q g → Q { g with
        units := objModify (objEnsure g.units (toStr item.Unit_Code) { id := item.Unit_Code })
          (toStr item.Unit_Code) (assignUnit item) }) →
      (∀ item ∈ data, ∀ name, getIALSubjectName item.Unit_Code = .ok name →
        Q { id := toStr name ++ "|" ++ toStr item.Session ++ "|" ++ toStr item.Year,
            subject := name, session := jsOr item.Session (.str "Resources"),
            year := if truthy item.Year then .number (parseInt item.Year) else .resources,
            month := item.Session, units := [] }) →
      (∀ kv ∈ groups, Q kv.2) →
      ialCollect data groups = .ok out → ∀ kv ∈ out, Q kv.2 := by
  intro data
  induction data with
  | nil =>
    intro groups out _ _ hg h
    simp only [ialCollect, Except.ok.injEq] at h
    exact h ▸ hg
  | cons item rest ih =>
    intro groups out hmod hnew hg h
    unfold ialCollect at h
    cases hi : ialInsert groups item with
    | error e => simp [hi] at h
    | ok groups1 =>
      simp only [hi] at h
      exact ih groups1 out (fun x hx => hmod x (List.mem_cons_of_mem _ hx))
        (fun x hx => hnew x (List.mem_cons_of_mem _ hx))
        (ialInsert_forall Q item (hmod item (by simp)) groups groups1
          (hnew item (by simp)) hg hi) h

theorem ialCollect_total :
    ∀ (data : List Record) (groups : List (String × IALGroup)),
      (∀ item ∈ data, (∃ name, getIALSubjectName item.Unit_Code = .ok name)
        ∧ toStr item.Unit_Code ∉ objectPrototypeKeys) →
      ∃ out, ialCollect data groups = .ok out := by
  intro data
  induction data with
  | nil => intro groups _; exact ⟨groups, rfl⟩
  | cons item rest ih =>
    intro groups h
    obtain ⟨⟨name, hn⟩, hp⟩ := h item (by simp)
    have hi : ∃ groups1, ialInsert groups item = .ok groups1 := by
      simp only [ialInsert, hn, hp, if_false]
      exact ⟨_, rfl⟩
    obtain ⟨groups1, hg1⟩ := hi
    obtain ⟨out, hout⟩ := ih groups1 (fun x hx => h x (List.mem_cons_of_mem _ hx))
    exact ⟨out, by simp [ialCollect, hg1, hout]⟩

theorem cieInsert_forall (Q : CIEGroup → Prop) (item : Record)
    (groups out : List (String × CIEGroup))
    (hc : ∀ g comps, Q g → Q { g with components := comps })
    (hgen : ∀ g gen, Q g → Q { g with general := gen })
    (hnew : Q { id := toStr item.Subject ++ "|" ++ toStr item.Year ++ "|"
                  ++ toStr item.Session,
                subject := item.Subject,
                year := if item.Year = .str "Unknown" then .resources
                        else .number (parseInt item.Year),
                session := item.Session, general := {}, components := [] })
    (hg : ∀ kv ∈ groups, Q kv.2) (h : cieInsert groups item = .ok out) :
    ∀ kv ∈ out, Q kv.2 := by
  unfold cieInsert at h
  by_cases ht : truthy item.Component = true
  · rw [if_pos ht] at h
    by_cases hp : toStr item.Component ∈ objectPrototypeKeys
    · rw [if_pos hp] at h
      split at h
      · split at h
        · cases h
        · simp only [Except.ok.injEq] at h
          subst h
          exact objEnsure_forall Q _ _ _ hg hnew
      · cases h
    · rw [if_neg hp] at h
      simp only [Except.ok.injEq] at h
      subst h
      exact objModify_forall Q _ _ _ (objEnsure_forall Q _ _ _ hg hnew)
        (fun v hv => hc v _ hv)
  · rw [if_neg ht] at h
    simp only [Except.ok.injEq] at h
    subst h
    exact objModify_forall Q _ _ _ (objEnsure_forall Q _ _ _ hg hnew)
      (fun v hv => hgen v _ hv)

theorem cieCollect_forall (Q : CIEGroup → Prop) :
    ∀ (data : List Record) (groups out : List (String × CIEGroup)),
      (∀ g comps, Q g → Q { g with components := comps }) →
      (∀ g gen, Q g → Q { g with general := gen }) →
      (∀ item ∈ data,
        Q { id := toStr item.Subject ++ "|" ++ toStr item.Year ++ "|" ++ toStr item.Session,
            subject := item.Subject,
            year := if item.Year = .str "Unknown" then .resources
                    else .number (parseInt item.Year),
            session := item.Session, general := {}, components := [] }) →
      (∀ kv ∈ groups, Q kv.2) →
      cieCollect data groups = .ok out → ∀ kv ∈ out, Q kv.2 := by
  intro data
  induction data with
  | nil =>
    intro groups out _ _ _ hg h
    simp only [cieCollect, Except.ok.injEq] at h
    exact h ▸ hg
  | cons item rest ih =>
    intro groups out hc hgen hnew hg h
    unfold cieCollect at h
    cases hi : cieInsert groups item with
    | error e => simp [hi] at h
    | ok groups1 =>
      simp only [hi] at h
      exact ih groups1 out hc hgen (fun x hx => hnew x (List.mem_cons_of_mem _ hx))
        (cieInsert_forall Q item groups groups1 hc hgen (hnew item (by simp)) hg hi) h

theorem cieCollect_total :
    ∀ (data : List Record) (groups : List (String × CIEGroup)),
      (∀ item ∈ data, toStr item.Component ∉ objectPrototypeKeys) →
      ∃ out, cieCollect data groups = .ok out := by
  intro data
  induction data with
  | nil => intro groups _; exact ⟨groups, rfl⟩
  | cons item rest ih =>
    intro groups h
    have hp := h item (by simp)
    have hi : ∃ groups1, cieInsert groups item = .ok groups1 := by
      unfold cieInsert
      by_cases ht : truthy item.Component = true
      · rw [if_pos ht, if_neg hp]
        exact ⟨_, rfl⟩
      · rw [if_neg ht]
        exact ⟨_, rfl⟩
    obtain ⟨groups1, hg1⟩ := hi
    obtain ⟨out, hout⟩ := ih groups1 (fun x hx => h x (List.mem_cons_of_mem _ hx))
    exact ⟨out, by simp [cieCollect, hg1, hout]⟩

/-! ## Grouping returns: lemmas -/

theorem localeCompareCall_str (h : Host) (s : String) (b : JSVal) :
    localeCompareCall h (.str s) b = .ok (some (h.localeCompare s (toStr b))) := rfl

theorem paperSubjectUnit_str (activeTab : String) (item : Record)
    (hitem : (activeTab = "ial" ∧ ∃ s, item.Unit_Code = .str s)
      ∨ (activeTab ≠ "ial" ∧ ∃ s, item.Subject = .str s)) :
    ∃ su, paperSubjectUnit activeTab item = .ok su ∧ ∃ s, su.1 = .str s := by
  unfold paperSubjectUnit
  rcases hitem with ⟨ht, s, hs⟩ | ⟨ht, s, hs⟩
  · obtain ⟨name, hne, hn⟩ := getIALSubjectName_str s
    refine ⟨(.str name, item.Unit_Code), ?_, name, rfl⟩
    simp [ht, hs, hn, jsOr, truthy, hne]
  · exact ⟨(item.Subject,
      jsOr (jsOr (jsOr item.Unit item.Component) item.Unit_Code) (.str "General")),
      by simp [ht], s, hs⟩

theorem groupedPaper_total (h : Host) (data : List Record) (activeTab sortOrder : String)
    (hdata : ∀ item ∈ data, (activeTab = "ial" ∧ ∃ s, item.Unit_Code = .str s)
      ∨ (activeTab ≠ "ial" ∧ ∃ s, item.Subject = .str s)) :
    ∃ gs, groupedPaper h data activeTab sortOrder = .ok gs := by
  obtain ⟨groups, hgroups⟩ := paperCollect_total activeTab data []
    (fun item hi => by
      obtain ⟨su, hsu, -⟩ := paperSubjectUnit_str activeTab item (hdata item hi)
      exact ⟨su, hsu⟩)
  have hQ : ∀ kv ∈ groups, ∃ s, kv.2.subject = JSVal.str s := by
    refine paperCollect_forall (fun g => ∃ s, g.subject = JSVal.str s) activeTab
      (fun g _ hg => hg) data [] groups ?_ (by simp) hgroups
    intro item hi su hsu
    obtain ⟨su1, hsu1, s, hs⟩ := paperSubjectUnit_str activeTab item (hdata item hi)
    rw [hsu] at hsu1
    injection hsu1 with e
    exact ⟨s, e ▸ hs⟩
  obtain ⟨finished, hfin⟩ := traverse_total (finishPaperGroup h) (objectValues groups)
    (fun a _ => finishPaperGroup_total h a)
  have hstr : ∀ g ∈ finished, ∃ s, g.subject = JSVal.str s := by
    intro g hg
    obtain ⟨acc, hacc, hfa⟩ := forall₂_mem_right (traverse_ok _ _ _ hfin) g hg
    obtain ⟨k, hk⟩ := (mem_objectValues _ _).1 hacc
    rw [(finishPaperGroup_ok h acc g hfa).2.1]
    exact hQ (k, acc) hk
  obtain ⟨gs, hgs⟩ := arraySort_total (paperGroupCompare h sortOrder) finished
    (fun a ha b hb => by
      obtain ⟨s, hs⟩ := hstr a ha
      obtain ⟨t, ht⟩ := hstr b hb
      unfold paperGroupCompare
      rw [hs, ht]
      simp only [localeCompareCall_str]
      split_ifs <;> exact ⟨_, rfl⟩)
  exact ⟨gs, by simp [groupedPaper, hgroups, hfin, hgs]⟩

theorem finishIALGroup_ok (h : Host) (g out : IALGroup) (hg : finishIALGroup h g = .ok out) :
    out.subject = g.subject ∧ out.id = g.id ∧ out.year = g.year ∧ out.month = g.month := by
  unfold finishIALGroup at hg
  cases hs : arraySort (fun a b => localeCompareCall h a.id b.id) (objectValues g.units) with
  | error e => simp [hs] at hg
  | ok sorted =>
    simp only [hs, Except.ok.injEq] at hg
    subst hg
    simp

theorem groupedSessionIAL_total (h : Host) (data : List Record) (sortOrder : String)
    (hdata : ∀ item ∈ data, ∃ s, item.Unit_Code = JSVal.str s)
    (hproto : ∀ item ∈ data, toStr item.Unit_Code ∉ objectPrototypeKeys) :
    ∃ gs, groupedSessionIAL h data sortOrder = .ok gs := by
  obtain ⟨groups, hgroups⟩ := ialCollect_total data []
    (fun item hi => by
      obtain ⟨s, hs⟩ := hdata item hi
      obtain ⟨name, -, hn⟩ := getIALSubjectName_str s
      exact ⟨⟨_, hs ▸ hn⟩, hproto item hi⟩)
  have hQ : ∀ kv ∈ groups, (∃ s, kv.2.subject = JSVal.str s)
      ∧ ∀ ku ∈ kv.2.units, ∃ s, ku.2.id = JSVal.str s := by
    refine ialCollect_forall
      (fun g => (∃ s, g.subject = JSVal.str s) ∧ ∀ ku ∈ g.units, ∃ s, ku.2.id = JSVal.str s)
      data [] groups ?_ ?_ (by simp) hgroups
    · intro item hi g hg
      refine ⟨hg.1, ?_⟩
      refine objModify_forall (fun u : UnitSlot => ∃ s, u.id = JSVal.str s) _ _ _
        (objEnsure_forall (fun u : UnitSlot => ∃ s, u.id = JSVal.str s) _ _ _ hg.2
          (hdata item hi)) ?_
      intro v hv
      unfold assignUnit
      split_ifs <;> exact hv
    · intro item hi name hn
      obtain ⟨s, hs⟩ := hdata item hi
      obtain ⟨name1, -, hn1⟩ := getIALSubjectName_str s
      rw [hs, hn1] at hn
      injection hn with e
      exact ⟨⟨name1, e.symm⟩, by simp⟩
  have hfinish : ∀ g ∈ objectValues groups, ∃ out, finishIALGroup h g = .ok out := by
    intro g hg
    obtain ⟨k, hk⟩ := (mem_objectValues _ _).1 hg
    obtain ⟨sorted, hs⟩ := arraySort_total (fun a b => localeCompareCall h a.id b.id)
      (objectValues g.units) (fun a ha b _ => by
        obtain ⟨ka, hka⟩ := (mem_objectValues _ _).1 ha
        obtain ⟨s, hs⟩ := (hQ (k, g) hk).2 (ka, a) hka
        have hs1 : a.id = JSVal.str s := hs
        show ∃ c, localeCompareCall h a.id b.id = .ok c
        rw [hs1]
        exact ⟨_, rfl⟩)
    simp only [finishIALGroup, hs]
    exact ⟨_, rfl⟩
  obtain ⟨finished, hfin⟩ := traverse_total (finishIALGroup h) (objectValues groups) hfinish
  have hstr : ∀ g ∈ finished, ∃ s, g.subject = JSVal.str s := by
    intro g hg
    obtain ⟨acc, hacc, hfa⟩ := forall₂_mem_right (traverse_ok _ _ _ hfin) g hg
    obtain ⟨k, hk⟩ := (mem_objectValues _ _).1 hacc
    rw [(finishIALGroup_ok h acc g hfa).1]
    exact (hQ (k, acc) hk).1
  obtain ⟨gs, hgs⟩ := arraySort_total (ialGroupCompare h sortOrder) finished
    (fun a ha b hb => by
      obtain ⟨s, hs⟩ := hstr a ha
      obtain ⟨t, ht⟩ := hstr b hb
      unfold ialGroupCompare
      rw [hs, ht]
      simp only [localeCompareCall_str]
      split_ifs <;> exact ⟨_, rfl⟩)
  exact ⟨gs, by simp [groupedSessionIAL, hgroups, hfin, hgs]⟩

theorem finishCIEGroup_eq (h : Host) (g : CIEGroup) :
    ∃ sorted, finishCIEGroup h g = .ok { g with sortedComponents := sorted } := by
  obtain ⟨sorted, hs⟩ := arraySort_total
    (fun a b : ComponentSlot =>
      (.ok (some (h.localeCompareNumeric (toStr a.id) (toStr b.id))) :
        Except JSError (Option Int)))
    (objectValues g.components) (fun a _ b _ => ⟨_, rfl⟩)
  exact ⟨sorted, by simp only [finishCIEGroup, hs]⟩

theorem groupedSessionCIE_total (h : Host) (data : List Record) (sortOrder : String)
    (hdata : ∀ item ∈ data, ∃ s, item.Subject = JSVal.str s)
    (hproto : ∀ item ∈ data, toStr item.Component ∉ objectPrototypeKeys) :
    ∃ gs, groupedSessionCIE h data sortOrder = .ok gs := by
  obtain ⟨groups, hgroups⟩ := cieCollect_total data [] hproto
  have hQ : ∀ kv ∈ groups, ∃ s, kv.2.subject = JSVal.str s :=
    cieCollect_forall (fun g => ∃ s, g.subject = JSVal.str s) data [] groups
      (fun g _ hg => hg) (fun g _ hg => hg) (fun item hi => hdata item hi) (by simp) hgroups
  obtain ⟨finished, hfin⟩ := traverse_total (finishCIEGroup h)
    (objectValues groups)
    (fun g _ => by
      obtain ⟨sorted, hs⟩ := finishCIEGroup_eq h g
      exact ⟨_, hs⟩)
  have hstr : ∀ g ∈ finished, ∃ s, g.subject = JSVal.str s := by
    intro g hg
    obtain ⟨acc, hacc, hfa⟩ := forall₂_mem_right (traverse_ok _ _ _ hfin) g hg
    obtain ⟨k, hk⟩ := (mem_objectValues _ _).1 hacc
    obtain ⟨sorted, hs⟩ := finishCIEGroup_eq h acc
    rw [hs] at hfa
    injection hfa with e
    rw [← e]
    exact hQ (k, acc) hk
  obtain ⟨gs, hgs⟩ := arraySort_total (cieGroupCompare h sortOrder) finished
    (fun a ha b hb => by
      obtain ⟨s, hs⟩ := hstr a ha
      obtain ⟨t, ht⟩ := hstr b hb
      unfold cieGroupCompare
      rw [hs, ht]
      simp only [localeCompareCall_str]
      split_ifs <;> exact ⟨_, rfl⟩)
  exact ⟨gs, by simp [groupedSessionCIE, hgroups, hfin, hgs]⟩

/-! ## Grouping returns: the claim -/

/-- C19, as stated, fails: the two legacy objects without a subject decode to records
whose Subject is absent; grouping them by paper in the CIE tab with sort order 'az' makes
the group comparator call `localeCompare` on `undefined`, a TypeError. -/
theorem groupedData_throws_without_subject :
    (decodeData (.legacy [subjectlessA, subjectlessB]) "IGCSE").map (fun r => r.Subject)
        = [.undefined, .undefined]
    ∧ groupedData plainHost (decodeData (.legacy [subjectlessA, subjectlessB]) "IGCSE")
        "cie" "paper" "az" = .error .typeError := by
  decide

/-- A by-session record of the CIE tab whose Component names a member of
`Object.prototype`: the read `components['constructor']` yields the inherited function, no
component object is created, and for the Type er the call `others.push` is made on
`undefined`, a TypeError. -/
theorem groupedData_throws_on_inherited_member :
    groupedData plainHost [constructorER] "cie" "session" "newest" = .error .typeError := by
  decide

/-- C19, amended: for every sort order, whatever the Year, Session, Unit and Component of
the records (null and absent included), grouping returns a sequence of groups in the IAL
tab when every record's Unit_Code is a string, and in the CIE tab when every record's
Subject is a string, provided that in the by-session modes no Unit_Code (IAL) and no
Component (CIE) is the name of a member of `Object.prototype`. -/
theorem groupedData_returns (h : Host) (data : List Record)
    (activeTab viewMode sortOrder : String)
    (hdata : (activeTab = "ial" ∧ ∀ r ∈ data, ∃ s, r.Unit_Code = JSVal.str s)
      ∨ (activeTab = "cie" ∧ ∀ r ∈ data, ∃ s, r.Subject = JSVal.str s))
    (hproto : viewMode ≠ "paper" → ∀ r ∈ data,
      (activeTab = "ial" → toStr r.Unit_Code ∉ objectPrototypeKeys)
      ∧ (activeTab = "cie" → toStr r.Component ∉ objectPrototypeKeys)) :
    ∃ G, groupedData h data activeTab viewMode sortOrder = .ok G ∧ G ≠ .undefined := by
  unfold groupedData
  by_cases hv : viewMode = "paper"
  · obtain ⟨gs, hgs⟩ := groupedPaper_total h data activeTab sortOrder (fun item hi => by
      rcases hdata with ⟨ht, hd⟩ | ⟨ht, hd⟩
      · exact Or.inl ⟨ht, hd item hi⟩
      · exact Or.inr ⟨by rw [ht]; decide, hd item hi⟩)
    exact ⟨.paper gs, by simp [hv, hgs], by simp⟩
  · rcases hdata with ⟨ht, hd⟩ | ⟨ht, hd⟩
    · obtain ⟨gs, hgs⟩ := groupedSessionIAL_total h data sortOrder hd
        (fun r hr => (hproto hv r hr).1 ht)
      exact ⟨.ial gs, by simp [hv, ht, hgs], by simp⟩
    · obtain ⟨gs, hgs⟩ := groupedSessionCIE_total h data sortOrder hd
        (fun r hr => (hproto hv r hr).2 ht)
      have hne : ¬ ("cie" = "ial") := by decide
      exact ⟨.cie gs, by simp [hv, ht, hne, hgs], by simp⟩

/-- Witness for C19: two records of the CIE tab whose Subject is a string but whose
Unit_Code and Title are absent are grouped by session without an error. -/
theorem groupedData_returns_witness :
    (("cie" = "ial" ∧ ∀ r ∈ [biology2019, chemistry2024], ∃ s, r.Unit_Code = JSVal.str s)
      ∨ ("cie" = "cie" ∧ ∀ r ∈ [biology2019, chemistry2024], ∃ s, r.Subject = JSVal.str s))
    ∧ (∀ r ∈ [biology2019, chemistry2024],
        toStr r.Component ∉ objectPrototypeKeys)
    ∧ ∃ G, groupedData plainHost [biology2019, chemistry2024] "cie" "session" "az" = .ok G
        ∧ G ≠ .undefined :=
  have hw : ("cie" = "ial" ∧ ∀ r ∈ [biology2019, chemistry2024],
        ∃ s, r.Unit_Code = JSVal.str s)
      ∨ ("cie" = "cie" ∧ ∀ r ∈ [biology2019, chemistry2024],
        ∃ s, r.Subject = JSVal.str s) :=
    Or.inr ⟨rfl, by
      intro r hr
      simp only [List.mem_cons, List.mem_singleton, List.not_mem_nil, or_false] at hr
      rcases hr with e | e <;> subst e
      · exact ⟨"Biology", rfl⟩
      · exact ⟨"Chemistry", rfl⟩⟩
  have hp : ∀ r ∈ [biology2019, chemistry2024],
      toStr r.Component ∉ objectPrototypeKeys := by decide
  ⟨hw, hp, groupedData_returns plainHost [biology2019, chemistry2024] "cie" "session" "az" hw
    (fun _ r hr => ⟨fun e => absurd e (by decide), fun _ => hp r hr⟩)⟩

/-! ## The orders 'az' and 'za': lemmas -/

theorem arraySort_reverse {α : Type} (lc : String → String → Int)
    (hanti : ∀ a b, lc a b < 0 ↔ 0 < lc b a)
    (htrans : ∀ a b c, lc a b ≤ 0 → lc b c ≤ 0 → lc a c ≤ 0)
    (key : α → String) (cmpAz cmpZa : α → α → Except JSError (Option Int))
    (xs sortedAz : List α)
    (hcmp : ∀ a ∈ xs, ∀ b ∈ xs, cmpAz a b = .ok (some (lc (key a) (key b)))
      ∧ cmpZa a b = .ok (some (lc (key b) (key a))))
    (hd : sortedAz.Pairwise (fun a b => lc (key a) (key b) ≠ 0))
    (haz : arraySort cmpAz xs = .ok sortedAz) :
    arraySort cmpZa xs = .ok sortedAz.reverse := by
  have hzero : ∀ a b, lc a b ≠ 0 → lc b a ≠ 0 := by
    intro a b hab
    have h1 := hanti a b
    have h2 := hanti b a
    omega
  obtain ⟨sortedZa, hza⟩ := arraySort_total cmpZa xs
    (fun a ha b hb => ⟨_, (hcmp a ha b hb).2⟩)
  have pAz := arraySort_perm _ _ _ haz
  have pZa := arraySort_perm _ _ _ hza
  have hdza : sortedZa.Pairwise (fun a b => lc (key a) (key b) ≠ 0) :=
    ((pZa.trans pAz.symm).pairwise_iff (fun hxy => hzero _ _ hxy)).2 hd
  have hazle : sortedAz.Pairwise (fun a b => lc (key a) (key b) ≤ 0) := by
    refine arraySort_pairwise cmpAz (fun a b => lc (key a) (key b) ≤ 0)
      (fun a b c => htrans _ _ _) xs sortedAz ?_ haz
    refine List.pairwise_of_forall_mem_list ?_
    intro a ha b hb c hc
    rw [(hcmp a ha b hb).1] at hc
    injection hc with hc
    subst hc
    simp only [nanToZero]
    exact ⟨fun hle => hle, fun hpos => le_of_lt ((hanti _ _).2 hpos)⟩
  have hzale : sortedZa.Pairwise (fun a b => lc (key b) (key a) ≤ 0) := by
    refine arraySort_pairwise cmpZa (fun a b => lc (key b) (key a) ≤ 0)
      (fun a b c hab hbc => htrans _ _ _ hbc hab) xs sortedZa ?_ hza
    refine List.pairwise_of_forall_mem_list ?_
    intro a ha b hb c hc
    rw [(hcmp a ha b hb).2] at hc
    injection hc with hc
    subst hc
    simp only [nanToZero]
    exact ⟨fun hle => hle, fun hpos => le_of_lt ((hanti _ _).2 hpos)⟩
  have hazlt : sortedAz.Pairwise (fun a b => lc (key a) (key b) < 0) :=
    (hazle.and hd).imp (fun hab => lt_of_le_of_ne hab.1 hab.2)
  have hzalt : sortedZa.Pairwise (fun a b => lc (key b) (key a) < 0) :=
    (hzale.and hdza).imp (fun hab => lt_of_le_of_ne hab.1 (hzero _ _ hab.2))
  have hrev : sortedZa.reverse.Pairwise (fun a b => lc (key a) (key b) < 0) :=
    List.pairwise_reverse.2 hzalt
  haveI : IsAntisymm α (fun a b => lc (key a) (key b) < 0) :=
    ⟨fun a b h1 h2 => by
      have := (hanti (key a) (key b)).1 h1
      omega⟩
  have heq : sortedAz = sortedZa.reverse :=
    List.eq_of_perm_of_sorted
      (pAz.trans (pZa.symm.trans (List.reverse_perm _).symm)) hazlt hrev
  rw [hza, heq, List.reverse_reverse]

theorem groupedSessionIAL_ok (h : Host) (data : List Record) (sortOrder : String)
    (gs : List IALGroup) (hok : groupedSessionIAL h data sortOrder = .ok gs) :
    ∃ groups finished, ialCollect data [] = .ok groups
      ∧ traverse (finishIALGroup h) (objectValues groups) = .ok finished
      ∧ arraySort (ialGroupCompare h sortOrder) finished = .ok gs := by
  unfold groupedSessionIAL at hok
  cases hc : ialCollect data [] with
  | error e => simp [hc] at hok
  | ok groups =>
    cases ht : traverse (finishIALGroup h) (objectValues groups) with
    | error e => simp [hc, ht] at hok
    | ok finished =>
      simp only [hc, ht] at hok
      exact ⟨groups, finished, rfl, ht, hok⟩

theorem groupedSessionCIE_ok (h : Host) (data : List Record) (sortOrder : String)
    (gs : List CIEGroup) (hok : groupedSessionCIE h data sortOrder = .ok gs) :
    ∃ groups finished, cieCollect data [] = .ok groups
      ∧ traverse (finishCIEGroup h) (objectValues groups) = .ok finished
      ∧ arraySort (cieGroupCompare h sortOrder) finished = .ok gs := by
  unfold groupedSessionCIE at hok
  cases hc : cieCollect data [] with
  | error e => simp [hc] at hok
  | ok groups =>
    cases ht : traverse (finishCIEGroup h) (objectValues groups) with
    | error e => simp [hc, ht] at hok
    | ok finished =>
      simp only [hc, ht] at hok
      exact ⟨groups, finished, rfl, ht, hok⟩

theorem groupedPaper_za (h : Host) (hcons : h.Consistent) (data : List Record)
    (activeTab : String) (gs : List PaperGroup)
    (haz : groupedPaper h data activeTab "az" = .ok gs)
    (hstr : ∀ g ∈ gs, ∃ s, g.subject = JSVal.str s)
    (hd : gs.Pairwise (fun a b => h.localeCompare (toStr a.subject) (toStr b.subject) ≠ 0))
    (hflags : ∀ a ∈ gs, ∀ b ∈ gs, a.isOldSyllabus = b.isOldSyllabus) :
    groupedPaper h data activeTab "za" = .ok gs.reverse := by
  obtain ⟨groups, finished, hc, htr, hsort⟩ := groupedPaper_ok h data activeTab "az" gs haz
  have hperm := arraySort_perm _ _ _ hsort
  have hza : arraySort (paperGroupCompare h "za") finished = .ok gs.reverse := by
    refine arraySort_reverse h.localeCompare hcons.1 hcons.2 (fun g => toStr g.subject)
      (paperGroupCompare h "az") (paperGroupCompare h "za") finished gs ?_ hd hsort
    intro a ha b hb
    obtain ⟨s, hs⟩ := hstr a (hperm.mem_iff.2 ha)
    obtain ⟨t, ht⟩ := hstr b (hperm.mem_iff.2 hb)
    have hf := hflags a (hperm.mem_iff.2 ha) b (hperm.mem_iff.2 hb)
    have hne : ¬ ("za" = "az") := by decide
    simp [paperGroupCompare, hf, hs, ht, localeCompareCall_str, toStr, hne]
  simp [groupedPaper, hc, htr, hza]

theorem groupedSessionIAL_za (h : Host) (hcons : h.Consistent) (data : List Record)
    (gs : List IALGroup)
    (haz : groupedSessionIAL h data "az" = .ok gs)
    (hstr : ∀ g ∈ gs, ∃ s, g.subject = JSVal.str s)
    (hd : gs.Pairwise (fun a b => h.localeCompare (toStr a.subject) (toStr b.subject) ≠ 0)) :
    groupedSessionIAL h data "za" = .ok gs.reverse := by
  obtain ⟨groups, finished, hc, htr, hsort⟩ := groupedSessionIAL_ok h data "az" gs haz
  have hperm := arraySort_perm _ _ _ hsort
  have hza : arraySort (ialGroupCompare h "za") finished = .ok gs.reverse := by
    refine arraySort_reverse h.localeCompare hcons.1 hcons.2 (fun g => toStr g.subject)
      (ialGroupCompare h "az") (ialGroupCompare h "za") finished gs ?_ hd hsort
    intro a ha b hb
    obtain ⟨s, hs⟩ := hstr a (hperm.mem_iff.2 ha)
    obtain ⟨t, ht⟩ := hstr b (hperm.mem_iff.2 hb)
    have hne : ¬ ("za" = "az") := by decide
    simp [ialGroupCompare, hs, ht, localeCompareCall_str, toStr, hne]
  simp [groupedSessionIAL, hc, htr, hza]

theorem groupedSessionCIE_za (h : Host) (hcons : h.Consistent) (data : List Record)
    (gs : List CIEGroup)
    (haz : groupedSessionCIE h data "az" = .ok gs)
    (hstr : ∀ g ∈ gs, ∃ s, g.subject = JSVal.str s)
    (hd : gs.Pairwise (fun a b => h.localeCompare (toStr a.subject) (toStr b.subject) ≠ 0)) :
    groupedSessionCIE h data "za" = .ok gs.reverse := by
  obtain ⟨groups, finished, hc, htr, hsort⟩ := groupedSessionCIE_ok h data "az" gs haz
  have hperm := arraySort_perm _ _ _ hsort
  have hza : arraySort (cieGroupCompare h "za") finished = .ok gs.reverse := by
    refine arraySort_reverse h.localeCompare hcons.1 hcons.2 (fun g => toStr g.subject)
      (cieGroupCompare h "az") (cieGroupCompare h "za") finished gs ?_ hd hsort
    intro a ha b hb
    obtain ⟨s, hs⟩ := hstr a (hperm.mem_iff.2 ha)
    obtain ⟨t, ht⟩ := hstr b (hperm.mem_iff.2 hb)
    have hne : ¬ ("za" = "az") := by decide
    simp [cieGroupCompare, hs, ht, localeCompareCall_str, toStr, hne]
  simp [groupedSessionCIE, hc, htr, hza]

theorem compareChars_anti (a : List Char) :
    ∀ b : List Char, compareChars a b < 0 ↔ 0 < compareChars b a := by
  induction a with
  | nil => intro b; cases b <;> simp [compareChars]
  | cons x xs ih =>
    intro b
    cases b with
    | nil => simp [compareChars]
    | cons y ys =>
      simp only [compareChars]
      split_ifs <;> first | omega | exact ih ys

theorem compareChars_trans (a : List Char) :
    ∀ b c : List Char, compareChars a b ≤ 0 → compareChars b c ≤ 0 → compareChars a c ≤ 0 := by
  induction a with
  | nil => intro b c _ _; cases c <;> simp [compareChars]
  | cons x xs ih =>
    intro b c hab hbc
    cases b with
    | nil => simp [compareChars] at hab
    | cons y ys =>
      cases c with
      | nil => simp [compareChars] at hbc
      | cons z zs =>
        simp only [compareChars] at hab hbc ⊢
        split_ifs at hab hbc ⊢ <;> first | omega | exact ih ys zs hab hbc

theorem plainHost_consistent : plainHost.Consistent :=
  ⟨fun a b => compareChars_anti a.data b.data,
    fun a b c => compareChars_trans a.data b.data c.data⟩

/-! ## The orders 'az' and 'za': the claim -/

/-- C17, as stated, fails: two Biology papers of 2024 for components 11 and 12 form two
by-paper groups with the same subject; the orders 'az' and 'za' both leave them in input
order, so the 'za' sequence is the 'az' sequence itself and not its reverse. -/
theorem za_is_not_reverse_of_az :
    (groupedData plainHost [biology2024c11, biology2024c12] "cie" "paper" "az").map
        Grouped.ids = .ok ["Biology|11", "Biology|12"]
    ∧ (groupedData plainHost [biology2024c11, biology2024c12] "cie" "paper" "za").map
        Grouped.ids = .ok ["Biology|11", "Biology|12"]
    ∧ groupedData plainHost [biology2024c11, biology2024c12] "cie" "paper" "za"
        ≠ (groupedData plainHost [biology2024c11, biology2024c12] "cie" "paper" "az").map
            Grouped.reverse := by
  decide

/-- C17, amended: for every record sequence, view mode and tab, and every consistent
collation, when grouping with 'az' returns groups whose subjects are strings that the
collation tells apart pairwise and, in by-paper mode, whose legacy flags all agree, then
grouping with 'za' returns the reverse of the 'az' sequence. -/
theorem groupedData_za_reverse (h : Host) (hcons : h.Consistent) (data : List Record)
    (activeTab viewMode : String) (G : Grouped)
    (haz : groupedData h data activeTab viewMode "az" = .ok G)
    (hstr : ∀ v ∈ G.subjects, ∃ s, v = JSVal.str s)
    (hdistinct : G.subjects.Pairwise
      (fun a b => h.localeCompare (toStr a) (toStr b) ≠ 0))
    (hflags : ∀ x ∈ G.flags, ∀ y ∈ G.flags, x = y) :
    groupedData h data activeTab viewMode "za" = .ok G.reverse := by
  unfold groupedData at haz ⊢
  by_cases hv : viewMode = "paper"
  · simp only [hv, if_true] at haz ⊢
    cases hp : groupedPaper h data activeTab "az" with
    | error e => simp [hp] at haz
    | ok gs =>
      simp only [hp, Except.ok.injEq] at haz
      subst haz
      rw [groupedPaper_za h hcons data activeTab gs hp
        (fun g hg => hstr _ (List.mem_map.2 ⟨g, hg, rfl⟩))
        (List.pairwise_map.1 hdistinct)
        (fun a ha b hb => hflags _ (List.mem_map.2 ⟨a, ha, rfl⟩) _
          (List.mem_map.2 ⟨b, hb, rfl⟩))]
      rfl
  · simp only [hv, if_false] at haz ⊢
    by_cases hi : activeTab = "ial"
    · simp only [hi, if_true] at haz ⊢
      cases hp : groupedSessionIAL h data "az" with
      | error e => simp [hp] at haz
      | ok gs =>
        simp only [hp, Except.ok.injEq] at haz
        subst haz
        rw [groupedSessionIAL_za h hcons data gs hp
          (fun g hg => hstr _ (List.mem_map.2 ⟨g, hg, rfl⟩))
          (List.pairwise_map.1 hdistinct)]
        rfl
    · simp only [hi, if_false] at haz ⊢
      by_cases hc : activeTab = "cie"
      · simp only [hc, if_true] at haz ⊢
        cases hp : groupedSessionCIE h data "az" with
        | error e => simp [hp] at haz
        | ok gs =>
          simp only [hp, Except.ok.injEq] at haz
          subst haz
          rw [groupedSessionCIE_za h hcons data gs hp
            (fun g hg => hstr _ (List.mem_map.2 ⟨g, hg, rfl⟩))
            (List.pairwise_map.1 hdistinct)]
          rfl
      · simp only [hc, if_false, Except.ok.injEq] at haz ⊢
        subst haz
        rfl

/-- Witness for C17: a Biology and a Chemistry paper of 2024 give, by paper in the CIE
tab, the groups Biology, Chemistry under 'az' and Chemistry, Biology under 'za'. -/
theorem groupedData_za_reverse_witness :
    plainHost.Consistent
    ∧ groupedData plainHost [biology2024c11, chemistry2024] "cie" "paper" "az"
        = .ok (.paper [biology2024Group, chemistry2024Group])
    ∧ groupedData plainHost [biology2024c11, chemistry2024] "cie" "paper" "za"
        = .ok (.paper [chemistry2024Group, biology2024Group]) :=
  ⟨plainHost_consistent, by decide,
    groupedData_za_reverse plainHost plainHost_consistent [biology2024c11, chemistry2024]
      "cie" "paper" (.paper [biology2024Group, chemistry2024Group]) (by decide)
      (by
        intro v hv
        simp only [Grouped.subjects, List.map_cons, List.map_nil, List.mem_cons,
          List.mem_singleton, List.not_mem_nil, or_false] at hv
        rcases hv with e | e <;> exact ⟨_, e⟩)
      (by decide) (by decide)⟩

/-! ## Lemmas on the by-paper loop -/

theorem lookup_singleton {β : Type} (k k1 : String) (v : β) :
    [(k, v)].lookup k1 = if k1 = k then some v else none := by
  by_cases hk : k1 = k
  · simp [List.lookup, hk]
  · have : (k1 == k) = false := by simpa using hk
    simp [List.lookup, hk, this]

theorem lookup_objEnsure {β : Type} (m : List (String × β)) (k : String) (init : β)
    (k1 : String) :
    (objEnsure m k init).lookup k1
      = match m.lookup k1 with
        | some v => some v
        | none => if k1 = k then some init else none := by
  unfold objEnsure
  cases hk : m.lookup k with
  | some v =>
    cases hk1 : m.lookup k1 with
    | some v1 => simp [hk1]
    | none =>
      have : k1 ≠ k := fun e => by rw [e, hk] at hk1; cases hk1
      simp [hk1, this]
  | none =>
    simp only [List.lookup_append, lookup_singleton]
    cases m.lookup k1 <;> simp

theorem lookup_objModify {β : Type} (m : List (String × β)) (k : String) (f : β → β)
    (k1 : String) :
    (objModify m k f).lookup k1 = if k1 = k then (m.lookup k1).map f else m.lookup k1 := by
  unfold objModify
  induction m with
  | nil => simp
  | cons kv m ih =>
    obtain ⟨a, b⟩ := kv
    simp only [List.map_cons]
    by_cases hak : a = k
    · by_cases h1 : k1 = a
      · subst h1
        simp [hak, List.lookup_cons]
      · have hb : (k1 == a) = false := by simpa using h1
        simp only [hak, if_true, List.lookup_cons]
        rw [hak] at hb
        simp only [hb]
        exact ih
    · by_cases h1 : k1 = a
      · subst h1
        simp [hak, List.lookup_cons]
      · have hb : (k1 == a) = false := by simpa using h1
        simp only [hak, if_false, List.lookup_cons, hb]
        exact ih

theorem slotAt_paperInsert (su : JSVal × JSVal) (groups : List (String × PaperAcc))
    (item : Record) (gk sk : String) :
    slotAt (paperInsert su groups item) gk sk
      = if gk = paperKey su ∧ sk = sessionKey item then
          some (assignSlot item
            ((slotAt groups gk sk).getD { year := item.Year, session := item.Session }))
        else slotAt groups gk sk := by
  unfold slotAt paperInsert
  simp only [lookup_objModify, lookup_objEnsure]
  by_cases hg : gk = paperKey su
  · subst hg
    cases hl : groups.lookup (paperKey su) with
    | none =>
      by_cases hs : sk = sessionKey item
      · subst hs
        simp [lookup_objModify, lookup_objEnsure]
      · simp [hs, lookup_objModify, lookup_objEnsure]
    | some g =>
      by_cases hs : sk = sessionKey item
      · subst hs
        cases hsl : g.sessions.lookup (sessionKey item) <;>
          simp [lookup_objModify, lookup_objEnsure, hsl]
      · cases hsl : g.sessions.lookup sk <;>
          simp [hs, lookup_objModify, lookup_objEnsure, hsl]
  · cases hl : groups.lookup gk <;> simp [hg]

theorem slotAt_paperCollect (activeTab : String) (gk sk : String) :
    ∀ (data : List Record) (groups out : List (String × PaperAcc)),
      paperCollect activeTab data groups = .ok out →
      slotAt out gk sk = slotFold (sessionRecords activeTab data gk sk) (slotAt groups gk sk) := by
  intro data
  induction data with
  | nil =>
    intro groups out h
    simp only [paperCollect, Except.ok.injEq] at h
    subst h
    rfl
  | cons item rest ih =>
    intro groups out h
    unfold paperCollect at h
    cases hsu : paperSubjectUnit activeTab item with
    | error e => simp [hsu] at h
    | ok su =>
      simp only [hsu] at h
      rw [ih _ out h, slotAt_paperInsert]
      have hk : recordGroupKey activeTab item = some (paperKey su) := by
        simp [recordGroupKey, hsu]
      unfold sessionRecords
      rw [List.filter_cons]
      by_cases hc : gk = paperKey su ∧ sk = sessionKey item
      · obtain ⟨rfl, rfl⟩ := hc
        simp [hk, slotFold]
      · have hd : decide (recordGroupKey activeTab item = some gk ∧ sessionKey item = sk)
            = false := by
          simp only [hk, Option.some.injEq, decide_eq_false_iff_not]
          intro hh
          exact hc ⟨hh.1.symm, hh.2.symm⟩
        rw [hd, if_neg hc]
        rfl

theorem assignSlot_fields (x : Record) (s : SessionSlot) :
    (assignSlot x s).year = s.year ∧ (assignSlot x s).session = s.session
    ∧ (assignSlot x s).qp = (if x.Type_ = .str "qp" then some x else s.qp)
    ∧ (assignSlot x s).ms = (if x.Type_ = .str "ms" then some x else s.ms)
    ∧ (assignSlot x s).er = (if x.Type_ = .str "er" then some x else s.er)
    ∧ (assignSlot x s).gt = (if x.Type_ = .str "gt" then some x else s.gt)
    ∧ (assignSlot x s).others
        = (if x.Type_ = .str "qp" ∨ x.Type_ = .str "ms" ∨ x.Type_ = .str "er"
              ∨ x.Type_ = .str "gt" then s.others else s.others ++ [x]) := by
  unfold assignSlot
  by_cases h1 : x.Type_ = .str "qp"
  · simp [h1]
  · by_cases h2 : x.Type_ = .str "ms"
    · simp [h2]
    · by_cases h3 : x.Type_ = .str "er"
      · simp [h3]
      · by_cases h4 : x.Type_ = .str "gt"
        · simp [h4]
        · simp [h1, h2, h3, h4]

theorem slotFold_snoc (l : List Record) (x : Record) (init : Option SessionSlot) :
    slotFold (l ++ [x]) init
      = some (assignSlot x ((slotFold l init).getD { year := x.Year, session := x.Session })) := by
  simp [slotFold, List.foldl_append]

theorem slotFold_none_iff (recs : List Record) : slotFold recs none = none ↔ recs = [] := by
  induction recs using List.reverseRecOn with
  | nil => simp [slotFold]
  | append_singleton l x _ => simp [slotFold_snoc]

theorem getLast?_filter_snoc {α : Type} (q : α → Bool) (l : List α) (x : α) :
    ((l ++ [x]).filter q).getLast? = if q x = true then some x else (l.filter q).getLast? := by
  by_cases hq : q x = true
  · simp [List.filter_append, hq, List.getLast?_append]
  · simp [List.filter_append, hq]

theorem filter_not_snoc {α : Type} (q : α → Bool) (l : List α) (x : α) :
    (l ++ [x]).filter (fun r => !q r)
      = if q x = true then l.filter (fun r => !q r) else l.filter (fun r => !q r) ++ [x] := by
  by_cases hq : q x = true
  · simp [List.filter_append, hq]
  · simp [List.filter_append, hq]

/-- The session object built from the records of one session: each typed slot holds the
last record of its type, `others` the remaining records in order, and year and session
are those of the first record. -/
theorem slotFold_spec (recs : List Record) :
    ∀ s, slotFold recs none = some s →
      s.qp = (recs.filter (fun r => decide (r.Type_ = .str "qp"))).getLast?
      ∧ s.ms = (recs.filter (fun r => decide (r.Type_ = .str "ms"))).getLast?
      ∧ s.er = (recs.filter (fun r => decide (r.Type_ = .str "er"))).getLast?
      ∧ s.gt = (recs.filter (fun r => decide (r.Type_ = .str "gt"))).getLast?
      ∧ s.others = recs.filter (fun r => !decide (r.Type_ = .str "qp" ∨ r.Type_ = .str "ms"
          ∨ r.Type_ = .str "er" ∨ r.Type_ = .str "gt"))
      ∧ ∃ r0, recs.head? = some r0 ∧ s.year = r0.Year ∧ s.session = r0.Session := by
  induction recs using List.reverseRecOn with
  | nil => intro s h; simp [slotFold] at h
  | append_singleton l x ih =>
    intro s h
    rw [slotFold_snoc] at h
    injection h with h
    subst h
    obtain ⟨hy, hse, hqp, hms, her, hgt, hoth⟩ := assignSlot_fields x
      ((slotFold l none).getD { year := x.Year, session := x.Session })
    rw [hy, hse, hqp, hms, her, hgt, hoth]
    rw [getLast?_filter_snoc, getLast?_filter_snoc, getLast?_filter_snoc, getLast?_filter_snoc,
      filter_not_snoc (fun r : Record => decide (r.Type_ = JSVal.str "qp"
          ∨ r.Type_ = JSVal.str "ms" ∨ r.Type_ = JSVal.str "er" ∨ r.Type_ = JSVal.str "gt"))]
    simp only [decide_eq_true_eq]
    cases hl : slotFold l none with
    | none =>
      have hnil : l = [] := (slotFold_none_iff l).1 hl
      subst hnil
      simp
    | some s1 =>
      obtain ⟨h1, h2, h3, h4, h5, r0, hr0, hy0, hs0⟩ := ih s1 hl
      simp only [Option.getD_some]
      refine ⟨by rw [h1], by rw [h2], by rw [h3], by rw [h4], by rw [h5], r0, ?_, hy0, hs0⟩
      cases l with
      | nil => simp at hr0
      | cons a l1 => simpa using hr0

theorem keys_objModify {β : Type} (m : List (String × β)) (k : String) (f : β → β) :
    (objModify m k f).map Prod.fst = m.map Prod.fst := by
  unfold objModify
  rw [List.map_map]
  refine List.map_congr_left ?_
  intro kv _
  by_cases hk : kv.1 = k <;> simp [hk]

theorem nodup_keys_objEnsure {β : Type} (m : List (String × β)) (k : String) (init : β)
    (hm : (m.map Prod.fst).Nodup) : ((objEnsure m k init).map Prod.fst).Nodup := by
  unfold objEnsure
  cases hk : m.lookup k with
  | some v => exact hm
  | none =>
    have hnot : k ∉ m.map Prod.fst := by
      intro hmem
      obtain ⟨kv, hkv, e⟩ := List.mem_map.1 hmem
      have := (List.lookup_eq_none_iff.1 hk) kv hkv
      simp [e] at this
    simp only [List.map_append, List.map_cons, List.map_nil]
    refine List.Nodup.append hm (by simp) ?_
    intro a ha hb
    simp only [List.mem_singleton] at hb
    exact hnot (hb ▸ ha)

theorem objEnsure_forall_pair {β : Type} (Q : String × β → Prop) (m : List (String × β))
    (k : String) (init : β) (hm : ∀ kv ∈ m, Q kv) (hinit : Q (k, init)) :
    ∀ kv ∈ objEnsure m k init, Q kv := by
  unfold objEnsure
  cases m.lookup k with
  | some v => exact hm
  | none =>
    intro kv hkv
    rcases List.mem_append.1 hkv with e | e
    · exact hm kv e
    · simp only [List.mem_singleton] at e
      exact e ▸ hinit

theorem objModify_forall_pair {β : Type} (Q : String × β → Prop) (m : List (String × β))
    (k : String) (f : β → β) (hm : ∀ kv ∈ m, Q kv) (hf : ∀ v, Q (k, v) → Q (k, f v)) :
    ∀ kv ∈ objModify m k f, Q kv := by
  intro kv hkv
  obtain ⟨kv0, h0, rfl⟩ := List.mem_map.1 hkv
  by_cases hk : kv0.1 = k
  · simp only [hk, if_true]
    have := hm kv0 h0
    rw [← hk]
    exact hk ▸ hf kv0.2 (by rw [← hk]; exact this)
  · simp only [hk, if_false]
    exact hm kv0 h0

theorem lookup_of_mem_nodup {β : Type} (m : List (String × β)) (k : String) (v : β)
    (hm : (m.map Prod.fst).Nodup) (hkv : (k, v) ∈ m) : m.lookup k = some v := by
  induction m with
  | nil => simp at hkv
  | cons kv m ih =>
    obtain ⟨a, b⟩ := kv
    simp only [List.map_cons, List.nodup_cons] at hm
    rcases List.mem_cons.1 hkv with e | e
    · injection e with e1 e2
      subst e1 e2
      simp
    · have hne : k ≠ a := by
        intro e1
        exact hm.1 (e1 ▸ List.mem_map.2 ⟨(k, v), e, rfl⟩)
      have hb : (k == a) = false := by simpa using hne
      rw [List.lookup_cons, hb]
      exact ih hm.2 e

/-- Well-formedness of the object `groups` of the by-paper loop: distinct keys, each
group stored under its id, and distinct session keys within each group. -/
theorem paperCollect_wf (activeTab : String) :
    ∀ (data : List Record) (groups out : List (String × PaperAcc)),
      (groups.map Prod.fst).Nodup →
      (∀ kv ∈ groups, kv.2.id = kv.1 ∧ (kv.2.sessions.map Prod.fst).Nodup) →
      paperCollect activeTab data groups = .ok out →
      (out.map Prod.fst).Nodup
      ∧ ∀ kv ∈ out, kv.2.id = kv.1 ∧ (kv.2.sessions.map Prod.fst).Nodup := by
  intro data
  induction data with
  | nil =>
    intro groups out hn hq h
    simp only [paperCollect, Except.ok.injEq] at h
    subst h
    exact ⟨hn, hq⟩
  | cons item rest ih =>
    intro groups out hn hq h
    unfold paperCollect at h
    cases hsu : paperSubjectUnit activeTab item with
    | error e => simp [hsu] at h
    | ok su =>
      simp only [hsu] at h
      refine ih _ out ?_ ?_ h
      · unfold paperInsert
        rw [keys_objModify]
        exact nodup_keys_objEnsure _ _ _ hn
      · unfold paperInsert
        refine objModify_forall_pair
          (fun kv : String × PaperAcc =>
            kv.2.id = kv.1 ∧ (kv.2.sessions.map Prod.fst).Nodup) _ _ _
          (objEnsure_forall_pair _ _ _ _ hq (by simp)) ?_
        intro v hv
        refine ⟨hv.1, ?_⟩
        simp only
        rw [keys_objModify]
        exact nodup_keys_objEnsure _ _ _ hv.2

theorem forall₂_mem_left {α β : Type} {R : α → β → Prop} {l1 : List α} {l2 : List β}
    (hf : List.Forall₂ R l1 l2) (a : α) (ha : a ∈ l1) : ∃ b ∈ l2, R a b := by
  induction hf with
  | nil => simp at ha
  | cons hab _ ih =>
    rcases List.mem_cons.1 ha with e | e
    · exact ⟨_, by simp, e ▸ hab⟩
    · obtain ⟨b, hb, hr⟩ := ih e
      exact ⟨b, List.mem_cons_of_mem _ hb, hr⟩

theorem forall₂_map_eq {α β γ : Type} {R : α → β → Prop} (f : α → γ) (g : β → γ)
    {l1 : List α} {l2 : List β} (hf : List.Forall₂ R l1 l2)
    (hR : ∀ a b, R a b → f a = g b) : l1.map f = l2.map g := by
  induction hf with
  | nil => rfl
  | cons hab _ ih => simp [hR _ _ hab, ih]

theorem paperCollect_items (activeTab : String) :
    ∀ (data : List Record) (groups out : List (String × PaperAcc)),
      paperCollect activeTab data groups = .ok out →
      ∀ r ∈ data, ∃ su, paperSubjectUnit activeTab r = .ok su := by
  intro data
  induction data with
  | nil => intro _ _ _ r hr; simp at hr
  | cons item rest ih =>
    intro groups out h r hr
    unfold paperCollect at h
    cases hsu : paperSubjectUnit activeTab item with
    | error e => simp [hsu] at h
    | ok su =>
      simp only [hsu] at h
      rcases List.mem_cons.1 hr with e | e
      · exact ⟨su, e ▸ hsu⟩
      · exact ih _ out h r e

/-- The shape of the by-paper output: one group per group key, one session object per
session key of a group, each the fold of the records of that session. -/
theorem groupedPaper_structure (h : Host) (data : List Record) (activeTab sortOrder : String)
    (gs : List PaperGroup) (hok : groupedPaper h data activeTab sortOrder = .ok gs) :
    (gs.map (fun g => g.id)).Nodup
    ∧ (∀ r ∈ data, ∃ g ∈ gs, recordGroupKey activeTab r = some g.id
        ∧ ∃ s, (sessionKey r, s) ∈ g.sessions)
    ∧ ∀ g ∈ gs, (g.sessions.map Prod.fst).Nodup
        ∧ arraySort (fun a b => .ok (sessionCompare h a b)) (objectValues g.sessions)
            = .ok g.sortedSessions
        ∧ ∀ ks ∈ g.sessions,
            slotFold (sessionRecords activeTab data g.id ks.1) none = some ks.2 := by
  obtain ⟨groups, finished, hc, htr, hsort⟩ := groupedPaper_ok h data activeTab sortOrder gs hok
  obtain ⟨hn, hq⟩ := paperCollect_wf activeTab data [] groups (by simp) (by simp) hc
  have hslot : ∀ gk sk, slotAt groups gk sk
      = slotFold (sessionRecords activeTab data gk sk) none :=
    fun gk sk => slotAt_paperCollect activeTab gk sk data [] groups hc
  have hF := traverse_ok _ _ _ htr
  have hperm := arraySort_perm _ _ _ hsort
  refine ⟨?_, ?_, ?_⟩
  · have h1 : (objectValues groups).map (fun acc => acc.id) = finished.map (fun g => g.id) :=
      forall₂_map_eq _ _ hF (fun a b hab => ((finishPaperGroup_ok h a b hab).1).symm)
    have h2 : (groups.map Prod.snd).map (fun acc => acc.id) = groups.map Prod.fst := by
      rw [List.map_map]
      exact List.map_congr_left (fun kv hkv => (hq kv hkv).1)
    have h3 : (finished.map (fun g => g.id)).Perm (groups.map Prod.fst) := by
      rw [← h1, ← h2]
      exact (objectValues_perm groups).map _
    exact ((hperm.map _).trans h3).nodup_iff.2 hn
  · intro r hr
    obtain ⟨su, hsu⟩ := paperCollect_items activeTab data [] groups hc r hr
    have hk : recordGroupKey activeTab r = some (paperKey su) := by
      simp [recordGroupKey, hsu]
    have hmem : r ∈ sessionRecords activeTab data (paperKey su) (sessionKey r) := by
      unfold sessionRecords
      exact List.mem_filter.2 ⟨hr, by simp [hk]⟩
    have hne : slotFold (sessionRecords activeTab data (paperKey su) (sessionKey r)) none
        ≠ none := by
      rw [Ne, slotFold_none_iff]
      intro e
      rw [e] at hmem
      simp at hmem
    rw [← hslot] at hne
    unfold slotAt at hne
    cases hl : groups.lookup (paperKey su) with
    | none => simp [hl] at hne
    | some acc =>
      simp only [hl] at hne
      cases hs : acc.sessions.lookup (sessionKey r) with
      | none => exact absurd hs hne
      | some s =>
        have hacc := lookup_eq_some_mem _ _ _ hl
        obtain ⟨g, hg, hfin⟩ := forall₂_mem_left hF acc
          ((mem_objectValues _ _).2 ⟨_, hacc⟩)
        obtain ⟨hid, -, -, hsess, -, -⟩ := finishPaperGroup_ok h acc g hfin
        refine ⟨g, hperm.mem_iff.2 hg, ?_, s, ?_⟩
        · rw [hk, hid, (hq _ hacc).1]
        · rw [hsess]
          exact lookup_eq_some_mem _ _ _ hs
  · intro g hg
    obtain ⟨acc, hacc, hfin⟩ := forall₂_mem_right hF g (hperm.mem_iff.1 hg)
    obtain ⟨k, hk⟩ := (mem_objectValues _ _).1 hacc
    obtain ⟨hid, -, -, hsess, hsorted, -⟩ := finishPaperGroup_ok h acc g hfin
    obtain ⟨hidk, hsn⟩ := hq _ hk
    simp only at hidk hsn
    refine ⟨hsess ▸ hsn, hsess ▸ hsorted, ?_⟩
    intro ks hks
    rw [hsess] at hks
    have h1 : groups.lookup k = some acc := lookup_of_mem_nodup _ _ _ hn hk
    have h2 : acc.sessions.lookup ks.1 = some ks.2 := lookup_of_mem_nodup _ _ _ hsn hks
    have h3 : slotAt groups k ks.1 = some ks.2 := by
      simp [slotAt, h1, h2]
    rw [hid, hidk, ← hslot, h3]

/-! ## By-paper grouping: the claims on sessions and slots -/

/-- C15, as stated, fails: sessions are told apart by the string `Year|Session`, not by
the pair of year and session. The question papers `barYear` and `barYearBis` share group,
year "2024|May", session "June" and Type, and `barSession` is a question paper of the same
group with the year "2024" and the session "May|June"; all three have the session key
"2024|May|June". Grouping the three in that order gives one session object, of year
"2024|May" and session "June", whose qp slot holds `barSession`, a record of another year
and session, and not `barYearBis`, the last record of that group, year, session and
Type. -/
theorem slot_holds_record_of_other_session :
    barYear.Year = barYearBis.Year ∧ barYear.Session = barYearBis.Session
    ∧ barYear.Type_ = .str "qp" ∧ barYearBis.Type_ = .str "qp"
    ∧ barSession.Year ≠ barYearBis.Year ∧ barSession.Session ≠ barYearBis.Session
    ∧ recordGroupKey "cie" barYear = recordGroupKey "cie" barYearBis
    ∧ recordGroupKey "cie" barYearBis = recordGroupKey "cie" barSession
    ∧ groupedData plainHost [barYear, barYearBis, barSession] "cie" "paper" "newest"
        = .ok (.paper [barSessionGroup])
    ∧ barSessionGroup.sortedSessions
        = [{ year := .str "2024|May", session := .str "June", qp := some barSession }]
    ∧ barSession ≠ barYearBis := by
  decide

/-- C15, amended: by-paper slot assignment, with groups and sessions told apart by their
key strings `subject|unit` and `Year|Session`. In the output of by-paper grouping the group
ids are pairwise distinct and so are the session keys within a group, so that each group
key and `Year|Session` key of an input record has exactly one session object; each of the
slots qp, ms, er and gt of a session object holds the last record, in input order, among
the records with that group key, that session key and that Type, and is null when there is
none. -/
theorem groupedData_slot_assignment (h : Host) (data : List Record)
    (activeTab sortOrder : String) (gs : List PaperGroup)
    (hok : groupedData h data activeTab "paper" sortOrder = .ok (.paper gs)) :
    (gs.map (fun g => g.id)).Nodup
    ∧ (∀ r ∈ data, ∃ g ∈ gs, recordGroupKey activeTab r = some g.id
        ∧ ∃ s, (sessionKey r, s) ∈ g.sessions)
    ∧ ∀ g ∈ gs, (g.sessions.map Prod.fst).Nodup
        ∧ g.sortedSessions.Perm (g.sessions.map Prod.snd)
        ∧ ∀ ks ∈ g.sessions,
            sessionRecords activeTab data g.id ks.1 ≠ []
            ∧ ks.2.qp = ((sessionRecords activeTab data g.id ks.1).filter
                (fun r => decide (r.Type_ = .str "qp"))).getLast?
            ∧ ks.2.ms = ((sessionRecords activeTab data g.id ks.1).filter
                (fun r => decide (r.Type_ = .str "ms"))).getLast?
            ∧ ks.2.er = ((sessionRecords activeTab data g.id ks.1).filter
                (fun r => decide (r.Type_ = .str "er"))).getLast?
            ∧ ks.2.gt = ((sessionRecords activeTab data g.id ks.1).filter
                (fun r => decide (r.Type_ = .str "gt"))).getLast? := by
  obtain ⟨hids, hall, hgroups⟩ := groupedPaper_structure h data activeTab sortOrder gs
    ((groupedData_paper _ _ _ _ _).1 hok)
  refine ⟨hids, hall, ?_⟩
  intro g hg
  obtain ⟨hn, hsorted, hslots⟩ := hgroups g hg
  refine ⟨hn, (arraySort_perm _ _ _ hsorted).trans (objectValues_perm _), ?_⟩
  intro ks hks
  have hfold := hslots ks hks
  obtain ⟨h1, h2, h3, h4, -, -⟩ := slotFold_spec _ ks.2 hfold
  refine ⟨?_, h1, h2, h3, h4⟩
  intro e
  rw [e] at hfold
  simp [slotFold] at hfold

/-- Witness for C15: two question papers with the same group key and session key give one
group with one session, whose qp slot holds the second paper. -/
theorem groupedData_slot_assignment_witness :
    groupedData plainHost [biologyQP, biologyQPbis] "cie" "paper" "newest"
        = .ok (.paper [duplicateGroup])
    ∧ (duplicateGroup.sessions.map Prod.fst).Nodup
    ∧ ∀ ks ∈ duplicateGroup.sessions,
        ks.2.qp = ((sessionRecords "cie" [biologyQP, biologyQPbis] duplicateGroup.id
            ks.1).filter (fun r => decide (r.Type_ = .str "qp"))).getLast? :=
  have hw := groupedData_slot_assignment plainHost [biologyQP, biologyQPbis] "cie" "newest"
    [duplicateGroup] (by decide)
  ⟨by decide, (hw.2.2 duplicateGroup (by simp)).1,
    fun ks hks => ((hw.2.2 duplicateGroup (by simp)).2.2 ks hks).2.1⟩

theorem monthValue_cases (session : JSVal) :
    monthValue session = some (monthRank session)
      ∨ (monthValue session = none ∧ monthRank session = 0) := by
  unfold monthValue monthRank
  cases MONTHS.lookup (toStr session) with
  | some n => exact Or.inl rfl
  | none =>
    by_cases hp : toStr session ∈ objectPrototypeKeys
    · exact Or.inr ⟨by simp [hp], rfl⟩
    · exact Or.inl (by simp [hp])

theorem monthValue_of_not_inherited (session : JSVal)
    (hp : toStr session ∉ objectPrototypeKeys) :
    monthValue session = some (monthRank session) := by
  rcases monthValue_cases session with e | ⟨e, -⟩
  · exact e
  · unfold monthValue at e
    cases hl : MONTHS.lookup (toStr session) with
    | some n => simp [hl] at e
    | none => simp [hl, hp] at e

theorem monthValue_of_mem (name : String) (n : Int) (hmem : (name, n) ∈ MONTHS) :
    monthValue (.str name) = some n ∧ 0 < n := by
  simp only [MONTHS, List.mem_cons, List.mem_singleton, List.not_mem_nil, or_false,
    Prod.mk.injEq] at hmem
  rcases hmem with ⟨rfl, rfl⟩ | ⟨rfl, rfl⟩ | ⟨rfl, rfl⟩ | ⟨rfl, rfl⟩ | ⟨rfl, rfl⟩
    | ⟨rfl, rfl⟩ | ⟨rfl, rfl⟩ <;> decide

theorem monthValue_of_not_mem (name : String) (hnot : ∀ n, (name, n) ∉ MONTHS)
    (hp : name ∉ objectPrototypeKeys) :
    monthValue (.str name) = some 0 := by
  unfold monthValue
  cases hl : MONTHS.lookup (toStr (.str name)) with
  | none =>
    have hp2 : toStr (.str name) ∉ objectPrototypeKeys := hp
    simp [hp2]
  | some n => exact absurd (lookup_eq_some_mem _ _ _ hl) (hnot n)

/-- C16, as stated, fails for a session named like a member of `Object.prototype`: for
such a name `MONTHS[session]` is the inherited member, a truthy value that is no number, so
every difference with it is `NaN`, which `sort` takes for 0. The sessions constructor and
January of 2024, given in that order, stay in that order, although January has rank 1 and
constructor is no key of the table; and the sessions January, constructor, October of
2024 stay in that order, January (rank 1) before October (rank 10). -/
theorem sortedSessions_inherited_member :
    [biologyJan2024, biologyConstructor2024, biologyOct2024].map (fun r => r.Year)
        = [.num 2024, .num 2024, .num 2024]
    ∧ MONTHS.lookup "constructor" = none
    ∧ MONTHS.lookup "January" = some 1 ∧ MONTHS.lookup "October" = some 10
    ∧ (groupedData plainHost [biologyConstructor2024, biologyJan2024] "cie" "paper"
          "newest").map sortedSessionNames
        = .ok [[.str "constructor", .str "January"]]
    ∧ (groupedData plainHost [biologyJan2024, biologyConstructor2024, biologyOct2024]
          "cie" "paper" "newest").map sortedSessionNames
        = .ok [[.str "January", .str "constructor", .str "October"]] := by
  decide

/-- C16, amended: in by-paper mode, for records with integer years and no Session named
like a member of `Object.prototype`, the `sortedSessions` of each group are a
rearrangement of the group's sessions in which a session of a later year stands before one
of an earlier year and, within a year, a session of higher month rank stands before one of
lower rank; the rank `MONTHS[session] || 0` is the entry of the `MONTHS` table, all of
which are positive, and 0 for a session name that the table lacks and that names no member
of `Object.prototype`. -/
theorem groupedData_sortedSessions (h : Host) (data : List Record)
    (activeTab sortOrder : String) (gs : List PaperGroup)
    (hint : ∀ r ∈ data, ∃ y : Int, r.Year = .num y)
    (hsess : ∀ r ∈ data, toStr r.Session ∉ objectPrototypeKeys)
    (hok : groupedData h data activeTab "paper" sortOrder = .ok (.paper gs)) :
    (∀ g ∈ gs, g.sortedSessions.Perm (g.sessions.map Prod.snd)
      ∧ g.sortedSessions.Pairwise (fun a b => ∃ ya yb ma mb : Int,
          a.year = .num ya ∧ b.year = .num yb
          ∧ monthValue a.session = some ma ∧ monthValue b.session = some mb
          ∧ (yb < ya ∨ (ya = yb ∧ mb ≤ ma))))
    ∧ (∀ name n, (name, n) ∈ MONTHS → monthValue (.str name) = some n ∧ 0 < n)
    ∧ (∀ name, (∀ n, (name, n) ∉ MONTHS) → name ∉ objectPrototypeKeys →
        monthValue (.str name) = some 0) := by
  refine ⟨?_, monthValue_of_mem, monthValue_of_not_mem⟩
  obtain ⟨-, -, hgroups⟩ := groupedPaper_structure h data activeTab sortOrder gs
    ((groupedData_paper _ _ _ _ _).1 hok)
  intro g hg
  obtain ⟨-, hsorted, hslots⟩ := hgroups g hg
  have hperm := arraySort_perm _ _ _ hsorted
  have hyear : ∀ s ∈ objectValues g.sessions, s.year = .num (slotYear s)
      ∧ monthValue s.session = some (monthRank s.session) := by
    intro s hs
    obtain ⟨k, hk⟩ := (mem_objectValues _ _).1 hs
    obtain ⟨-, -, -, -, -, r0, hr0, hy0, hs0⟩ := slotFold_spec _ s (hslots (k, s) hk)
    have hmem : r0 ∈ data :=
      (List.mem_filter.1 (List.mem_of_mem_head? hr0)).1
    obtain ⟨y, hy⟩ := hint r0 hmem
    have hsy : s.year = .num y := by rw [hy0, hy]
    refine ⟨by simp [slotYear, hsy], monthValue_of_not_inherited _ ?_⟩
    rw [hs0]
    exact hsess r0 hmem
  refine ⟨hperm.trans (objectValues_perm _), ?_⟩
  have hR : g.sortedSessions.Pairwise (fun a b =>
      slotYear b < slotYear a
        ∨ (slotYear a = slotYear b ∧ monthRank b.session ≤ monthRank a.session)) := by
    refine arraySort_pairwise (fun a b => .ok (sessionCompare h a b))
      (fun a b => slotYear b < slotYear a
        ∨ (slotYear a = slotYear b ∧ monthRank b.session ≤ monthRank a.session))
      (fun a b c hab hbc => by omega) (objectValues g.sessions) g.sortedSessions ?_ hsorted
    refine List.pairwise_of_forall_mem_list ?_
    intro a ha b hb c hc
    injection hc with hc
    subst hc
    have hya := (hyear a ha).1
    have hyb := (hyear b hb).1
    unfold sessionCompare
    rw [hya, hyb, (hyear a ha).2, (hyear b hb).2]
    by_cases hne : slotYear a = slotYear b
    · simp only [hne, ne_eq, not_true_eq_false, if_false, numSub, nanToZero, true_and,
        lt_self_iff_false, false_or]
      constructor <;> intro hh <;> omega
    · have hne2 : JSVal.num (slotYear a) ≠ JSVal.num (slotYear b) := by
        intro e
        injection e with e
        exact hne e
      simp only [hne2, ne_eq, not_false_eq_true, if_true, toNumber, numSub, nanToZero]
      constructor <;> intro hh <;> omega
  refine hR.imp_of_mem ?_
  intro a b ha hb hab
  exact ⟨slotYear a, slotYear b, monthRank a.session, monthRank b.session,
    (hyear a (hperm.mem_iff.1 ha)).1, (hyear b (hperm.mem_iff.1 hb)).1,
    (hyear a (hperm.mem_iff.1 ha)).2, (hyear b (hperm.mem_iff.1 hb)).2, hab⟩

/-- Witness for C16: Biology papers of May 2019, January 2024 and October 2024, given in
that order, have the sorted sessions October 2024, January 2024, May 2019. -/
theorem groupedData_sortedSessions_witness :
    (∀ r ∈ [biology2019, biologyJan2024, biologyOct2024], ∃ y : Int, r.Year = .num y)
    ∧ (∀ r ∈ [biology2019, biologyJan2024, biologyOct2024],
        toStr r.Session ∉ objectPrototypeKeys)
    ∧ groupedData plainHost [biology2019, biologyJan2024, biologyOct2024] "cie" "paper"
        "newest" = .ok (.paper [threeSessionGroup])
    ∧ threeSessionGroup.sortedSessions.Pairwise (fun a b => ∃ ya yb ma mb : Int,
        a.year = .num ya ∧ b.year = .num yb
        ∧ monthValue a.session = some ma ∧ monthValue b.session = some mb
        ∧ (yb < ya ∨ (ya = yb ∧ mb ≤ ma))) :=
  have hy : ∀ r ∈ [biology2019, biologyJan2024, biologyOct2024], ∃ y : Int,
      r.Year = .num y := by
    intro r hr
    simp only [List.mem_cons, List.mem_singleton, List.not_mem_nil, or_false] at hr
    rcases hr with e | e | e <;> subst e
    · exact ⟨2019, rfl⟩
    · exact ⟨2024, rfl⟩
    · exact ⟨2024, rfl⟩
  have hs : ∀ r ∈ [biology2019, biologyJan2024, biologyOct2024],
      toStr r.Session ∉ objectPrototypeKeys := by decide
  ⟨hy, hs, by decide,
    ((groupedData_sortedSessions plainHost [biology2019, biologyJan2024, biologyOct2024]
      "cie" "newest" [threeSessionGroup] hy hs (by decide)).1 threeSessionGroup
        (by simp)).2⟩


/-! ## Chunked loading and the by-paper sort orders -/

theorem payloadTuples_append (p1 p2 : List (String × List Encoded)) :
    payloadTuples (p1 ++ p2) = payloadTuples p1 ++ payloadTuples p2 := by
  induction p1 with
  | nil => rfl
  | cons e es ih => simp [payloadTuples, ih, List.append_assoc]

theorem decodeData_append (level : String) (p1 p2 : List (String × List Encoded)) :
    decodeData (.grouped (p1 ++ p2)) level
      = decodeData (.grouped p1) level ++ decodeData (.grouped p2) level := by
  simp only [decodeData_grouped, payloadTuples_append, List.map_append]

theorem loadChunks_from (level : String) (chunks : List (List (String × List Encoded)))
    (acc : List Record) :
    (chunks.map RawData.grouped).foldl
        (fun combinedData chunkRaw => combinedData ++ decodeData chunkRaw level) acc
      = acc ++ decodeData (.grouped chunks.flatten) level := by
  induction chunks generalizing acc with
  | nil => simp [decodeData]
  | cons c cs ih =>
    simp only [List.map_cons, List.foldl_cons, List.flatten_cons, ih, decodeData_append,
      List.append_assoc]

theorem foldl_objSet_of_nodup {β : Type} :
    ∀ (entries m : List (String × β)), ((m ++ entries).map Prod.fst).Nodup →
      entries.foldl (fun m kv => objSet m kv.1 kv.2) m = m ++ entries := by
  intro entries
  induction entries with
  | nil => intro m _; simp
  | cons kv rest ih =>
    intro m hn
    have hnot : m.lookup kv.1 = none := by
      rw [List.lookup_eq_none_iff]
      intro x hx
      simp only [List.map_append, List.map_cons, List.nodup_append, List.nodup_cons] at hn
      have hdis := hn.2.2
      have hne : kv.1 ≠ x.1 := by
        intro e1
        exact List.disjoint_left.1 hdis (List.mem_map_of_mem Prod.fst hx)
          (by rw [← e1]; exact List.mem_cons_self _ _)
      simpa using hne
    have hstep : objSet m kv.1 kv.2 = m ++ [kv] := by
      unfold objSet
      rw [hnot]
    rw [List.foldl_cons, hstep, ih (m ++ [kv]) (by simpa [List.append_assoc] using hn)]
    simp [List.append_assoc]

theorem objectEntries_of_named {β : Type} (m : List (String × β))
    (hm : ∀ kv ∈ m, arrayIndex? kv.1 = none) : objectEntries m = m := by
  unfold objectEntries
  have h1 : m.filterMap (fun kv => (arrayIndex? kv.1).map (fun n => (n, kv))) = [] := by
    rw [List.filterMap_eq_nil_iff]
    intro kv hkv
    simp [hm kv hkv]
  have h2 : m.filter (fun kv => (arrayIndex? kv.1).isNone) = m := by
    rw [List.filter_eq_self]
    intro kv hkv
    simp [hm kv hkv]
  simp only [h1, h2, List.insertionSort, List.map_nil, List.nil_append]

theorem objectFromEntries_of_named {β : Type} (entries : List (String × β))
    (hkeys : (entries.map Prod.fst).Nodup)
    (hidx : ∀ kv ∈ entries, arrayIndex? kv.1 = none) :
    objectFromEntries entries = entries := by
  unfold objectFromEntries
  rw [foldl_objSet_of_nodup entries [] (by simpa using hkeys)]
  simpa using objectEntries_of_named entries hidx

/-- C30, as stated, fails: the payload formed by the entries of two chunks is an object,
and `Object.entries` lists its array-index keys first and each key once. The chunks with
the keys "Biology" and "9700" decode, one after the other, to the Biology record followed
by the 9700 record, but the payload with the entries "Biology", "9700" decodes to the 9700
record first; and two chunks that both have the key "Biology" decode to two records, but
the payload with both entries has the key once, with the later tuple list. -/
theorem decodeData_whole_differs_from_chunks :
    objectFromEntries biologyChunk = biologyChunk
    ∧ objectFromEntries codeChunk = codeChunk
    ∧ loadChunks [.grouped biologyChunk, .grouped codeChunk] "IGCSE"
        = decodeData (.grouped biologyChunk) "IGCSE" ++ decodeData (.grouped codeChunk) "IGCSE"
    ∧ decodeData (.grouped (objectFromEntries (biologyChunk ++ codeChunk))) "IGCSE"
        = decodeData (.grouped codeChunk) "IGCSE" ++ decodeData (.grouped biologyChunk) "IGCSE"
    ∧ decodeData (.grouped (objectFromEntries (biologyChunk ++ codeChunk))) "IGCSE"
        ≠ decodeData (.grouped biologyChunk) "IGCSE" ++ decodeData (.grouped codeChunk) "IGCSE"
    ∧ objectFromEntries biologyChunkBis = biologyChunkBis
    ∧ decodeData (.grouped (objectFromEntries (biologyChunk ++ biologyChunkBis))) "IGCSE"
        = decodeData (.grouped biologyChunkBis) "IGCSE"
    ∧ decodeData (.grouped (objectFromEntries (biologyChunk ++ biologyChunkBis))) "IGCSE"
        ≠ decodeData (.grouped biologyChunk) "IGCSE"
            ++ decodeData (.grouped biologyChunkBis) "IGCSE" := by
  decide

/-- C30, amended: chunked and whole loading decode to the same records when the subject
keys of the two payloads are pairwise distinct and none of them is an array index. Then
the entries of the first payload followed by those of the second are the entries of the
payload formed by them, in `Object.entries` order; for every level decoding that payload
gives the records of the first followed by the records of the second; and this is what the
chunk loop, which concatenates the decoded chunks, accumulates. -/
theorem decodeData_chunked (level : String) (p1 p2 : List (String × List Encoded))
    (hkeys : ((p1 ++ p2).map Prod.fst).Nodup)
    (hidx : ∀ kv ∈ p1 ++ p2, arrayIndex? kv.1 = none) :
    objectFromEntries (p1 ++ p2) = p1 ++ p2
    ∧ decodeData (.grouped (objectFromEntries (p1 ++ p2))) level
        = decodeData (.grouped p1) level ++ decodeData (.grouped p2) level
    ∧ loadChunks [.grouped p1, .grouped p2] level
        = decodeData (.grouped (objectFromEntries (p1 ++ p2))) level := by
  have e := objectFromEntries_of_named (p1 ++ p2) hkeys hidx
  have h := loadChunks_from level [p1, p2] []
  refine ⟨e, ?_, ?_⟩
  · rw [e]
    exact decodeData_append level p1 p2
  · rw [e]
    simpa [loadChunks] using h

/-- Witness for C30: the Biology payload and a Chemistry payload have distinct keys, none
an array index, and the chunk loop over them gives the records of the payload formed by
both. -/
theorem decodeData_chunked_witness :
    ((biologyPayload ++ chemistryPayload).map Prod.fst).Nodup
    ∧ (∀ kv ∈ biologyPayload ++ chemistryPayload, arrayIndex? kv.1 = none)
    ∧ loadChunks [.grouped biologyPayload, .grouped chemistryPayload] "IGCSE"
        = decodeData (.grouped (objectFromEntries (biologyPayload ++ chemistryPayload)))
            "IGCSE" :=
  ⟨by decide, by decide,
    (decodeData_chunked "IGCSE" biologyPayload chemistryPayload (by decide)
      (by decide)).2.2⟩

theorem paperGroupCompare_default (h : Host) (sortOrder : String) (haz : sortOrder ≠ "az")
    (hza : sortOrder ≠ "za") :
    paperGroupCompare h sortOrder = paperGroupCompare h "newest" := by
  funext a b
  have h1 : ("newest" : String) ≠ "az" := by decide
  have h2 : ("newest" : String) ≠ "za" := by decide
  simp only [paperGroupCompare, haz, hza, h1, h2, if_false]

/-- C28: in by-paper mode the sort orders 'newest' and 'oldest' are indistinguishable:
for every record sequence and family the two orders give the same result, that is the
same group sequence, or the same exception. -/
theorem groupedData_paper_newest_eq_oldest (h : Host) (data : List Record)
    (activeTab : String) :
    groupedData h data activeTab "paper" "newest"
      = groupedData h data activeTab "paper" "oldest" := by
  have e : paperGroupCompare h "oldest" = paperGroupCompare h "newest" :=
    paperGroupCompare_default h "oldest" (by decide) (by decide)
  simp only [groupedData, groupedPaper, e, if_true]


/-! ## By-paper grouping: the group key -/

theorem split_at_separator (sep : Char) :
    ∀ (a c b d : List Char), sep ∉ a → sep ∉ c → a ++ sep :: b = c ++ sep :: d →
      a = c ∧ b = d := by
  intro a
  induction a with
  | nil =>
    intro c b d _ hc h
    cases c with
    | nil => simpa using h
    | cons x c1 =>
      simp only [List.nil_append, List.cons_append, List.cons.injEq] at h
      exact absurd (by simp [h.1]) hc
  | cons x a1 ih =>
    intro c b d ha hc h
    cases c with
    | nil =>
      simp only [List.nil_append, List.cons_append, List.cons.injEq] at h
      exact absurd (by simp [h.1]) ha
    | cons y c1 =>
      simp only [List.cons_append, List.cons.injEq] at h
      obtain ⟨e1, e2⟩ := ih c1 b d (fun hm => ha (List.mem_cons_of_mem _ hm))
        (fun hm => hc (List.mem_cons_of_mem _ hm)) h.2
      exact ⟨by rw [h.1, e1], e2⟩

theorem paperKey_injective (s1 u1 s2 u2 : String) (h1 : '|' ∉ s1.data) (h2 : '|' ∉ s2.data)
    (h : paperKey (.str s1, .str u1) = paperKey (.str s2, .str u2)) :
    s1 = s2 ∧ u1 = u2 := by
  have hd := congrArg String.data h
  simp only [paperKey, toStr, String.data_append] at hd
  rw [List.append_assoc, List.append_assoc] at hd
  obtain ⟨e1, e2⟩ := split_at_separator '|' _ _ _ _ h1 h2 hd
  exact ⟨String.ext e1, String.ext e2⟩

theorem fieldsAt_paperInsert (su : JSVal × JSVal) (groups : List (String × PaperAcc))
    (item : Record) (gk : String) :
    fieldsAt (paperInsert su groups item) gk
      = if gk = paperKey su then some ((fieldsAt groups gk).getD su)
        else fieldsAt groups gk := by
  unfold fieldsAt paperInsert
  simp only [lookup_objModify, lookup_objEnsure]
  by_cases hg : gk = paperKey su
  · subst hg
    cases hl : groups.lookup (paperKey su) <;> simp
  · cases hl : groups.lookup gk <;> simp [hg]

theorem fieldsAt_paperCollect (activeTab : String) (gk : String) :
    ∀ (data : List Record) (groups out : List (String × PaperAcc)),
      paperCollect activeTab data groups = .ok out →
      fieldsAt out gk
        = match fieldsAt groups gk with
          | some f => some f
          | none =>
            match firstOfGroup activeTab data gk with
            | some r => (paperSubjectUnit activeTab r).toOption
            | none => none := by
  intro data
  induction data with
  | nil =>
    intro groups out h
    simp only [paperCollect, Except.ok.injEq] at h
    subst h
    cases fieldsAt groups gk <;> simp [firstOfGroup]
  | cons item rest ih =>
    intro groups out h
    unfold paperCollect at h
    cases hsu : paperSubjectUnit activeTab item with
    | error e => simp [hsu] at h
    | ok su =>
      simp only [hsu] at h
      rw [ih _ out h, fieldsAt_paperInsert]
      have hk : recordGroupKey activeTab item = some (paperKey su) := by
        simp [recordGroupKey, hsu]
      by_cases hg : gk = paperKey su
      · subst hg
        cases hf : fieldsAt groups (paperKey su) <;>
          simp [firstOfGroup, hk, hsu, Except.toOption]
      · have hne : ¬ paperKey su = gk := fun e => hg e.symm
        cases hf : fieldsAt groups gk <;> simp [firstOfGroup, hk, hg, hne]


theorem groupedPaper_fields (h : Host) (data : List Record) (activeTab sortOrder : String)
    (gs : List PaperGroup) (hok : groupedPaper h data activeTab sortOrder = .ok gs) :
    ∀ g ∈ gs, ∃ r0 ∈ data, firstOfGroup activeTab data g.id = some r0
      ∧ recordGroupKey activeTab r0 = some g.id
      ∧ paperSubjectUnit activeTab r0 = .ok (g.subject, g.unit) := by
  obtain ⟨groups, finished, hc, htr, hsort⟩ := groupedPaper_ok h data activeTab sortOrder gs hok
  obtain ⟨hn, hq⟩ := paperCollect_wf activeTab data [] groups (by simp) (by simp) hc
  intro g hg
  obtain ⟨acc, hacc, hfin⟩ := forall₂_mem_right (traverse_ok _ _ _ htr) g
    ((arraySort_perm _ _ _ hsort).mem_iff.1 hg)
  obtain ⟨k, hk⟩ := (mem_objectValues _ _).1 hacc
  obtain ⟨hid, hsub, hunit, -, -, -⟩ := finishPaperGroup_ok h acc g hfin
  have hidk : acc.id = k := (hq _ hk).1
  have hl : groups.lookup k = some acc := lookup_of_mem_nodup _ _ _ hn hk
  have hf := fieldsAt_paperCollect activeTab k data [] groups hc
  have hf0 : fieldsAt ([] : List (String × PaperAcc)) k = none := rfl
  rw [hf0] at hf
  simp only [fieldsAt, hl, Option.map_some'] at hf
  rw [hid, hidk, hsub, hunit]
  cases hfo : firstOfGroup activeTab data k with
  | none => simp [hfo] at hf
  | some r0 =>
    simp only [hfo] at hf
    have hmem : r0 ∈ data := List.mem_of_find?_eq_some hfo
    have hkey : recordGroupKey activeTab r0 = some k := by
      simpa using List.find?_some hfo
    refine ⟨r0, hmem, rfl, hkey, ?_⟩
    cases hsu : paperSubjectUnit activeTab r0 with
    | error e => simp [hsu, Except.toOption] at hf
    | ok su =>
      simp only [hsu, Except.toOption, Option.some.injEq] at hf
      rw [← hf]

/-- C21, counterexample: the two records `barSubject` (subject "Maths|Pure", unit "1") and
`barUnit` (subject "Maths", unit "Pure|1") differ in subject and in unit, yet both have
the key "Maths|Pure|1" and by-paper grouping places them in one group, whose subject and
unit are those of the first record only. -/
theorem group_key_collision :
    paperSubjectUnit "cie" barSubject = .ok (.str "Maths|Pure", .str "1")
    ∧ paperSubjectUnit "cie" barUnit = .ok (.str "Maths", .str "Pure|1")
    ∧ groupedData plainHost [barSubject, barUnit] "cie" "paper" "newest"
        = .ok (.paper [barGroup])
    ∧ barGroup.subject ≠ barUnit.Subject := by
  decide

/-- C21, amended: by-paper groups are keyed by the string `subject|unit`. For every
record sequence and family on which grouping returns: the group ids are pairwise distinct
and every record is placed in the group whose id is its key, so two records are in the
same group if and only if their keys are equal; records with the same subject and the
same unit have the same key; each group's subject and unit are those of the first record
with its key; and when every subject and unit is a string and no subject contains the
separator, two records are in the same group if and only if they have the same subject
and the same unit, and each group's subject and unit are those of every record in it. -/
theorem groupedData_group_key (h : Host) (data : List Record)
    (activeTab sortOrder : String) (gs : List PaperGroup)
    (hok : groupedData h data activeTab "paper" sortOrder = .ok (.paper gs)) :
    (gs.map (fun g => g.id)).Nodup
    ∧ (∀ r ∈ data, ∃ g ∈ gs, recordGroupKey activeTab r = some g.id)
    ∧ (∀ r1 ∈ data, ∀ r2 ∈ data, ∀ g1 ∈ gs, ∀ g2 ∈ gs,
        recordGroupKey activeTab r1 = some g1.id → recordGroupKey activeTab r2 = some g2.id →
        (g1 = g2 ↔ recordGroupKey activeTab r1 = recordGroupKey activeTab r2))
    ∧ (∀ r1 ∈ data, ∀ r2 ∈ data,
        paperSubjectUnit activeTab r1 = paperSubjectUnit activeTab r2 →
        recordGroupKey activeTab r1 = recordGroupKey activeTab r2)
    ∧ (∀ g ∈ gs, ∃ r0 ∈ data, firstOfGroup activeTab data g.id = some r0
        ∧ paperSubjectUnit activeTab r0 = .ok (g.subject, g.unit))
    ∧ ((∀ r ∈ data, ∃ s u, paperSubjectUnit activeTab r = .ok (.str s, .str u)
          ∧ '|' ∉ s.data) →
        (∀ r ∈ data, ∀ g ∈ gs, recordGroupKey activeTab r = some g.id →
          paperSubjectUnit activeTab r = .ok (g.subject, g.unit))
        ∧ ∀ r1 ∈ data, ∀ r2 ∈ data, ∀ g1 ∈ gs, ∀ g2 ∈ gs,
          recordGroupKey activeTab r1 = some g1.id →
          recordGroupKey activeTab r2 = some g2.id →
          (g1 = g2 ↔ paperSubjectUnit activeTab r1 = paperSubjectUnit activeTab r2)) := by
  have hp := (groupedData_paper _ _ _ _ _).1 hok
  obtain ⟨hn, hrec, -⟩ := groupedPaper_structure h data activeTab sortOrder gs hp
  have hfields := groupedPaper_fields h data activeTab sortOrder gs hp
  have hinj : ∀ g1 ∈ gs, ∀ g2 ∈ gs, g1.id = g2.id → g1 = g2 :=
    fun g1 h1 g2 h2 e => List.inj_on_of_nodup_map hn h1 h2 e
  have hkey : ∀ r1 ∈ data, ∀ r2 ∈ data, ∀ g1 ∈ gs, ∀ g2 ∈ gs,
      recordGroupKey activeTab r1 = some g1.id → recordGroupKey activeTab r2 = some g2.id →
      (g1 = g2 ↔ recordGroupKey activeTab r1 = recordGroupKey activeTab r2) := by
    intro r1 _ r2 _ g1 hg1 g2 hg2 e1 e2
    constructor
    · intro e
      rw [e1, e2, e]
    · intro e
      rw [e1, e2] at e
      exact hinj g1 hg1 g2 hg2 (Option.some.inj e)
  have hsame : ∀ r1 ∈ data, ∀ r2 ∈ data,
      paperSubjectUnit activeTab r1 = paperSubjectUnit activeTab r2 →
      recordGroupKey activeTab r1 = recordGroupKey activeTab r2 := by
    intro r1 _ r2 _ e
    simp only [recordGroupKey, e]
  refine ⟨hn, fun r hr => ?_, hkey, hsame, fun g hg => ?_, fun hstr => ?_⟩
  · obtain ⟨g, hg, hk, -⟩ := hrec r hr
    exact ⟨g, hg, hk⟩
  · obtain ⟨r0, hr0, hf, -, hsu⟩ := hfields g hg
    exact ⟨r0, hr0, hf, hsu⟩
  · have hall : ∀ r ∈ data, ∀ g ∈ gs, recordGroupKey activeTab r = some g.id →
        paperSubjectUnit activeTab r = .ok (g.subject, g.unit) := by
      intro r hr g hg hk
      obtain ⟨r0, hr0, -, hk0, hsu0⟩ := hfields g hg
      obtain ⟨s, u, hsu, hs⟩ := hstr r hr
      obtain ⟨s0, u0, hsu0a, hs0⟩ := hstr r0 hr0
      have e0 : (g.subject, g.unit) = (JSVal.str s0, JSVal.str u0) := by
        rw [hsu0] at hsu0a
        exact Except.ok.inj hsu0a
      have hkk : paperKey (.str s, .str u) = paperKey (.str s0, .str u0) := by
        simp only [recordGroupKey, hsu, hsu0a] at hk hk0
        rw [Option.some.inj hk, Option.some.inj hk0]
      obtain ⟨es, eu⟩ := paperKey_injective s u s0 u0 hs hs0 hkk
      rw [hsu, e0, es, eu]
    refine ⟨hall, ?_⟩
    intro r1 hr1 r2 hr2 g1 hg1 g2 hg2 e1 e2
    rw [hkey r1 hr1 r2 hr2 g1 hg1 g2 hg2 e1 e2]
    constructor
    · intro e
      have e3 : some g1.id = some g2.id := by rw [← e1, ← e2, e]
      have e4 : g1 = g2 := hinj g1 hg1 g2 hg2 (Option.some.inj e3)
      rw [hall r1 hr1 g1 hg1 e1, hall r2 hr2 g2 hg2 e2, e4]
    · exact hsame r1 hr1 r2 hr2

theorem groupedData_group_key_witness :
    groupedData plainHost [biologyQP, biologyQPbis] "cie" "paper" "newest"
        = .ok (.paper [duplicateGroup])
    ∧ (∀ r ∈ [biologyQP, biologyQPbis], ∃ s u,
        paperSubjectUnit "cie" r = .ok (.str s, .str u) ∧ '|' ∉ s.data)
    ∧ ∀ r ∈ [biologyQP, biologyQPbis], ∀ g ∈ [duplicateGroup],
        recordGroupKey "cie" r = some g.id →
        paperSubjectUnit "cie" r = .ok (g.subject, g.unit) :=
  have hs : ∀ r ∈ [biologyQP, biologyQPbis], ∃ s u,
      paperSubjectUnit "cie" r = .ok (.str s, .str u) ∧ '|' ∉ s.data := by
    intro r hr
    simp only [List.mem_cons, List.mem_singleton, List.not_mem_nil, or_false] at hr
    rcases hr with e | e <;> subst e
    · exact ⟨"Biology (0610)", "22", by decide, by decide⟩
    · exact ⟨"Biology (0610)", "22", by decide, by decide⟩
  ⟨by decide, hs,
    ((groupedData_group_key plainHost [biologyQP, biologyQPbis] "cie" "newest"
      [duplicateGroup] (by decide)).2.2.2.2.2 hs).1⟩


/-! ## By-paper grouping: no record is lost -/

theorem getLast?_toList_of_length_le_one {α : Type} (l : List α) (h : l.length ≤ 1) :
    l.getLast?.toList = l := by
  cases l with
  | nil => rfl
  | cons a l1 =>
    cases l1 with
    | nil => rfl
    | cons b l2 => simp at h

theorem length_le_one_of_pairwise_false {α : Type} (R : α → α → Prop) (l : List α)
    (hp : l.Pairwise R) (hR : ∀ a ∈ l, ∀ b ∈ l, ¬ R a b) : l.length ≤ 1 := by
  cases l with
  | nil => simp
  | cons a l1 =>
    cases l1 with
    | nil => simp
    | cons b l2 =>
      exact absurd ((List.pairwise_cons.1 hp).1 b (by simp)) (hR a (by simp) b (by simp))

theorem count_filter_eq {α : Type} [DecidableEq α] (p : α → Bool) (l : List α) (a : α) :
    (l.filter p).count a = if p a = true then l.count a else 0 := by
  by_cases h : p a = true
  · simp only [h, if_true]
    exact List.count_filter h
  · simp only [h, if_false]
    exact List.count_eq_zero_of_not_mem (fun hm => h (List.mem_filter.1 hm).2)

/-- A list is, up to order, the concatenation of the records of the four slot types and
of the remaining records. -/
theorem perm_by_type (recs : List Record) :
    (recs.filter (fun r => decide (r.Type_ = .str "qp"))
      ++ recs.filter (fun r => decide (r.Type_ = .str "ms"))
      ++ recs.filter (fun r => decide (r.Type_ = .str "er"))
      ++ recs.filter (fun r => decide (r.Type_ = .str "gt"))
      ++ recs.filter (fun r => !decide (r.Type_ = .str "qp" ∨ r.Type_ = .str "ms"
          ∨ r.Type_ = .str "er" ∨ r.Type_ = .str "gt"))).Perm recs := by
  rw [List.perm_iff_count]
  intro a
  simp only [List.count_append, count_filter_eq]
  by_cases h1 : a.Type_ = .str "qp"
  · simp [h1]
  · by_cases h2 : a.Type_ = .str "ms"
    · simp [h2]
    · by_cases h3 : a.Type_ = .str "er"
      · simp [h3]
      · by_cases h4 : a.Type_ = .str "gt"
        · simp [h4]
        · simp [h1, h2, h3, h4]


theorem perm_flatMap_congr {α β : Type} (f g : α → List β) (l : List α)
    (hfg : ∀ a ∈ l, (f a).Perm (g a)) : (l.flatMap f).Perm (l.flatMap g) := by
  induction l with
  | nil => simp
  | cons a l ih =>
    simp only [List.flatMap_cons]
    exact (hfg a (by simp)).append (ih (fun b hb => hfg b (List.mem_cons_of_mem _ hb)))

/-- A list is, up to order, the concatenation of its parts by key, when the keys listed
are distinct and every key of the list is listed. -/
theorem perm_partition {α β K : Type} [DecidableEq K] (kf : β → K) (f : α → K) :
    ∀ (xs : List β) (l : List α), (xs.map kf).Nodup → (∀ y ∈ l, f y ∈ xs.map kf) →
      (xs.flatMap (fun x => l.filter (fun y => decide (f y = kf x)))).Perm l := by
  intro xs
  induction xs with
  | nil =>
    intro l _ hl
    cases l with
    | nil => simp
    | cons y l1 => simpa using hl y (by simp)
  | cons x xs ih =>
    intro l hn hl
    simp only [List.map_cons, List.nodup_cons] at hn
    simp only [List.flatMap_cons]
    have hrest : xs.flatMap (fun x1 => l.filter (fun y => decide (f y = kf x1)))
        = xs.flatMap (fun x1 =>
            (l.filter (fun y => !decide (f y = kf x))).filter
              (fun y => decide (f y = kf x1))) := by
      refine List.flatMap_congr ?_
      intro x1 hx1
      rw [List.filter_filter]
      refine List.filter_congr ?_
      intro y _
      have hne : kf x1 ≠ kf x := fun e => hn.1 (e ▸ List.mem_map_of_mem kf hx1)
      by_cases hy : f y = kf x1
      · simp [hy, hne]
      · simp [hy]
    rw [hrest]
    have hl1 : ∀ y ∈ l.filter (fun y => !decide (f y = kf x)), f y ∈ xs.map kf := by
      intro y hy
      obtain ⟨hy1, hy2⟩ := List.mem_filter.1 hy
      have := hl y hy1
      simp only [List.map_cons, List.mem_cons] at this
      rcases this with e | e
      · simp [e] at hy2
      · exact e
    exact ((List.Perm.refl _).append (ih _ hn.2 hl1)).trans (List.filter_append_perm _ l)

/-- When no two records compete for a slot, a session object holds exactly the records
of its session. -/
theorem slotRecords_perm (activeTab : String) (data : List Record) (gk sk : String)
    (s : SessionSlot)
    (hd : data.Pairwise (fun r1 r2 => ¬ SameSlot activeTab r1 r2))
    (hs : slotFold (sessionRecords activeTab data gk sk) none = some s) :
    (slotRecords s).Perm (sessionRecords activeTab data gk sk) := by
  obtain ⟨h1, h2, h3, h4, h5, -⟩ := slotFold_spec _ s hs
  have hlen : ∀ t : String, t = "qp" ∨ t = "ms" ∨ t = "er" ∨ t = "gt" →
      ((sessionRecords activeTab data gk sk).filter
        (fun r => decide (r.Type_ = .str t))).length ≤ 1 := by
    intro t ht
    refine length_le_one_of_pairwise_false (fun r1 r2 => ¬ SameSlot activeTab r1 r2) _
      (hd.sublist ((List.filter_sublist _).trans (List.filter_sublist _))) ?_
    intro a ha b hb hab
    obtain ⟨ha1, ha2⟩ := List.mem_filter.1 ha
    obtain ⟨hb1, hb2⟩ := List.mem_filter.1 hb
    have ha3 := (List.mem_filter.1 ha1).2
    have hb3 := (List.mem_filter.1 hb1).2
    simp only [decide_eq_true_eq] at ha2 hb2 ha3 hb3
    refine hab ⟨by rw [ha3.1, hb3.1], by rw [ha3.2, hb3.2], by rw [ha2, hb2], ?_⟩
    rw [ha2]
    rcases ht with e | e | e | e <;> simp [e]
  unfold slotRecords
  rw [h1, h2, h3, h4, h5,
    getLast?_toList_of_length_le_one _ (hlen "qp" (by simp)),
    getLast?_toList_of_length_le_one _ (hlen "ms" (by simp)),
    getLast?_toList_of_length_le_one _ (hlen "er" (by simp)),
    getLast?_toList_of_length_le_one _ (hlen "gt" (by simp))]
  exact perm_by_type _


theorem groupedPaper_records_perm (h : Host) (data : List Record)
    (activeTab sortOrder : String) (gs : List PaperGroup)
    (hok : groupedPaper h data activeTab sortOrder = .ok gs)
    (hd : data.Pairwise (fun r1 r2 => ¬ SameSlot activeTab r1 r2)) :
    (outputRecords gs).Perm data := by
  obtain ⟨hn, hrec, hgrp⟩ := groupedPaper_structure h data activeTab sortOrder gs hok
  have hinj : ∀ g1 ∈ gs, ∀ g2 ∈ gs, g1.id = g2.id → g1 = g2 :=
    fun g1 h1 g2 h2 e => List.inj_on_of_nodup_map hn h1 h2 e
  have hlevel1 : (gs.flatMap (fun g => data.filter
      (fun r => decide (recordGroupKey activeTab r = (fun g : PaperGroup => some g.id) g)))).Perm
      data := by
    refine perm_partition (fun g : PaperGroup => some g.id) (recordGroupKey activeTab) gs data
      ?_ ?_
    · have e : gs.map (fun g : PaperGroup => some g.id) = (gs.map (fun g => g.id)).map some := by
        rw [List.map_map]
        rfl
      rw [e]
      exact hn.map (Option.some_injective _)
    · intro r hr
      obtain ⟨g, hg, hk, -⟩ := hrec r hr
      exact List.mem_map.2 ⟨g, hg, hk.symm⟩
  refine List.Perm.trans ?_ hlevel1
  unfold outputRecords
  refine perm_flatMap_congr _ _ gs ?_
  intro g hg
  obtain ⟨hsn, hsorted, hslots⟩ := hgrp g hg
  have hperm : g.sortedSessions.Perm (g.sessions.map Prod.snd) :=
    (arraySort_perm _ _ _ hsorted).trans (objectValues_perm _)
  refine (hperm.flatMap_right slotRecords).trans ?_
  rw [List.flatMap_map]
  have hlevel2 : (g.sessions.flatMap (fun ks =>
      (data.filter (fun r => decide (recordGroupKey activeTab r = some g.id))).filter
        (fun r => decide (sessionKey r = Prod.fst ks)))).Perm
      (data.filter (fun r => decide (recordGroupKey activeTab r = some g.id))) := by
    refine perm_partition Prod.fst sessionKey g.sessions _ hsn ?_
    intro r hr
    obtain ⟨hr1, hr2⟩ := List.mem_filter.1 hr
    simp only [decide_eq_true_eq] at hr2
    obtain ⟨g1, hg1, hk1, s, hs⟩ := hrec r hr1
    have e : g1 = g := hinj g1 hg1 g hg (by
      rw [hr2] at hk1
      exact (Option.some.inj hk1).symm)
    rw [e] at hs
    exact List.mem_map.2 ⟨_, hs, rfl⟩
  refine List.Perm.trans ?_ hlevel2
  refine perm_flatMap_congr _ _ g.sessions ?_
  intro ks hks
  have e : (data.filter (fun r => decide (recordGroupKey activeTab r = some g.id))).filter
      (fun r => decide (sessionKey r = ks.1)) = sessionRecords activeTab data g.id ks.1 := by
    unfold sessionRecords
    rw [List.filter_filter]
    refine List.filter_congr ?_
    intro r _
    simp [and_comm]
  rw [e]
  exact slotRecords_perm activeTab data g.id ks.1 ks.2 hd (hslots ks hks)

theorem groupedPaper_sessions_ne_nil (h : Host) (data : List Record)
    (activeTab sortOrder : String) (gs : List PaperGroup)
    (hok : groupedPaper h data activeTab sortOrder = .ok gs) :
    ∀ g ∈ gs, g.sessions ≠ [] ∧ g.sortedSessions ≠ [] := by
  obtain ⟨hn, hrec, hgrp⟩ := groupedPaper_structure h data activeTab sortOrder gs hok
  intro g hg
  obtain ⟨r0, hr0, -, hk0, -⟩ := groupedPaper_fields h data activeTab sortOrder gs hok g hg
  obtain ⟨g1, hg1, hk1, s, hs⟩ := hrec r0 hr0
  have e : g1 = g := List.inj_on_of_nodup_map hn hg1 hg (by
    rw [hk0] at hk1
    exact (Option.some.inj hk1).symm)
  rw [e] at hs
  have hne : g.sessions ≠ [] := List.ne_nil_of_mem hs
  refine ⟨hne, ?_⟩
  obtain ⟨-, hsorted, -⟩ := hgrp g hg
  have hperm : g.sortedSessions.Perm (g.sessions.map Prod.snd) :=
    (arraySort_perm _ _ _ hsorted).trans (objectValues_perm _)
  intro e1
  rw [e1] at hperm
  exact hne (List.map_eq_nil_iff.1 hperm.symm.eq_nil)

/-- C27, counterexample: `barYear` (year "2024|May", session "June") and `barSession`
(year "2024", session "May|June") are question papers of one group that share neither
year nor session, yet both have the session key "2024|May|June": by-paper grouping stores
them in one session object, whose qp slot keeps the later record, and `barYear` is lost. -/
theorem record_lost_without_shared_session :
    barYear.Year ≠ barSession.Year ∧ barYear.Session ≠ barSession.Session
    ∧ groupedData plainHost [barYear, barSession] "cie" "paper" "newest"
        = .ok (.paper [barSessionGroup])
    ∧ outputRecords [barSessionGroup] = [barSession]
    ∧ barYear ∉ outputRecords [barSessionGroup] := by
  decide

/-- C27, amended: by-paper grouping loses no record unless a slot is overwritten. For
every record sequence and family on which grouping returns, if no two records have the
same group key, the same session key (the string `Year|Session`) and the same Type with
that Type among qp, ms, er and gt, then the records held by the output (the filled slots
and the `others` lists of all sessions of all groups) are the input records, each as often
as in the input; the `others` list of a session is the list of the records of that group
and session with a Type outside the four, in input order; and every group has at least
one session. -/
theorem groupedData_no_record_lost (h : Host) (data : List Record)
    (activeTab sortOrder : String) (gs : List PaperGroup)
    (hok : groupedData h data activeTab "paper" sortOrder = .ok (.paper gs))
    (hd : data.Pairwise (fun r1 r2 => ¬ SameSlot activeTab r1 r2)) :
    (outputRecords gs).Perm data
    ∧ (∀ g ∈ gs, ∀ ks ∈ g.sessions,
        ks.2.others = (sessionRecords activeTab data g.id ks.1).filter
          (fun r => !decide (r.Type_ = .str "qp" ∨ r.Type_ = .str "ms"
            ∨ r.Type_ = .str "er" ∨ r.Type_ = .str "gt")))
    ∧ ∀ g ∈ gs, g.sessions ≠ [] ∧ g.sortedSessions ≠ [] := by
  have hp := (groupedData_paper _ _ _ _ _).1 hok
  refine ⟨groupedPaper_records_perm h data activeTab sortOrder gs hp hd, ?_,
    groupedPaper_sessions_ne_nil h data activeTab sortOrder gs hp⟩
  intro g hg ks hks
  obtain ⟨-, -, hgrp⟩ := groupedPaper_structure h data activeTab sortOrder gs hp
  exact (slotFold_spec _ ks.2 ((hgrp g hg).2.2 ks hks)).2.2.2.2.1

theorem groupedData_no_record_lost_witness :
    groupedData plainHost [biologyQP, biologyMS] "cie" "paper" "newest"
        = .ok (.paper [biologyGroup])
    ∧ [biologyQP, biologyMS].Pairwise (fun r1 r2 => ¬ SameSlot "cie" r1 r2)
    ∧ (outputRecords [biologyGroup]).Perm [biologyQP, biologyMS] :=
  ⟨by decide, by decide,
    (groupedData_no_record_lost plainHost [biologyQP, biologyMS] "cie" "newest"
      [biologyGroup] (by decide) (by decide)).1⟩


/-! ## Insertion order of objects and stability of `sort` -/

theorem arrayIndex?_of_bar (k : String) (hk : '|' ∈ k.data) : arrayIndex? k = none := by
  unfold arrayIndex?
  cases hd : k.data with
  | nil => rfl
  | cons c cs =>
    rw [hd] at hk
    cases cs with
    | nil =>
      simp only [List.mem_singleton] at hk
      subst hk
      decide
    | cons d ds =>
      have hall : (c :: d :: ds).all Char.isDigit = false := by
        rw [List.all_eq_false]
        exact ⟨'|', hk, by decide⟩
      simp only [hall]
      split <;> simp

theorem objectValues_of_bar {β : Type} (m : List (String × β))
    (hm : ∀ kv ∈ m, '|' ∈ kv.1.data) : objectValues m = m.map Prod.snd := by
  unfold objectValues
  have h1 : m.filterMap (fun kv => (arrayIndex? kv.1).map (fun n => (n, kv.2))) = [] := by
    rw [List.filterMap_eq_nil_iff]
    intro kv hkv
    simp [arrayIndex?_of_bar kv.1 (hm kv hkv)]
  have h2 : m.filter (fun kv => (arrayIndex? kv.1).isNone) = m := by
    rw [List.filter_eq_self]
    intro kv hkv
    simp [arrayIndex?_of_bar kv.1 (hm kv hkv)]
  simp only [h1, h2, List.insertionSort, List.map_nil, List.nil_append]

theorem keys_objEnsure {β : Type} (m : List (String × β)) (k : String) (init : β) :
    (objEnsure m k init).map Prod.fst
      = if k ∈ m.map Prod.fst then m.map Prod.fst else m.map Prod.fst ++ [k] := by
  unfold objEnsure
  cases hk : m.lookup k with
  | some v =>
    have hmem : k ∈ m.map Prod.fst :=
      List.mem_map.2 ⟨(k, v), lookup_eq_some_mem _ _ _ hk, rfl⟩
    simp [hmem]
  | none =>
    have hnot : k ∉ m.map Prod.fst := by
      intro hmem
      obtain ⟨kv, hkv, e⟩ := List.mem_map.1 hmem
      have := (List.lookup_eq_none_iff.1 hk) kv hkv
      simp [e] at this
    simp [hnot]

theorem mem_firstAppearance (ks : List String) :
    ∀ (seen : List String) (k : String), k ∈ firstAppearance seen ks → k ∈ seen ∨ k ∈ ks := by
  induction ks with
  | nil => intro seen k h; exact Or.inl h
  | cons a ks ih =>
    intro seen k h
    simp only [firstAppearance, List.foldl_cons] at h
    rcases ih _ k h with e | e
    · by_cases ha : a ∈ seen
      · simp only [ha, if_true] at e
        exact Or.inl e
      · simp only [ha, if_false, List.mem_append, List.mem_singleton] at e
        rcases e with e | e
        · exact Or.inl e
        · exact Or.inr (by simp [e])
    · exact Or.inr (List.mem_cons_of_mem _ e)

theorem orderedInsertM_filter {α : Type} (cmp : α → α → Except JSError (Option Int))
    (p : α → Bool) (a : α) :
    ∀ (l r : List α), orderedInsertM cmp a l = .ok r →
      (∀ b ∈ l, p a = true → p b = true → ∀ c, cmp a b = .ok c → nanToZero c ≤ 0) →
      r.filter p = (a :: l).filter p := by
  intro l
  induction l with
  | nil =>
    intro r h _
    simp only [orderedInsertM, Except.ok.injEq] at h
    rw [← h]
  | cons b l ih =>
    intro r h hp
    unfold orderedInsertM at h
    cases hc : cmp a b with
    | error e => simp [hc] at h
    | ok c =>
      simp only [hc] at h
      by_cases hle : nanToZero c ≤ 0
      · simp only [hle, if_true, Except.ok.injEq] at h
        rw [← h]
      · simp only [hle, if_false] at h
        cases hr : orderedInsertM cmp a l with
        | error e => simp [hr] at h
        | ok r1 =>
          simp only [hr, Except.ok.injEq] at h
          subst h
          have hih := ih r1 hr (fun x hx => hp x (List.mem_cons_of_mem _ hx))
          have hnot : ¬ (p a = true ∧ p b = true) :=
            fun hab => hle (hp b (by simp) hab.1 hab.2 c hc)
          by_cases hb : p b = true
          · have ha : p a = false := by
              cases hpa : p a with
              | false => rfl
              | true => exact absurd ⟨hpa, hb⟩ hnot
            simp only [List.filter_cons, hb, ha, if_true] at hih ⊢
            simp [hih]
          · simp only [Bool.not_eq_true] at hb
            by_cases ha : p a = true
            · simp only [List.filter_cons, ha, hb, if_true] at hih ⊢
              simpa using hih
            · simp only [Bool.not_eq_true] at ha
              simp only [List.filter_cons, ha, hb] at hih ⊢
              simpa using hih

/-- Stability of `sort`: the elements selected by `p` keep their relative order when the
comparator never puts a later one of them in front of an earlier one. -/
theorem arraySort_filter {α : Type} (cmp : α → α → Except JSError (Option Int))
    (p : α → Bool) :
    ∀ (l r : List α), arraySort cmp l = .ok r →
      l.Pairwise (fun a b => p a = true → p b = true →
        ∀ c, cmp a b = .ok c → nanToZero c ≤ 0) →
      r.filter p = l.filter p := by
  intro l
  induction l with
  | nil =>
    intro r h _
    simp only [arraySort, Except.ok.injEq] at h
    rw [← h]
  | cons a l ih =>
    intro r h hp
    unfold arraySort at h
    cases hs : arraySort cmp l with
    | error e => simp [hs] at h
    | ok sorted =>
      simp only [hs] at h
      obtain ⟨hhead, htail⟩ := List.pairwise_cons.1 hp
      have h1 := orderedInsertM_filter cmp p a sorted r h
        (fun b hb => hhead b ((arraySort_perm cmp l sorted hs).mem_iff.1 hb))
      rw [h1, List.filter_cons, List.filter_cons, ih sorted hs htail]


theorem bar_mem_paperKey (su : JSVal × JSVal) : '|' ∈ (paperKey su).data := by
  simp [paperKey, String.data_append]

theorem bar_mem_sessionKey (item : Record) : '|' ∈ (sessionKey item).data := by
  simp [sessionKey, String.data_append]

theorem firstAppearance_cons (seen : List String) (k : String) (ks : List String) :
    firstAppearance seen (k :: ks)
      = firstAppearance (if k ∈ seen then seen else seen ++ [k]) ks := rfl

theorem paperCollect_keys (activeTab : String) :
    ∀ (data : List Record) (groups out : List (String × PaperAcc)),
      paperCollect activeTab data groups = .ok out →
      out.map Prod.fst
        = firstAppearance (groups.map Prod.fst)
            (data.filterMap (recordGroupKey activeTab)) := by
  intro data
  induction data with
  | nil =>
    intro groups out h
    simp only [paperCollect, Except.ok.injEq] at h
    subst h
    rfl
  | cons item rest ih =>
    intro groups out h
    unfold paperCollect at h
    cases hsu : paperSubjectUnit activeTab item with
    | error e => simp [hsu] at h
    | ok su =>
      simp only [hsu] at h
      have hk : recordGroupKey activeTab item = some (paperKey su) := by
        simp [recordGroupKey, hsu]
      rw [ih _ out h, List.filterMap_cons, hk, firstAppearance_cons]
      unfold paperInsert
      rw [keys_objModify, keys_objEnsure]

theorem sessionKeysAt_paperInsert (su : JSVal × JSVal) (groups : List (String × PaperAcc))
    (item : Record) (gk : String) :
    sessionKeysAt (paperInsert su groups item) gk
      = if gk = paperKey su then
          (if sessionKey item ∈ sessionKeysAt groups gk then sessionKeysAt groups gk
           else sessionKeysAt groups gk ++ [sessionKey item])
        else sessionKeysAt groups gk := by
  unfold sessionKeysAt paperInsert
  simp only [lookup_objModify, lookup_objEnsure]
  by_cases hg : gk = paperKey su
  · subst hg
    cases hl : groups.lookup (paperKey su) with
    | none => simp [keys_objModify, keys_objEnsure]
    | some g => simp [keys_objModify, keys_objEnsure]
  · cases hl : groups.lookup gk <;> simp [hg]

theorem sessionKeysAt_paperCollect (activeTab : String) (gk : String) :
    ∀ (data : List Record) (groups out : List (String × PaperAcc)),
      paperCollect activeTab data groups = .ok out →
      sessionKeysAt out gk
        = firstAppearance (sessionKeysAt groups gk)
            ((data.filter (fun r => decide (recordGroupKey activeTab r = some gk))).map
              sessionKey) := by
  intro data
  induction data with
  | nil =>
    intro groups out h
    simp only [paperCollect, Except.ok.injEq] at h
    subst h
    rfl
  | cons item rest ih =>
    intro groups out h
    unfold paperCollect at h
    cases hsu : paperSubjectUnit activeTab item with
    | error e => simp [hsu] at h
    | ok su =>
      simp only [hsu] at h
      have hk : recordGroupKey activeTab item = some (paperKey su) := by
        simp [recordGroupKey, hsu]
      rw [ih _ out h, sessionKeysAt_paperInsert]
      by_cases hg : gk = paperKey su
      · subst hg
        simp only [hk, List.filter_cons, decide_True, if_true, List.map_cons,
          firstAppearance_cons]
      · have hne : ¬ paperKey su = gk := fun e => hg e.symm
        simp [hk, hg, hne, List.filter_cons]


/-- The order of the by-paper groups before the group sort, and of the session objects
of a group before the session sort: the order of first appearance in the input. -/
theorem groupedPaper_order (h : Host) (data : List Record) (activeTab sortOrder : String)
    (gs : List PaperGroup) (hok : groupedPaper h data activeTab sortOrder = .ok gs) :
    ∃ finished : List PaperGroup,
      arraySort (paperGroupCompare h sortOrder) finished = .ok gs
      ∧ finished.map (fun g => g.id)
          = firstAppearance [] (data.filterMap (recordGroupKey activeTab))
      ∧ ∀ g ∈ gs,
          arraySort (fun a b => .ok (sessionCompare h a b)) (g.sessions.map Prod.snd)
            = .ok g.sortedSessions
          ∧ g.sessions.map Prod.fst
              = firstAppearance []
                  ((data.filter (fun r => decide (recordGroupKey activeTab r = some g.id))).map
                    sessionKey) := by
  obtain ⟨groups, finished, hc, htr, hsort⟩ := groupedPaper_ok h data activeTab sortOrder gs hok
  obtain ⟨hn, hq⟩ := paperCollect_wf activeTab data [] groups (by simp) (by simp) hc
  have hkeys := paperCollect_keys activeTab data [] groups hc
  simp only [List.map_nil] at hkeys
  have hbar : ∀ kv ∈ groups, '|' ∈ kv.1.data := by
    intro kv hkv
    have hmem : kv.1 ∈ groups.map Prod.fst := List.mem_map_of_mem _ hkv
    rw [hkeys] at hmem
    rcases mem_firstAppearance _ _ _ hmem with e | e
    · simp at e
    · obtain ⟨r, -, hr⟩ := List.mem_filterMap.1 e
      unfold recordGroupKey at hr
      cases hsu : paperSubjectUnit activeTab r with
      | error e1 => simp [hsu] at hr
      | ok su =>
        simp only [hsu, Option.some.injEq] at hr
        rw [← hr]
        exact bar_mem_paperKey su
  have hvals : objectValues groups = groups.map Prod.snd := objectValues_of_bar groups hbar
  have hF := traverse_ok _ _ _ htr
  refine ⟨finished, hsort, ?_, ?_⟩
  · have h1 : (objectValues groups).map (fun acc => acc.id) = finished.map (fun g => g.id) :=
      forall₂_map_eq _ _ hF (fun a b hab => ((finishPaperGroup_ok h a b hab).1).symm)
    have h2 : (groups.map Prod.snd).map (fun acc => acc.id) = groups.map Prod.fst := by
      rw [List.map_map]
      exact List.map_congr_left (fun kv hkv => (hq kv hkv).1)
    rw [← h1, hvals, h2, hkeys]
  · intro g hg
    obtain ⟨acc, hacc, hfin⟩ := forall₂_mem_right hF g
      ((arraySort_perm _ _ _ hsort).mem_iff.1 hg)
    obtain ⟨k, hk⟩ := (mem_objectValues _ _).1 hacc
    obtain ⟨hid, -, -, hsess, hsorted, -⟩ := finishPaperGroup_ok h acc g hfin
    have hidk : acc.id = k := (hq _ hk).1
    have hl : groups.lookup k = some acc := lookup_of_mem_nodup _ _ _ hn hk
    have hsk := sessionKeysAt_paperCollect activeTab k data [] groups hc
    have hs0 : sessionKeysAt ([] : List (String × PaperAcc)) k = [] := rfl
    rw [hs0] at hsk
    simp only [sessionKeysAt, hl] at hsk
    have hsbar : ∀ ks ∈ acc.sessions, '|' ∈ ks.1.data := by
      intro ks hks
      have hmem : ks.1 ∈ acc.sessions.map Prod.fst := List.mem_map_of_mem _ hks
      rw [hsk] at hmem
      rcases mem_firstAppearance _ _ _ hmem with e | e
      · simp at e
      · obtain ⟨r, -, hr⟩ := List.mem_map.1 e
        rw [← hr]
        exact bar_mem_sessionKey r
    rw [hsess, hid, hidk, ← objectValues_of_bar acc.sessions hsbar]
    exact ⟨hsorted, hsk⟩


/-! ## By-paper grouping: sessions of equal rank -/

/-- C29: month ranking does not separate compound sessions. Of the twelve session names
of `SESSION_REV_MAP` only January, February, May and October are keys of `MONTHS`, and
"May/June" and "Oct/Nov" both have rank 0. In every by-paper output the session objects of
a group are created in the order in which their session keys first appear among the
records of the group, and the session sort keeps the relative order of the session
objects of one year and one month rank: two such sessions, for instance "May/June" and
"Oct/Nov" of one year, stand in `sortedSessions` in their order of first appearance. -/
theorem groupedData_compound_sessions (h : Host) (data : List Record)
    (activeTab sortOrder : String) (gs : List PaperGroup)
    (hok : groupedData h data activeTab "paper" sortOrder = .ok (.paper gs)) :
    (SESSION_REV_MAP.map Prod.snd).filter (fun n => (MONTHS.lookup n).isSome)
        = ["January", "February", "May", "October"]
    ∧ monthRank (.str "May/June") = 0 ∧ monthRank (.str "Oct/Nov") = 0
    ∧ ∀ g ∈ gs,
        g.sessions.map Prod.fst
          = firstAppearance []
              ((data.filter (fun r => decide (recordGroupKey activeTab r = some g.id))).map
                sessionKey)
        ∧ (∀ (y : JSVal) (m : Int),
            g.sortedSessions.filter (fun s => decide (s.year = y ∧ monthRank s.session = m))
              = (g.sessions.map Prod.snd).filter
                  (fun s => decide (s.year = y ∧ monthRank s.session = m)))
        ∧ ∀ s1 s2 : SessionSlot, s1.year = s2.year →
            monthRank s1.session = monthRank s2.session →
            [s1, s2].Sublist (g.sessions.map Prod.snd) → [s1, s2].Sublist g.sortedSessions := by
  have hp := (groupedData_paper _ _ _ _ _).1 hok
  obtain ⟨finished, -, -, hgrp⟩ := groupedPaper_order h data activeTab sortOrder gs hp
  refine ⟨by decide, by decide, by decide, ?_⟩
  intro g hg
  obtain ⟨hsorted, hkeys⟩ := hgrp g hg
  have hstable : ∀ (y : JSVal) (m : Int),
      g.sortedSessions.filter (fun s => decide (s.year = y ∧ monthRank s.session = m))
        = (g.sessions.map Prod.snd).filter
            (fun s => decide (s.year = y ∧ monthRank s.session = m)) := by
    intro y m
    refine arraySort_filter _ _ _ _ hsorted (List.pairwise_of_forall_mem_list ?_)
    intro a _ b _ ha hb c hc
    simp only [decide_eq_true_eq] at ha hb
    injection hc with hc
    subst hc
    have hz : nanToZero (numSub (monthValue b.session) (monthValue a.session)) = 0 := by
      rcases monthValue_cases a.session with ea | ⟨ea, ra⟩
        <;> rcases monthValue_cases b.session with eb | ⟨eb, rb⟩
        <;> rw [ea, eb] <;> simp [numSub, nanToZero, ha.2, hb.2]
    simp [sessionCompare, ha.1, hb.1, hz]
  refine ⟨hkeys, hstable, ?_⟩
  intro s1 s2 hy hm hsub
  have hf := hsub.filter (fun s => decide (s.year = s1.year ∧ monthRank s.session
    = monthRank s1.session))
  have e : [s1, s2].filter (fun s => decide (s.year = s1.year ∧ monthRank s.session
      = monthRank s1.session)) = [s1, s2] := by
    simp [List.filter_cons, hy, hm]
  rw [e, ← hstable] at hf
  exact hf.trans (List.filter_sublist _)

theorem groupedData_compound_sessions_witness :
    groupedData plainHost [biologyQPOctNov, biologyQP] "cie" "paper" "newest"
        = .ok (.paper [octNovFirstGroup])
    ∧ groupedData plainHost [biologyQP, biologyQPOctNov] "cie" "paper" "newest"
        = .ok (.paper [mayJuneFirstGroup])
    ∧ octNovFirstGroup.sessions.map Prod.fst
        = firstAppearance []
            (([biologyQPOctNov, biologyQP].filter
              (fun r => decide (recordGroupKey "cie" r = some octNovFirstGroup.id))).map
              sessionKey) :=
  ⟨by decide, by decide,
    ((groupedData_compound_sessions plainHost [biologyQPOctNov, biologyQP] "cie" "newest"
      [octNovFirstGroup] (by decide)).2.2.2 octNovFirstGroup (by simp)).1⟩


/-! ## Order of the by-paper groups -/

theorem cmp_self (f : String → String → Int) (ha : ∀ a b, f a b < 0 ↔ 0 < f b a)
    (a : String) : f a a = 0 := by
  have h := ha a a
  omega

theorem cmp_lt_of_lt_of_le (f : String → String → Int)
    (ha : ∀ a b, f a b < 0 ↔ 0 < f b a)
    (ht : ∀ a b c, f a b ≤ 0 → f b c ≤ 0 → f a c ≤ 0) (a b c : String)
    (hab : f a b < 0) (hbc : f b c ≤ 0) : f a c < 0 := by
  by_contra hn
  have h1 : f a c ≤ 0 := ht a b c (by omega) hbc
  have h2 : f c a ≤ 0 := by
    have := ha a c
    omega
  have h3 : f b a ≤ 0 := ht b c a hbc h2
  have h4 := ha a b
  omega

theorem cmp_lt_of_le_of_lt (f : String → String → Int)
    (ha : ∀ a b, f a b < 0 ↔ 0 < f b a)
    (ht : ∀ a b c, f a b ≤ 0 → f b c ≤ 0 → f a c ≤ 0) (a b c : String)
    (hab : f a b ≤ 0) (hbc : f b c < 0) : f a c < 0 := by
  by_contra hn
  have h1 : f a c ≤ 0 := ht a b c hab (by omega)
  have h2 : f c a ≤ 0 := by
    have := ha a c
    omega
  have h3 : f c b ≤ 0 := ht c a b h2 hab
  have h4 := ha b c
  omega

theorem localeCompareCall_ok (h : Host) (a b : JSVal) (c : Option Int)
    (hc : localeCompareCall h a b = .ok c) :
    ∃ s, a = .str s ∧ c = some (h.localeCompare s (toStr b)) := by
  cases a with
  | str s =>
    simp only [localeCompareCall, Except.ok.injEq] at hc
    exact ⟨s, rfl, hc.symm⟩
  | undefined => simp [localeCompareCall] at hc
  | null => simp [localeCompareCall] at hc
  | bool x => simp [localeCompareCall] at hc
  | num n => simp [localeCompareCall] at hc

theorem plainHost_numericConsistent : plainHost.NumericConsistent :=
  ⟨fun a b => compareChars_anti a.data b.data,
    fun a b c => compareChars_trans a.data b.data c.data⟩


theorem paperGroups_sorted_default (h : Host) (hcons : h.Consistent)
    (hnum : h.NumericConsistent) (sortOrder : String) (haz : sortOrder ≠ "az")
    (hza : sortOrder ≠ "za") (finished gs : List PaperGroup)
    (hsep : ∀ a ∈ finished, ∀ b ∈ finished,
      h.localeCompare (toStr a.subject) (toStr b.subject) = 0 → a.subject = b.subject)
    (hsort : arraySort (paperGroupCompare h sortOrder) finished = .ok gs) :
    gs.Pairwise (fun a b =>
      (a.isOldSyllabus = false ∧ b.isOldSyllabus = true)
      ∨ (a.isOldSyllabus = b.isOldSyllabus
          ∧ (h.localeCompare (toStr a.subject) (toStr b.subject) < 0
            ∨ (a.subject = b.subject
                ∧ h.localeCompareNumeric (toStr a.unit) (toStr b.unit) ≤ 0)))) := by
  obtain ⟨hanti, htr⟩ := hcons
  obtain ⟨hnanti, hntr⟩ := hnum
  refine arraySort_pairwise (paperGroupCompare h sortOrder) _ ?_ finished gs ?_ hsort
  · intro a b c hab hbc
    rcases hab with ⟨ha, hb⟩ | ⟨hf1, h1⟩
    · rcases hbc with ⟨hb2, -⟩ | ⟨hf2, -⟩
      · rw [hb] at hb2
        cases hb2
      · exact Or.inl ⟨ha, by rw [← hf2, hb]⟩
    · rcases hbc with ⟨hb2, hc2⟩ | ⟨hf2, h2⟩
      · exact Or.inl ⟨by rw [hf1, hb2], hc2⟩
      · refine Or.inr ⟨hf1.trans hf2, ?_⟩
        rcases h1 with l1 | ⟨s1, n1⟩
        · rcases h2 with l2 | ⟨s2, n2⟩
          · exact Or.inl (cmp_lt_of_lt_of_le _ hanti htr _ _ _ l1 (le_of_lt l2))
          · left
            rw [← s2]
            exact l1
        · rcases h2 with l2 | ⟨s2, n2⟩
          · left
            rw [s1]
            exact l2
          · exact Or.inr ⟨s1.trans s2, hntr _ _ _ n1 n2⟩
  · refine List.pairwise_of_forall_mem_list ?_
    intro a ha b hb c hc
    unfold paperGroupCompare at hc
    by_cases hf : a.isOldSyllabus = b.isOldSyllabus
    · simp only [hf, ne_eq, not_true_eq_false, if_false, haz, hza] at hc
      by_cases hs : a.subject = b.subject
      · simp only [hs, not_true_eq_false, if_false, Except.ok.injEq] at hc
        subst hc
        simp only [nanToZero]
        constructor
        · intro hle
          exact Or.inr ⟨hf, Or.inr ⟨hs, hle⟩⟩
        · intro hlt
          exact Or.inr ⟨hf.symm, Or.inr ⟨hs.symm, le_of_lt ((hnanti _ _).2 hlt)⟩⟩
      · simp only [hs, not_false_eq_true, if_true] at hc
        obtain ⟨s, hsa, hcs⟩ := localeCompareCall_ok h _ _ _ hc
        subst hcs
        have hts : toStr a.subject = s := by rw [hsa]; rfl
        simp only [nanToZero]
        constructor
        · intro hle
          refine Or.inr ⟨hf, Or.inl ?_⟩
          rw [hts]
          rcases lt_or_eq_of_le hle with e | e
          · exact e
          · exact absurd (hsep a ha b hb (by rw [hts]; exact e)) hs
        · intro hlt
          refine Or.inr ⟨hf.symm, Or.inl ?_⟩
          rw [hts]
          exact (hanti _ _).2 hlt
    · simp only [ne_eq, hf, not_false_eq_true, if_true, Except.ok.injEq] at hc
      subst hc
      cases hao : a.isOldSyllabus with
      | true =>
        have hbo : b.isOldSyllabus = false := by
          cases hbo : b.isOldSyllabus with
          | false => rfl
          | true => exact absurd (hao.trans hbo.symm) hf
        simp [nanToZero, hbo]
      | false =>
        have hbo : b.isOldSyllabus = true := by
          cases hbo : b.isOldSyllabus with
          | true => rfl
          | false => exact absurd (hao.trans hbo.symm) hf
        simp [nanToZero, hbo]


theorem paperGroups_flags (a b : PaperGroup) (hf : ¬ a.isOldSyllabus = b.isOldSyllabus) :
    (a.isOldSyllabus = true ∧ b.isOldSyllabus = false)
    ∨ (a.isOldSyllabus = false ∧ b.isOldSyllabus = true) := by
  cases hao : a.isOldSyllabus <;> cases hbo : b.isOldSyllabus <;> simp_all

theorem paperGroups_flag_trans (P : PaperGroup → PaperGroup → Prop)
    (hP : ∀ a b c : PaperGroup, P a b → P b c → P a c) (a b c : PaperGroup)
    (hab : (a.isOldSyllabus = false ∧ b.isOldSyllabus = true)
      ∨ (a.isOldSyllabus = b.isOldSyllabus ∧ P a b))
    (hbc : (b.isOldSyllabus = false ∧ c.isOldSyllabus = true)
      ∨ (b.isOldSyllabus = c.isOldSyllabus ∧ P b c)) :
    (a.isOldSyllabus = false ∧ c.isOldSyllabus = true)
      ∨ (a.isOldSyllabus = c.isOldSyllabus ∧ P a c) := by
  rcases hab with ⟨ha, hb⟩ | ⟨hf1, h1⟩
  · rcases hbc with ⟨hb2, -⟩ | ⟨hf2, -⟩
    · rw [hb] at hb2
      cases hb2
    · exact Or.inl ⟨ha, by rw [← hf2, hb]⟩
  · rcases hbc with ⟨hb2, hc2⟩ | ⟨hf2, h2⟩
    · exact Or.inl ⟨by rw [hf1, hb2], hc2⟩
    · exact Or.inr ⟨hf1.trans hf2, hP a b c h1 h2⟩

theorem paperGroups_sorted_az (h : Host) (hcons : h.Consistent)
    (finished gs : List PaperGroup)
    (hsort : arraySort (paperGroupCompare h "az") finished = .ok gs) :
    gs.Pairwise (fun a b =>
      (a.isOldSyllabus = false ∧ b.isOldSyllabus = true)
      ∨ (a.isOldSyllabus = b.isOldSyllabus
          ∧ h.localeCompare (toStr a.subject) (toStr b.subject) ≤ 0)) := by
  obtain ⟨hanti, htr⟩ := hcons
  refine arraySort_pairwise (paperGroupCompare h "az") _ ?_ finished gs ?_ hsort
  · intro a b c hab hbc
    exact paperGroups_flag_trans
      (fun a b => h.localeCompare (toStr a.subject) (toStr b.subject) ≤ 0)
      (fun a b c h1 h2 => htr _ _ _ h1 h2) a b c hab hbc
  · refine List.pairwise_of_forall_mem_list ?_
    intro a _ b _ c hc
    unfold paperGroupCompare at hc
    by_cases hf : a.isOldSyllabus = b.isOldSyllabus
    · simp only [hf, ne_eq, not_true_eq_false, if_false, if_true] at hc
      obtain ⟨s, hsa, hcs⟩ := localeCompareCall_ok h _ _ _ hc
      subst hcs
      have hts : toStr a.subject = s := by rw [hsa]; rfl
      simp only [nanToZero, hts]
      constructor
      · intro hle
        exact Or.inr ⟨hf, hle⟩
      · intro hlt
        exact Or.inr ⟨hf.symm, le_of_lt ((hanti _ _).2 hlt)⟩
    · simp only [ne_eq, hf, not_false_eq_true, if_true, Except.ok.injEq] at hc
      subst hc
      rcases paperGroups_flags a b hf with ⟨hao, hbo⟩ | ⟨hao, hbo⟩ <;>
        simp [nanToZero, hao, hbo]

theorem paperGroups_sorted_za (h : Host) (hcons : h.Consistent)
    (finished gs : List PaperGroup)
    (hsort : arraySort (paperGroupCompare h "za") finished = .ok gs) :
    gs.Pairwise (fun a b =>
      (a.isOldSyllabus = false ∧ b.isOldSyllabus = true)
      ∨ (a.isOldSyllabus = b.isOldSyllabus
          ∧ h.localeCompare (toStr b.subject) (toStr a.subject) ≤ 0)) := by
  obtain ⟨hanti, htr⟩ := hcons
  have hne : ("za" : String) ≠ "az" := by decide
  refine arraySort_pairwise (paperGroupCompare h "za") _ ?_ finished gs ?_ hsort
  · intro a b c hab hbc
    exact paperGroups_flag_trans
      (fun a b => h.localeCompare (toStr b.subject) (toStr a.subject) ≤ 0)
      (fun a b c h1 h2 => htr _ _ _ h2 h1) a b c hab hbc
  · refine List.pairwise_of_forall_mem_list ?_
    intro a _ b _ c hc
    unfold paperGroupCompare at hc
    by_cases hf : a.isOldSyllabus = b.isOldSyllabus
    · simp only [hf, ne_eq, not_true_eq_false, if_false, if_true, hne] at hc
      obtain ⟨s, hsb, hcs⟩ := localeCompareCall_ok h _ _ _ hc
      subst hcs
      have hts : toStr b.subject = s := by rw [hsb]; rfl
      simp only [nanToZero, hts]
      constructor
      · intro hle
        exact Or.inr ⟨hf, hle⟩
      · intro hlt
        exact Or.inr ⟨hf.symm, le_of_lt ((hanti _ _).2 hlt)⟩
    · simp only [ne_eq, hf, not_false_eq_true, if_true, Except.ok.injEq] at hc
      subst hc
      rcases paperGroups_flags a b hf with ⟨hao, hbo⟩ | ⟨hao, hbo⟩ <;>
        simp [nanToZero, hao, hbo]

/-- With 'az' or 'za' the group sort keeps the relative order of the groups of one
subject and one legacy flag. -/
theorem paperGroups_stable (h : Host) (hcons : h.Consistent) (sortOrder : String)
    (hord : sortOrder = "az" ∨ sortOrder = "za") (finished gs : List PaperGroup)
    (hsort : arraySort (paperGroupCompare h sortOrder) finished = .ok gs)
    (s : JSVal) (flag : Bool) :
    gs.filter (fun g => decide (g.subject = s ∧ g.isOldSyllabus = flag))
      = finished.filter (fun g => decide (g.subject = s ∧ g.isOldSyllabus = flag)) := by
  refine arraySort_filter _ _ _ _ hsort (List.pairwise_of_forall_mem_list ?_)
  intro a _ b _ ha hb c hc
  simp only [decide_eq_true_eq] at ha hb
  have hne : ("za" : String) ≠ "az" := by decide
  have hcall : localeCompareCall h s s = .ok c := by
    unfold paperGroupCompare at hc
    rcases hord with e | e <;> subst e <;>
      simpa [ha.1, ha.2, hb.1, hb.2, hne] using hc
  obtain ⟨x, hx, hcx⟩ := localeCompareCall_ok h _ _ _ hcall
  subst hcx
  have hts : toStr s = x := by rw [hx]; rfl
  simp only [nanToZero, hts]
  exact le_of_eq (cmp_self _ hcons.1 x)


/-- C26, as stated, fails under a collation that compares canonically equivalent strings
as equal, although it is a consistent comparator: "Café" with the composed letter U+00E9
and "Café" with e and the combining accent U+0301 are different strings with collation
result 0. Line 405 tests the subjects with `!==`, so of the groups (composed, unit 2),
(decomposed, unit 1), (composed, unit 1) the first two and the last two compare as equal by
subject while the first and the last compare by unit: the comparator of the default order
is not transitive, and the three groups, all non-legacy, stay in input order, the group of
unit 2 before the group of unit 1 of the same subject. -/
theorem default_order_canonical_equivalence :
    canonicalHost.Consistent ∧ canonicalHost.NumericConsistent
    ∧ cafeComposed ≠ cafeDecomposed
    ∧ canonicalHost.localeCompare cafeComposed cafeDecomposed = 0
    ∧ 0 < canonicalHost.localeCompareNumeric "2" "1"
    ∧ (groupedData canonicalHost
          [paperOf cafeComposed "2", paperOf cafeDecomposed "1", paperOf cafeComposed "1"]
          "cie" "paper" "newest").map paperSummary
        = .ok [(.str cafeComposed, .str "2", false), (.str cafeDecomposed, .str "1", false),
            (.str cafeComposed, .str "1", false)] :=
  ⟨⟨fun a b => compareChars_anti _ _, fun a b c => compareChars_trans _ _ _⟩,
    ⟨fun a b => compareChars_anti _ _, fun a b c => compareChars_trans _ _ _⟩,
    by decide, by decide, by decide, by decide⟩

/-- C26, amended: order of the by-paper groups, for a collation that is a consistent
comparator, with and without the option `numeric`. In every by-paper output the non-legacy
groups precede the legacy groups, and within each of the two: with a sort order other than
'az' and 'za' (such as 'newest' and 'oldest'), when the collation returns 0 only for
identical subjects among the groups, the groups are ordered by subject ascending and,
among groups of equal subject, by the numeric collation of the unit; with 'az' they are
ordered by subject
ascending and with 'za' by subject descending, and in both cases the groups of one subject
stand in the order in which their keys first appear in the input. Under a collation that
compares runs of digits by value, unit "2" precedes unit "11". -/
theorem groupedData_paper_order (h : Host) (hcons : h.Consistent)
    (hnum : h.NumericConsistent) (data : List Record) (activeTab sortOrder : String)
    (gs : List PaperGroup)
    (hok : groupedData h data activeTab "paper" sortOrder = .ok (.paper gs)) :
    (sortOrder ≠ "az" → sortOrder ≠ "za" →
      (∀ a ∈ gs, ∀ b ∈ gs,
        h.localeCompare (toStr a.subject) (toStr b.subject) = 0 → a.subject = b.subject) →
      gs.Pairwise (fun a b =>
        (a.isOldSyllabus = false ∧ b.isOldSyllabus = true)
        ∨ (a.isOldSyllabus = b.isOldSyllabus
            ∧ (h.localeCompare (toStr a.subject) (toStr b.subject) < 0
              ∨ (a.subject = b.subject
                  ∧ h.localeCompareNumeric (toStr a.unit) (toStr b.unit) ≤ 0)))))
    ∧ (sortOrder = "az" →
      gs.Pairwise (fun a b =>
        (a.isOldSyllabus = false ∧ b.isOldSyllabus = true)
        ∨ (a.isOldSyllabus = b.isOldSyllabus
            ∧ h.localeCompare (toStr a.subject) (toStr b.subject) ≤ 0)))
    ∧ (sortOrder = "za" →
      gs.Pairwise (fun a b =>
        (a.isOldSyllabus = false ∧ b.isOldSyllabus = true)
        ∨ (a.isOldSyllabus = b.isOldSyllabus
            ∧ h.localeCompare (toStr b.subject) (toStr a.subject) ≤ 0)))
    ∧ (sortOrder = "az" ∨ sortOrder = "za" →
      ∀ (s : JSVal) (flag : Bool),
        ((gs.filter (fun g => decide (g.subject = s ∧ g.isOldSyllabus = flag))).map
          (fun g => g.id)).Sublist
          (firstAppearance [] (data.filterMap (recordGroupKey activeTab))))
    ∧ groupedData numericHost [biology2024c11, biology2024c2] "cie" "paper" "newest"
        = .ok (.paper [biology2024c2Group, biology2024Group]) := by
  have hp := (groupedData_paper _ _ _ _ _).1 hok
  obtain ⟨finished, hsort, hids, -⟩ := groupedPaper_order h data activeTab sortOrder gs hp
  have hperm := arraySort_perm _ _ _ hsort
  refine ⟨?_, ?_, ?_, ?_, by decide⟩
  · intro haz hza hsep
    exact paperGroups_sorted_default h hcons hnum sortOrder haz hza finished gs
      (fun a ha b hb => hsep a (hperm.mem_iff.2 ha) b (hperm.mem_iff.2 hb)) hsort
  · intro e
    subst e
    exact paperGroups_sorted_az h hcons finished gs hsort
  · intro e
    subst e
    exact paperGroups_sorted_za h hcons finished gs hsort
  · intro hord s flag
    rw [paperGroups_stable h hcons sortOrder hord finished gs hsort s flag, ← hids]
    exact (List.filter_sublist _).map _

theorem groupedData_paper_order_witness :
    groupedData plainHost [biology2019, chemistry2024] "cie" "paper" "newest"
        = .ok (.paper [chemistry2024Group, biology2019Group])
    ∧ [chemistry2024Group, biology2019Group].Pairwise (fun a b =>
        (a.isOldSyllabus = false ∧ b.isOldSyllabus = true)
        ∨ (a.isOldSyllabus = b.isOldSyllabus
            ∧ (plainHost.localeCompare (toStr a.subject) (toStr b.subject) < 0
              ∨ (a.subject = b.subject
                  ∧ plainHost.localeCompareNumeric (toStr a.unit) (toStr b.unit) ≤ 0)))) :=
  ⟨by decide,
    (groupedData_paper_order plainHost plainHost_consistent plainHost_numericConsistent
      [biology2019, chemistry2024] "cie" "newest" [chemistry2024Group, biology2019Group]
      (by decide)).1 (by decide) (by decide) (by decide)⟩


/-! ## Lemmas on the CIE by-session loop -/

theorem objModify_self {β : Type} (m : List (String × β)) (k : String) :
    objModify m k (fun v => v) = m := by
  unfold objModify
  have e : (fun kv : String × β => if kv.1 = k then (kv.1, kv.2) else kv) = id := by
    funext kv
    obtain ⟨a, b⟩ := kv
    by_cases hk : a = k <;> simp [hk]
  rw [e, List.map_id]

theorem cieInsert_ok (groups out : List (String × CIEGroup)) (item : Record)
    (h : cieInsert groups item = .ok out) :
    out = cieInsertOk groups item
    ∧ (toStr item.Component ∈ objectPrototypeKeys → truthy item.Component = true →
        (item.Type_ = .str "qp" ∨ item.Type_ = .str "ms")
        ∧ toStr item.Component ≠ "__proto__") := by
  unfold cieInsert at h
  unfold cieInsertOk
  by_cases ht : truthy item.Component = true
  · rw [if_pos ht] at h
    by_cases hp : toStr item.Component ∈ objectPrototypeKeys
    · rw [if_pos hp] at h
      by_cases hty : item.Type_ = .str "qp" ∨ item.Type_ = .str "ms"
      · rw [if_pos hty] at h
        by_cases hpr : toStr item.Component = "__proto__"
        · rw [if_pos hpr] at h
          cases h
        · rw [if_neg hpr] at h
          simp only [Except.ok.injEq] at h
          subst h
          refine ⟨?_, fun _ _ => ⟨hty, hpr⟩⟩
          simp only [ht, hp, if_true]
          rw [objModify_self]
          rfl
      · rw [if_neg hty] at h
        cases h
    · rw [if_neg hp] at h
      simp only [Except.ok.injEq] at h
      subst h
      refine ⟨?_, fun hh => absurd hh hp⟩
      simp only [ht, hp, if_true, if_false]
      rfl
  · rw [if_neg ht] at h
    simp only [Except.ok.injEq] at h
    subst h
    refine ⟨?_, fun _ hh => absurd hh ht⟩
    simp only [ht, if_false]
    rfl

theorem cieCollect_ok :
    ∀ (data : List Record) (groups out : List (String × CIEGroup)),
      cieCollect data groups = .ok out →
      out = data.foldl cieInsertOk groups
      ∧ ∀ item ∈ data, toStr item.Component ∈ objectPrototypeKeys →
          truthy item.Component = true →
          (item.Type_ = .str "qp" ∨ item.Type_ = .str "ms")
          ∧ toStr item.Component ≠ "__proto__" := by
  intro data
  induction data with
  | nil =>
    intro groups out h
    simp only [cieCollect, Except.ok.injEq] at h
    exact ⟨h.symm, by simp⟩
  | cons item rest ih =>
    intro groups out h
    unfold cieCollect at h
    cases hi : cieInsert groups item with
    | error e => simp [hi] at h
    | ok groups1 =>
      simp only [hi] at h
      obtain ⟨e1, hq1⟩ := cieInsert_ok groups groups1 item hi
      obtain ⟨e2, hq2⟩ := ih groups1 out h
      refine ⟨by rw [List.foldl_cons, ← e1]; exact e2, ?_⟩
      intro x hx
      rcases List.mem_cons.1 hx with e | e
      · subst e
        exact hq1
      · exact hq2 x e

theorem componentAt_cieInsert (groups : List (String × CIEGroup)) (item : Record)
    (gk ck : String) (hck : ck ∉ objectPrototypeKeys) :
    componentAt (cieInsertOk groups item) gk ck
      = if gk = cieKey item ∧ truthy item.Component = true ∧ ck = toStr item.Component then
          some (assignComponent item
            ((componentAt groups gk ck).getD { id := item.Component }))
        else componentAt groups gk ck := by
  unfold cieInsertOk componentAt
  simp only [lookup_objModify, lookup_objEnsure]
  by_cases hg : gk = cieKey item
  · subst hg
    by_cases ht : truthy item.Component = true
    · by_cases hc : ck = toStr item.Component
      · subst hc
        cases hl : groups.lookup (cieKey item) with
        | none => simp [ht, hck, lookup_objModify, lookup_objEnsure]
        | some g =>
          cases hcl : g.components.lookup (toStr item.Component) <;>
            simp [ht, hck, lookup_objModify, lookup_objEnsure, hcl]
      · by_cases hp : toStr item.Component ∈ objectPrototypeKeys
        · cases hl : groups.lookup (cieKey item) <;> simp [ht, hc, hp]
        · cases hl : groups.lookup (cieKey item) with
          | none => simp [ht, hc, hp, lookup_objModify, lookup_objEnsure]
          | some g =>
            cases hcl : g.components.lookup ck <;>
              simp [ht, hc, hp, lookup_objModify, lookup_objEnsure, hcl]
    · by_cases hp : toStr item.Component ∈ objectPrototypeKeys
      · cases hl : groups.lookup (cieKey item) <;> simp [ht, hp]
      · cases hl : groups.lookup (cieKey item) <;> simp [ht, hp]
  · cases hl : groups.lookup gk <;> simp [hg]

theorem componentAt_cieInsert_inherited (groups : List (String × CIEGroup)) (item : Record)
    (gk ck : String) (hck : ck ∈ objectPrototypeKeys)
    (hnone : ∀ g, groups.lookup gk = some g → g.components.lookup ck = none) :
    ∀ g, (cieInsertOk groups item).lookup gk = some g → g.components.lookup ck = none := by
  unfold cieInsertOk
  intro g hg
  rw [lookup_objModify, lookup_objEnsure] at hg
  by_cases hk : gk = cieKey item
  · subst hk
    by_cases ht : truthy item.Component = true
    · by_cases hp : toStr item.Component ∈ objectPrototypeKeys
      · cases hl : groups.lookup (cieKey item) with
        | none =>
          simp [hl, ht, hp] at hg
          subst hg
          rfl
        | some g0 =>
          simp [hl, ht, hp] at hg
          subst hg
          exact hnone g0 hl
      · have hne : ck ≠ toStr item.Component := by
          intro e
          exact hp (e ▸ hck)
        cases hl : groups.lookup (cieKey item) with
        | none =>
          simp [hl, ht, hp] at hg
          subst hg
          simp [lookup_objModify, lookup_objEnsure, hne]
        | some g0 =>
          simp [hl, ht, hp] at hg
          subst hg
          simp only [lookup_objModify, lookup_objEnsure, hne, if_false]
          rw [hnone g0 hl]
    · cases hl : groups.lookup (cieKey item) with
      | none =>
        simp [hl, ht] at hg
        subst hg
        rfl
      | some g0 =>
        simp [hl, ht] at hg
        subst hg
        exact hnone g0 hl
  · cases hl : groups.lookup gk with
    | none => simp [hl, hk] at hg
    | some g0 =>
      simp [hl, hk] at hg
      subst hg
      exact hnone g0 hl

theorem generalAt_cieInsert (groups : List (String × CIEGroup)) (item : Record)
    (gk : String) :
    generalAt (cieInsertOk groups item) gk
      = if gk = cieKey item ∧ truthy item.Component = false then
          assignGeneral item (generalAt groups gk)
        else generalAt groups gk := by
  unfold cieInsertOk generalAt
  simp only [lookup_objModify, lookup_objEnsure]
  by_cases hg : gk = cieKey item
  · subst hg
    by_cases ht : truthy item.Component = true
    · by_cases hp : toStr item.Component ∈ objectPrototypeKeys
      · cases hl : groups.lookup (cieKey item) <;> simp [ht, hp]
      · cases hl : groups.lookup (cieKey item) <;> simp [ht, hp]
    · cases hl : groups.lookup (cieKey item) <;> simp [ht]
  · cases hl : groups.lookup gk <;> simp [hg]

theorem componentAt_cieFold (gk ck : String) (hck : ck ∉ objectPrototypeKeys) :
    ∀ (data : List Record) (groups : List (String × CIEGroup)),
      componentAt (data.foldl cieInsertOk groups) gk ck
        = componentFold (componentRecords data gk ck) (componentAt groups gk ck) := by
  intro data
  induction data with
  | nil => intro groups; rfl
  | cons item rest ih =>
    intro groups
    rw [List.foldl_cons, ih, componentAt_cieInsert _ _ _ _ hck]
    unfold componentRecords
    rw [List.filter_cons]
    by_cases hc : gk = cieKey item ∧ truthy item.Component = true
        ∧ ck = toStr item.Component
    · obtain ⟨rfl, ht, rfl⟩ := hc
      simp [ht, componentFold]
    · have hd : decide (cieKey item = gk ∧ truthy item.Component = true
          ∧ toStr item.Component = ck) = false := by
        simp only [decide_eq_false_iff_not]
        intro hh
        exact hc ⟨hh.1.symm, hh.2.1, hh.2.2.symm⟩
      rw [hd, if_neg hc]
      rfl

theorem cieFold_inherited (gk ck : String) (hck : ck ∈ objectPrototypeKeys) :
    ∀ (data : List Record) (groups : List (String × CIEGroup)),
      (∀ g, groups.lookup gk = some g → g.components.lookup ck = none) →
      ∀ g, (data.foldl cieInsertOk groups).lookup gk = some g →
        g.components.lookup ck = none := by
  intro data
  induction data with
  | nil => intro groups h; exact h
  | cons item rest ih =>
    intro groups h
    rw [List.foldl_cons]
    exact ih _ (componentAt_cieInsert_inherited groups item gk ck hck h)

theorem generalAt_cieFold (gk : String) :
    ∀ (data : List Record) (groups : List (String × CIEGroup)),
      generalAt (data.foldl cieInsertOk groups) gk
        = generalFold (generalRecords data gk) (generalAt groups gk) := by
  intro data
  induction data with
  | nil => intro groups; rfl
  | cons item rest ih =>
    intro groups
    rw [List.foldl_cons, ih, generalAt_cieInsert]
    unfold generalRecords
    rw [List.filter_cons]
    by_cases hc : gk = cieKey item ∧ truthy item.Component = false
    · obtain ⟨rfl, ht⟩ := hc
      simp [ht, generalFold]
    · have hd : decide (cieKey item = gk ∧ truthy item.Component = false) = false := by
        simp only [decide_eq_false_iff_not]
        intro hh
        exact hc ⟨hh.1.symm, hh.2⟩
      rw [hd, if_neg hc]
      rfl


theorem assignComponent_fields (x : Record) (c : ComponentSlot) :
    (assignComponent x c).id = c.id
    ∧ (assignComponent x c).qp = (if x.Type_ = .str "qp" then some x else c.qp)
    ∧ (assignComponent x c).ms = (if x.Type_ = .str "ms" then some x else c.ms)
    ∧ (assignComponent x c).others
        = (if x.Type_ = .str "qp" ∨ x.Type_ = .str "ms" then c.others
           else c.others ++ [x]) := by
  unfold assignComponent
  by_cases h1 : x.Type_ = .str "qp"
  · simp [h1]
  · by_cases h2 : x.Type_ = .str "ms"
    · simp [h2]
    · simp [h1, h2]

theorem assignGeneral_fields (x : Record) (g : GeneralSlot) :
    (assignGeneral x g).er = (if x.Type_ = .str "er" then some x else g.er)
    ∧ (assignGeneral x g).gt = (if x.Type_ = .str "gt" then some x else g.gt)
    ∧ (assignGeneral x g).others
        = (if x.Type_ = .str "er" ∨ x.Type_ = .str "gt" then g.others
           else g.others ++ [x]) := by
  unfold assignGeneral
  by_cases h1 : x.Type_ = .str "er"
  · simp [h1]
  · by_cases h2 : x.Type_ = .str "gt"
    · simp [h2]
    · simp [h1, h2]

theorem componentFold_snoc (l : List Record) (x : Record) (init : Option ComponentSlot) :
    componentFold (l ++ [x]) init
      = some (assignComponent x ((componentFold l init).getD { id := x.Component })) := by
  simp [componentFold, List.foldl_append]

theorem componentFold_none_iff (recs : List Record) :
    componentFold recs none = none ↔ recs = [] := by
  induction recs using List.reverseRecOn with
  | nil => simp [componentFold]
  | append_singleton l x _ => simp [componentFold_snoc]

/-- The component object built from the records of one component: the slots qp and ms hold
the last record of their type, `others` the remaining records in order, and the id is the
Component of the first record. -/
theorem componentFold_spec (recs : List Record) :
    ∀ c, componentFold recs none = some c →
      c.qp = (recs.filter (fun r => decide (r.Type_ = .str "qp"))).getLast?
      ∧ c.ms = (recs.filter (fun r => decide (r.Type_ = .str "ms"))).getLast?
      ∧ c.others = recs.filter
          (fun r => !decide (r.Type_ = .str "qp" ∨ r.Type_ = .str "ms"))
      ∧ ∃ r0, recs.head? = some r0 ∧ c.id = r0.Component := by
  induction recs using List.reverseRecOn with
  | nil => intro c h; simp [componentFold] at h
  | append_singleton l x ih =>
    intro c h
    rw [componentFold_snoc] at h
    injection h with h
    subst h
    obtain ⟨hid, hqp, hms, hoth⟩ := assignComponent_fields x
      ((componentFold l none).getD { id := x.Component })
    rw [hid, hqp, hms, hoth]
    rw [getLast?_filter_snoc, getLast?_filter_snoc,
      filter_not_snoc (fun r : Record => decide (r.Type_ = JSVal.str "qp"
          ∨ r.Type_ = JSVal.str "ms"))]
    simp only [decide_eq_true_eq]
    cases hl : componentFold l none with
    | none =>
      have hnil : l = [] := (componentFold_none_iff l).1 hl
      subst hnil
      simp
    | some c1 =>
      obtain ⟨h1, h2, h3, r0, hr0, hid0⟩ := ih c1 hl
      simp only [Option.getD_some]
      refine ⟨by rw [h1], by rw [h2], by rw [h3], r0, ?_, hid0⟩
      cases l with
      | nil => simp at hr0
      | cons a l1 => simpa using hr0

/-- The object `general` built from the records without a component: the slots er and gt
hold the last record of their type, `others` the remaining records in order. -/
theorem generalFold_spec (recs : List Record) :
    (generalFold recs {}).er = (recs.filter (fun r => decide (r.Type_ = .str "er"))).getLast?
    ∧ (generalFold recs {}).gt
        = (recs.filter (fun r => decide (r.Type_ = .str "gt"))).getLast?
    ∧ (generalFold recs {}).others = recs.filter
        (fun r => !decide (r.Type_ = .str "er" ∨ r.Type_ = .str "gt")) := by
  induction recs using List.reverseRecOn with
  | nil => simp [generalFold]
  | append_singleton l x ih =>
    have e : generalFold (l ++ [x]) {} = assignGeneral x (generalFold l {}) := by
      simp [generalFold, List.foldl_append]
    obtain ⟨her, hgt, hoth⟩ := assignGeneral_fields x (generalFold l {})
    obtain ⟨h1, h2, h3⟩ := ih
    rw [e, her, hgt, hoth, getLast?_filter_snoc, getLast?_filter_snoc,
      filter_not_snoc (fun r : Record => decide (r.Type_ = JSVal.str "er"
          ∨ r.Type_ = JSVal.str "gt")), h1, h2, h3]
    simp only [decide_eq_true_eq]
    exact ⟨trivial, trivial, trivial⟩

theorem mem_firstAppearance_of_mem (ks : List String) :
    ∀ (seen : List String) (k : String), k ∈ seen ∨ k ∈ ks → k ∈ firstAppearance seen ks := by
  induction ks with
  | nil =>
    intro seen k h
    rcases h with e | e
    · exact e
    · simp at e
  | cons a ks ih =>
    intro seen k h
    rw [firstAppearance_cons]
    refine ih _ k ?_
    by_cases ha : a ∈ seen
    · simp only [ha, if_true]
      rcases h with e | e
      · exact Or.inl e
      · rcases List.mem_cons.1 e with e1 | e1
        · exact Or.inl (e1 ▸ ha)
        · exact Or.inr e1
    · simp only [ha, if_false, List.mem_append, List.mem_singleton]
      rcases h with e | e
      · exact Or.inl (Or.inl e)
      · rcases List.mem_cons.1 e with e1 | e1
        · exact Or.inl (Or.inr e1)
        · exact Or.inr e1

theorem cieFold_keys :
    ∀ (data : List Record) (groups : List (String × CIEGroup)),
      (data.foldl cieInsertOk groups).map Prod.fst
        = firstAppearance (groups.map Prod.fst) (data.map cieKey) := by
  intro data
  induction data with
  | nil => intro groups; rfl
  | cons item rest ih =>
    intro groups
    rw [List.foldl_cons, ih, List.map_cons, firstAppearance_cons]
    unfold cieInsertOk
    rw [keys_objModify, keys_objEnsure]

/-- Well-formedness of the object `groups` of the CIE by-session loop: distinct keys, each
group stored under its id, and distinct component keys within each group. -/
theorem cieFold_wf :
    ∀ (data : List Record) (groups : List (String × CIEGroup)),
      (groups.map Prod.fst).Nodup →
      (∀ kv ∈ groups, kv.2.id = kv.1 ∧ (kv.2.components.map Prod.fst).Nodup) →
      ((data.foldl cieInsertOk groups).map Prod.fst).Nodup
      ∧ ∀ kv ∈ data.foldl cieInsertOk groups,
          kv.2.id = kv.1 ∧ (kv.2.components.map Prod.fst).Nodup := by
  intro data
  induction data with
  | nil => intro groups hn hq; exact ⟨hn, hq⟩
  | cons item rest ih =>
    intro groups hn hq
    rw [List.foldl_cons]
    refine ih _ ?_ ?_
    · unfold cieInsertOk
      rw [keys_objModify]
      exact nodup_keys_objEnsure _ _ _ hn
    · unfold cieInsertOk
      refine objModify_forall_pair
        (fun kv : String × CIEGroup =>
          kv.2.id = kv.1 ∧ (kv.2.components.map Prod.fst).Nodup) _ _ _
        (objEnsure_forall_pair _ _ _ _ hq (by simp)) ?_
      intro v hv
      by_cases ht : truthy item.Component = true
      · by_cases hp : toStr item.Component ∈ objectPrototypeKeys
        · simp only [ht, hp, if_true]
          exact hv
        · simp only [ht, hp, if_true, if_false]
          refine ⟨hv.1, ?_⟩
          rw [keys_objModify]
          exact nodup_keys_objEnsure _ _ _ hv.2
      · simp only [ht, if_false]
        exact hv


theorem finishCIEGroup_ok (h : Host) (g out : CIEGroup) (hg : finishCIEGroup h g = .ok out) :
    out.id = g.id ∧ out.subject = g.subject ∧ out.year = g.year ∧ out.session = g.session
    ∧ out.general = g.general ∧ out.components = g.components
    ∧ arraySort
        (fun a b => (.ok (some (h.localeCompareNumeric (toStr a.id) (toStr b.id))) :
          Except JSError (Option Int)))
        (objectValues g.components) = .ok out.sortedComponents := by
  unfold finishCIEGroup at hg
  cases hs : arraySort
      (fun a b : ComponentSlot =>
        (.ok (some (h.localeCompareNumeric (toStr a.id) (toStr b.id))) :
          Except JSError (Option Int)))
      (objectValues g.components) with
  | error e => simp [hs] at hg
  | ok sorted =>
    simp only [hs, Except.ok.injEq] at hg
    subst hg
    simp

theorem groupedData_cie (h : Host) (data : List Record)
    (activeTab viewMode sortOrder : String) (gs : List CIEGroup)
    (hok : groupedData h data activeTab viewMode sortOrder = .ok (.cie gs)) :
    groupedSessionCIE h data sortOrder = .ok gs := by
  unfold groupedData at hok
  by_cases hv : viewMode = "paper"
  · simp only [hv, if_true] at hok
    cases hp : groupedPaper h data activeTab sortOrder <;> simp [hp] at hok
  · simp only [hv, if_false] at hok
    by_cases ht : activeTab = "ial"
    · simp only [ht, if_true] at hok
      cases hp : groupedSessionIAL h data sortOrder <;> simp [hp] at hok
    · simp only [ht, if_false] at hok
      by_cases hc : activeTab = "cie"
      · simp only [hc, if_true] at hok
        cases hp : groupedSessionCIE h data sortOrder with
        | error e => simp [hp] at hok
        | ok gs1 =>
          simp only [hp, Except.ok.injEq, Grouped.cie.injEq] at hok
          rw [hok]
      · simp [hc] at hok

theorem groupedData_ial (h : Host) (data : List Record)
    (activeTab viewMode sortOrder : String) (gs : List IALGroup)
    (hok : groupedData h data activeTab viewMode sortOrder = .ok (.ial gs)) :
    groupedSessionIAL h data sortOrder = .ok gs := by
  unfold groupedData at hok
  by_cases hv : viewMode = "paper"
  · simp only [hv, if_true] at hok
    cases hp : groupedPaper h data activeTab sortOrder <;> simp [hp] at hok
  · simp only [hv, if_false] at hok
    by_cases ht : activeTab = "ial"
    · simp only [ht, if_true] at hok
      cases hp : groupedSessionIAL h data sortOrder with
      | error e => simp [hp] at hok
      | ok gs1 =>
        simp only [hp, Except.ok.injEq, Grouped.ial.injEq] at hok
        rw [hok]
    · simp only [ht, if_false] at hok
      by_cases hc : activeTab = "cie"
      · simp only [hc, if_true] at hok
        cases hp : groupedSessionCIE h data sortOrder <;> simp [hp] at hok
      · simp [hc] at hok

/-- The shape of the CIE by-session output: one group per group key, one component object
per component key of a group, each the fold of the records of that component, and the
object `general` the fold of the records of the group without a component. No component
key names a member of `Object.prototype`, and a record whose Component does is of Type qp
or ms. -/
theorem groupedSessionCIE_structure (h : Host) (data : List Record) (sortOrder : String)
    (gs : List CIEGroup) (hok : groupedSessionCIE h data sortOrder = .ok gs) :
    (gs.map (fun g => g.id)).Nodup
    ∧ (∀ r ∈ data, ∃ g ∈ gs, g.id = cieKey r
        ∧ (truthy r.Component = true → toStr r.Component ∉ objectPrototypeKeys →
            ∃ c, (toStr r.Component, c) ∈ g.components))
    ∧ (∀ r ∈ data, toStr r.Component ∈ objectPrototypeKeys → truthy r.Component = true →
        (r.Type_ = .str "qp" ∨ r.Type_ = .str "ms") ∧ toStr r.Component ≠ "__proto__")
    ∧ ∀ g ∈ gs, (g.components.map Prod.fst).Nodup
        ∧ (∀ kc ∈ g.components, kc.1 ∉ objectPrototypeKeys
            ∧ componentFold (componentRecords data g.id kc.1) none = some kc.2)
        ∧ g.general = generalFold (generalRecords data g.id) {} := by
  obtain ⟨groups, finished, hcol, htr, hsort⟩ := groupedSessionCIE_ok h data sortOrder gs hok
  obtain ⟨hgroups, htypes⟩ := cieCollect_ok data [] groups hcol
  subst hgroups
  obtain ⟨hn, hq⟩ := cieFold_wf data [] (by simp) (by simp)
  have hkeys := cieFold_keys data []
  simp only [List.map_nil] at hkeys
  have hF := traverse_ok _ _ _ htr
  have hperm := arraySort_perm _ _ _ hsort
  refine ⟨?_, ?_, htypes, ?_⟩
  · have h1 : (objectValues (data.foldl cieInsertOk [])).map (fun acc => acc.id)
        = finished.map (fun g => g.id) :=
      forall₂_map_eq _ _ hF (fun a b hab => ((finishCIEGroup_ok h a b hab).1).symm)
    have h2 : ((data.foldl cieInsertOk []).map Prod.snd).map (fun acc => acc.id)
        = (data.foldl cieInsertOk []).map Prod.fst := by
      rw [List.map_map]
      exact List.map_congr_left (fun kv hkv => (hq kv hkv).1)
    have h3 : (finished.map (fun g => g.id)).Perm
        ((data.foldl cieInsertOk []).map Prod.fst) := by
      rw [← h1, ← h2]
      exact (objectValues_perm _).map _
    exact ((hperm.map _).trans h3).nodup_iff.2 hn
  · intro r hr
    have hmem : cieKey r ∈ (data.foldl cieInsertOk []).map Prod.fst := by
      rw [hkeys]
      exact mem_firstAppearance_of_mem _ _ _ (Or.inr (List.mem_map_of_mem _ hr))
    obtain ⟨kv, hkv, hk⟩ := List.mem_map.1 hmem
    obtain ⟨k, acc⟩ := kv
    simp only at hk
    subst hk
    obtain ⟨g, hg, hfin⟩ := forall₂_mem_left hF acc ((mem_objectValues _ _).2 ⟨_, hkv⟩)
    obtain ⟨hid, -, -, -, -, hcomp, -⟩ := finishCIEGroup_ok h acc g hfin
    refine ⟨g, hperm.mem_iff.2 hg, by rw [hid]; exact (hq _ hkv).1, ?_⟩
    intro ht hp
    have hl : (data.foldl cieInsertOk []).lookup (cieKey r) = some acc :=
      lookup_of_mem_nodup _ _ _ hn hkv
    have hc := componentAt_cieFold (cieKey r) (toStr r.Component) hp data []
    have hc0 : componentAt ([] : List (String × CIEGroup)) (cieKey r) (toStr r.Component)
        = none := rfl
    rw [hc0] at hc
    simp only [componentAt, hl] at hc
    have hne : componentFold (componentRecords data (cieKey r) (toStr r.Component)) none
        ≠ none := by
      rw [Ne, componentFold_none_iff]
      intro e
      have hm : r ∈ componentRecords data (cieKey r) (toStr r.Component) := by
        unfold componentRecords
        exact List.mem_filter.2 ⟨hr, by simp [ht]⟩
      rw [e] at hm
      simp at hm
    rw [← hc] at hne
    cases hlc : acc.components.lookup (toStr r.Component) with
    | none => exact absurd hlc hne
    | some c =>
      rw [hcomp]
      exact ⟨c, lookup_eq_some_mem _ _ _ hlc⟩
  · intro g hg
    obtain ⟨acc, hacc, hfin⟩ := forall₂_mem_right hF g (hperm.mem_iff.1 hg)
    obtain ⟨k, hk⟩ := (mem_objectValues _ _).1 hacc
    obtain ⟨hid, -, -, -, hgen, hcomp, -⟩ := finishCIEGroup_ok h acc g hfin
    obtain ⟨hidk, hcn⟩ := hq _ hk
    simp only at hidk hcn
    have hl : (data.foldl cieInsertOk []).lookup k = some acc :=
      lookup_of_mem_nodup _ _ _ hn hk
    refine ⟨hcomp ▸ hcn, ?_, ?_⟩
    · intro kc hkc
      rw [hcomp] at hkc
      have h2 : acc.components.lookup kc.1 = some kc.2 := lookup_of_mem_nodup _ _ _ hcn hkc
      have hnp : kc.1 ∉ objectPrototypeKeys := by
        intro hp
        have h3 := cieFold_inherited k kc.1 hp data [] (by simp) acc hl
        rw [h2] at h3
        cases h3
      refine ⟨hnp, ?_⟩
      have hc := componentAt_cieFold k kc.1 hnp data []
      have hc0 : componentAt ([] : List (String × CIEGroup)) k kc.1 = none := rfl
      rw [hc0] at hc
      simp only [componentAt, hl] at hc
      rw [hid, hidk, ← hc, h2]
    · have hgf := generalAt_cieFold k data []
      have hg0 : generalAt ([] : List (String × CIEGroup)) k = {} := rfl
      rw [hg0] at hgf
      simp only [generalAt, hl] at hgf
      rw [hgen, hid, hidk, hgf]


/-! ## CIE by-session grouping: buckets -/

/-- C22, as stated, fails for a Component named like a member of `Object.prototype`: the
test `!groups[key].components[comp]` of line 489 finds the inherited member, no component
object is created, and the assignment of line 493 sets a property of that member. The
question paper with Component "constructor" gets its group, but the group has no component
object and an empty `general`: the record is in no bucket. -/
theorem component_named_constructor_has_no_bucket :
    truthy constructorQP.Component = true
    ∧ groupedData plainHost [constructorQP] "cie" "session" "newest"
        = .ok (.cie [constructorGroup])
    ∧ constructorGroup.id = cieKey constructorQP
    ∧ constructorGroup.components = []
    ∧ constructorGroup.sortedComponents = []
    ∧ constructorGroup.general = {} := by
  decide

/-- C22, amended: by-session buckets of the CIE family, with groups and buckets told apart
by their keys. In every CIE by-session output the group ids are pairwise distinct and every
record has the group whose id is its key `Subject|Year|Session`; a record with a non-empty
(truthy) Component that names no member of `Object.prototype` has in that group the bucket
keyed by the string form of its Component. Each component bucket is the fold of the
records of its group with that Component: qp and ms hold the last such record of that
Type, `others` holds the remaining ones in input order. The bucket `general` of a group is
the fold of the records of the group with a null, absent or empty (falsy) Component: er
and gt hold the last such record of that Type, `others` the remaining ones in input order.
No record counts for both, and a record whose Component names a member of
`Object.prototype` is of Type qp or ms and counts for no bucket. -/
theorem groupedData_cie_buckets (h : Host) (data : List Record)
    (activeTab viewMode sortOrder : String) (gs : List CIEGroup)
    (hok : groupedData h data activeTab viewMode sortOrder = .ok (.cie gs)) :
    (gs.map (fun g => g.id)).Nodup
    ∧ (∀ r ∈ data, ∃ g ∈ gs, g.id = cieKey r
        ∧ (truthy r.Component = true → toStr r.Component ∉ objectPrototypeKeys →
            ∃ c, (toStr r.Component, c) ∈ g.components))
    ∧ (∀ g ∈ gs, (g.components.map Prod.fst).Nodup
        ∧ (∀ kc ∈ g.components,
            kc.2.qp = ((componentRecords data g.id kc.1).filter
                (fun r => decide (r.Type_ = .str "qp"))).getLast?
            ∧ kc.2.ms = ((componentRecords data g.id kc.1).filter
                (fun r => decide (r.Type_ = .str "ms"))).getLast?
            ∧ kc.2.others = (componentRecords data g.id kc.1).filter
                (fun r => !decide (r.Type_ = .str "qp" ∨ r.Type_ = .str "ms")))
        ∧ g.general.er = ((generalRecords data g.id).filter
            (fun r => decide (r.Type_ = .str "er"))).getLast?
        ∧ g.general.gt = ((generalRecords data g.id).filter
            (fun r => decide (r.Type_ = .str "gt"))).getLast?
        ∧ g.general.others = (generalRecords data g.id).filter
            (fun r => !decide (r.Type_ = .str "er" ∨ r.Type_ = .str "gt"))
        ∧ ∀ r ∈ generalRecords data g.id, ∀ ck, r ∉ componentRecords data g.id ck)
    ∧ ∀ r ∈ data, truthy r.Component = true → toStr r.Component ∈ objectPrototypeKeys →
        (r.Type_ = .str "qp" ∨ r.Type_ = .str "ms")
        ∧ ∀ g ∈ gs, r ∉ generalRecords data g.id
            ∧ ∀ kc ∈ g.components, r ∉ componentRecords data g.id kc.1 := by
  obtain ⟨hn, hrec, htypes, hgrp⟩ := groupedSessionCIE_structure h data sortOrder gs
    (groupedData_cie h data activeTab viewMode sortOrder gs hok)
  refine ⟨hn, hrec, ?_, ?_⟩
  · intro g hg
    obtain ⟨hcn, hcomp, hgen⟩ := hgrp g hg
    obtain ⟨her, hgt, hoth⟩ := generalFold_spec (generalRecords data g.id)
    refine ⟨hcn, ?_, hgen ▸ her, hgen ▸ hgt, hgen ▸ hoth, ?_⟩
    · intro kc hkc
      obtain ⟨h1, h2, h3, -⟩ := componentFold_spec _ kc.2 (hcomp kc hkc).2
      exact ⟨h1, h2, h3⟩
    · intro r hr ck hc
      have h1 := (List.mem_filter.1 hr).2
      have h2 := (List.mem_filter.1 hc).2
      simp only [decide_eq_true_eq] at h1 h2
      rw [h1.2] at h2
      exact absurd h2.2.1 (by simp)
  · intro r hr ht hp
    refine ⟨(htypes r hr hp ht).1, ?_⟩
    intro g hg
    refine ⟨?_, ?_⟩
    · intro hmem
      have h1 := (List.mem_filter.1 hmem).2
      simp only [decide_eq_true_eq] at h1
      rw [ht] at h1
      exact absurd h1.2 (by simp)
    · intro kc hkc hmem
      have h1 := (List.mem_filter.1 hmem).2
      simp only [decide_eq_true_eq] at h1
      exact ((hgrp g hg).2.1 kc hkc).1 (h1.2.2 ▸ hp)

/-- Witness for C22: a question paper of component 22 and an examiner report without a
component, of one session, give one group with the bucket "22" and the report in
`general`. -/
theorem groupedData_cie_buckets_witness :
    groupedData plainHost [biologyQP, biologyER] "cie" "session" "newest"
        = .ok (.cie [biologySessionCIE])
    ∧ ∀ r ∈ [biologyQP, biologyER], ∃ g ∈ [biologySessionCIE], g.id = cieKey r
        ∧ (truthy r.Component = true → toStr r.Component ∉ objectPrototypeKeys →
            ∃ c, (toStr r.Component, c) ∈ g.components) :=
  ⟨by decide,
    (groupedData_cie_buckets plainHost [biologyQP, biologyER] "cie" "session" "newest"
      [biologySessionCIE] (by decide)).2.1⟩

/-! ## CIE by-session grouping: the year of a group -/

/-- C23: in the CIE by-session mode a record whose Year is null, absent or the non-numeric
string "n/a" is placed in a group whose year is `NaN`, the value of `parseInt`, and not the
sentinel 'Resources' (line 479 tests for the string 'Unknown' only), whereas the IAL
by-session mode (line 426) places a record with a null or absent Year in a group whose year
is 'Resources'. -/
theorem cie_year_nan_not_resources :
    groupedData plainHost [biologyOfYear .null] "cie" "session" "newest"
        = .ok (.cie [biologyGroupOfYear .null (.number none)])
    ∧ groupedData plainHost [biologyOfYear .undefined] "cie" "session" "newest"
        = .ok (.cie [biologyGroupOfYear .undefined (.number none)])
    ∧ groupedData plainHost [biologyOfYear (.str "n/a")] "cie" "session" "newest"
        = .ok (.cie [biologyGroupOfYear (.str "n/a") (.number none)])
    ∧ SessionYear.number none ≠ SessionYear.resources
    ∧ groupedData plainHost [ialOfYear .null] "ial" "session" "newest"
        = .ok (.ial [ialGroupOfYear .null .resources])
    ∧ groupedData plainHost [ialOfYear .undefined] "ial" "session" "newest"
        = .ok (.ial [ialGroupOfYear .undefined .resources]) := by
  decide

/-! ## Order of the by-session groups -/

/-- C25: in the CIE by-session mode with the order 'newest', a record without a Year gets
a group whose year is `NaN`, not 'Resources', and the comparator, whose result is `NaN`,
leaves that group where the input has it: behind the group of the year 2020 of the same
subject when its record comes second. In the IAL by-session mode the group of such a
record has the year 'Resources' and comes first, as year 9999. -/
theorem newest_absent_year_not_first :
    groupedData plainHost [biologyOfYear (.num 2020), biologyOfYear .undefined] "cie"
        "session" "newest"
      = .ok (.cie [biologyGroupOfYear (.num 2020) (.number (some 2020)),
          biologyGroupOfYear .undefined (.number none)])
    ∧ groupedData plainHost [biologyOfYear .undefined, biologyOfYear (.num 2020)] "cie"
        "session" "newest"
      = .ok (.cie [biologyGroupOfYear .undefined (.number none),
          biologyGroupOfYear (.num 2020) (.number (some 2020))])
    ∧ (biologyGroupOfYear (.num 2020) (.number (some 2020))).subject
        = (biologyGroupOfYear .undefined (.number none)).subject
    ∧ (biologyGroupOfYear .undefined (.number none)).year ≠ .resources
    ∧ groupedData plainHost [ialOfYear (.num 2020), ialOfYear .undefined] "ial"
        "session" "newest"
      = .ok (.ial [ialGroupOfYear .undefined .resources,
          ialGroupOfYear (.num 2020) (.number (some 2020))]) := by
  decide

/-- C24: in the CIE by-session mode with the order 'oldest', a record without a Year gets
a group whose year is `NaN`, not 'Resources', and the comparator, whose result is `NaN`,
leaves that group where the input has it: behind the group of the year 2020 when its
record comes second. In the IAL by-session mode the group of such a record has the year
'Resources' and comes first, as year -1. -/
theorem oldest_absent_year_not_first :
    groupedData plainHost [biologyOfYear (.num 2020), biologyOfYear .undefined] "cie"
        "session" "oldest"
      = .ok (.cie [biologyGroupOfYear (.num 2020) (.number (some 2020)),
          biologyGroupOfYear .undefined (.number none)])
    ∧ groupedData plainHost [biologyOfYear .undefined, biologyOfYear (.num 2020)] "cie"
        "session" "oldest"
      = .ok (.cie [biologyGroupOfYear .undefined (.number none),
          biologyGroupOfYear (.num 2020) (.number (some 2020))])
    ∧ (biologyGroupOfYear .undefined (.number none)).year ≠ .resources
    ∧ groupedData plainHost [ialOfYear (.num 2020), ialOfYear .undefined] "ial"
        "session" "oldest"
      = .ok (.ial [ialGroupOfYear .undefined .resources,
          ialGroupOfYear (.num 2020) (.number (some 2020))]) := by
  decide

end MoonPapers
